import Mathlib

/-!
TFTP server (tftpserv.c): shallow embedding and verified properties.

Octets are natural numbers below 256, buffers and datagrams are lists of
octets, C strings are the lists of their characters before the terminating
NUL.  The host byte order is a parameter of the embedding: a `true` flag is a
little-endian host, `false` a big-endian one.
-/

namespace Tftp

/-! ## Constants of the source -/

/-- Number of receive attempts per response cycle (`#define RECV_RETRIES 5`). -/
def RECV_RETRIES : Nat := 5

/-- Opcode `RRQ` of `enum opcode`. -/
def RRQ : Nat := 1
/-- Opcode `WRQ` of `enum opcode`. -/
def WRQ : Nat := 2
/-- Opcode `DATA` of `enum opcode`. -/
def DATA : Nat := 3
/-- Opcode `ACK` of `enum opcode`. -/
def ACK : Nat := 4
/-- Opcode `ERROR` of `enum opcode`. -/
def ERROR : Nat := 5

/-- Transfer mode `NETASCII` of `enum mode`. -/
def NETASCII : Nat := 1
/-- Transfer mode `OCTET` of `enum mode`. -/
def OCTET : Nat := 2

/-- The size of the `tftp_message` union: 2 + 514 octets. -/
def MSG_SIZE : Nat := 516

/-! ## Octets, 16-bit words and the host byte order -/

/-- The characters of a string literal as octets (the C string without its NUL). -/
def cs (s : String) : List Nat := s.toList.map Char.toNat

/-- Exchange the two octets of a 16-bit value. -/
def bswap16 (x : Nat) : Nat := (x % 256) * 256 + (x / 256) % 256

/-- The function `htons`: the identity on a big-endian host, an octet swap on a
little-endian one. -/
def htons (le : Bool) (x : Nat) : Nat := if le then bswap16 x else x % 65536

/-- The function `ntohs`, the same operation as `htons`. -/
def ntohs (le : Bool) (x : Nat) : Nat := if le then bswap16 x else x % 65536

/-- The two octets a `uint16_t` occupies in memory, in address order. -/
def store16 (le : Bool) (x : Nat) : List Nat :=
  if le then [x % 256, (x / 256) % 256] else [(x / 256) % 256, x % 256]

/-- The `uint16_t` read from a buffer at an octet offset. -/
def load16 (le : Bool) (m : List Nat) (off : Nat) : Nat :=
  if le then m.getD off 0 + 256 * m.getD (off + 1) 0
  else 256 * m.getD off 0 + m.getD (off + 1) 0

/-! ## Encoders: the datagram each `tftp_send_*` passes to `sendto` -/

/-- The datagram of `tftp_send_data`: `m.opcode = htons(DATA)`,
`m.data.block_number = htons(block_number)`, `memcpy` of the data, and the
first `4 + dlen` octets of the union are sent. -/
def data_dgram (le : Bool) (block_number : Nat) (data : List Nat) : List Nat :=
  store16 le (htons le DATA) ++ store16 le (htons le block_number) ++ data

/-- The datagram of `tftp_send_ack`: `sizeof(m.ack)` = 4 octets. -/
def ack_dgram (le : Bool) (block_number : Nat) : List Nat :=
  store16 le (htons le ACK) ++ store16 le (htons le block_number)

/-- The datagram of `tftp_send_error` when the string is short enough:
`m.opcode = htons(ERROR)`, `m.error.error_code = error_code` (an `int` stored
into a `uint16_t`, no `htons`), `strcpy` of the string, and
`4 + strlen + 1` octets are sent. -/
def error_dgram (le : Bool) (error_code : Nat) (error_string : List Nat) : List Nat :=
  store16 le (htons le ERROR) ++ store16 le (error_code % 65536) ++ error_string ++ [0]

/-- What `tftp_send_error` hands to `sendto`: nothing when
`strlen(error_string) >= 512` (the call returns -1), the datagram otherwise. -/
def tftp_send_error_dgram (le : Bool) (error_code : Nat) (error_string : List Nat) :
    Option (List Nat) :=
  if error_string.length ≥ 512 then none
  else some (error_dgram le error_code error_string)

/-! ## Accessors the sessions use on a received message -/

/-- The expression `ntohs(m.opcode)`. -/
def msg_opcode (le : Bool) (m : List Nat) : Nat := ntohs le (load16 le m 0)

/-- The expression `ntohs(m.ack.block_number)` (same offset as `m.data.block_number`). -/
def msg_block_number (le : Bool) (m : List Nat) : Nat := ntohs le (load16 le m 2)

/-- The expression `ntohs(m.error.error_code)`. -/
def msg_error_code (le : Bool) (m : List Nat) : Nat := ntohs le (load16 le m 2)

/-- The octets after the 4-octet header (`m.data.data`, `c - 4` of them). -/
def msg_payload (m : List Nat) : List Nat := m.drop 4

/-- The C string at the start of a buffer: the octets before the first NUL. -/
def cstr (m : List Nat) : List Nat := m.takeWhile (fun c => c != 0)

/-- The string `m.error.error_string`. -/
def msg_error_string (m : List Nat) : List Nat := cstr (m.drop 4)

/-! ## C string functions used by the request handler -/

/-- The function `strlen`: the number of octets before the first NUL. -/
def strlen (s : List Nat) : Nat := (cstr s).length

/-- The function `strncmp` on two strings (the end of a list is the NUL):
compares at most `n` characters as unsigned octets and stops after a NUL. -/
def strncmp : List Nat → List Nat → Nat → Int
  | _, _, 0 => 0
  | a, b, n + 1 =>
    if a.headD 0 ≠ b.headD 0 then (a.headD 0 : Int) - (b.headD 0 : Int)
    else if a.headD 0 = 0 then 0
    else strncmp a.tail b.tail n

/-- The function `strstr`: the offset of the first occurrence of the needle
in the haystack, `none` for a NULL result. -/
def strstr : List Nat → List Nat → Option Nat
  | [], needle => if needle.isEmpty then some 0 else none
  | c :: h, needle =>
    if needle.isPrefixOf (c :: h) then some 0 else (strstr h needle).map (fun i => i + 1)

/-- The function `tolower` of the C locale. -/
def tolower (c : Nat) : Nat := if 65 ≤ c ∧ c ≤ 90 then c + 32 else c

/-- The function `strcasecmp`: compares the lower-cased characters of two strings. -/
def strcasecmp : List Nat → List Nat → Int
  | [], [] => 0
  | [], b :: _ => 0 - (tolower b : Int)
  | a :: _, [] => (tolower a : Int)
  | a :: as, b :: bs =>
    if tolower a = tolower b then strcasecmp as bs else (tolower a : Int) - (tolower b : Int)

/-! ## The environment of a request handler -/

/-- An IPv4 endpoint (`struct sockaddr_in`): address and port. -/
structure Addr where
  ip : Nat
  port : Nat
  deriving DecidableEq, Repr

/-- The result of one `recvfrom` on the session socket: a datagram with its
source address, a timeout (`-1` with `errno == EAGAIN`), or another failure. -/
inductive RecvResult where
  | dgram (src : Addr) (bytes : List Nat)
  | eagain
  | failed
  deriving DecidableEq, Repr

/-- The observable actions of a handler, in the order they happen. -/
inductive Event where
  | sendto (dst : Addr) (dgram : List Nat) (ok : Bool)
  | recvfrom (r : RecvResult)
  | fopen (filename : List Nat) (write : Bool) (errno : Option Nat)
  | fread (data : List Nat)
  | fwrite (data : List Nat) (written : Nat)
  | request_received (get : Bool) (filename : List Nat) (mode_s : List Nat)
  deriving DecidableEq, Repr

/-- A stream opened for reading: the file content and, when reading fails
before the end of the file, the offset at which it fails. -/
structure Stream where
  content : List Nat
  fail_at : Option Nat
  deriving DecidableEq, Repr

/-- The octets `fread` can deliver from a stream: the code never calls `ferror`
or `feof`, so a read error ends the stream like an end of file. -/
def Stream.readable (s : Stream) : List Nat :=
  match s.fail_at with
  | none => s.content
  | some k => s.content.take k

/-- How a handler process ends: the line it logs when it stops. -/
inductive Outcome where
  | setup_failed
  | invalid_filename_or_mode
  | mode_not_specified
  | outside_base_directory
  | open_failed (errno : Nat)
  | invalid_transfer_mode
  | killed
  | invalid_size
  | timed_out
  | peer_error (code : Nat)
  | invalid_message
  | invalid_ack_number
  | invalid_block_number
  | fwrite_failed
  | completed
  | running
  deriving DecidableEq, Repr

/-- The exit status of the handler process (`running`: no exit yet). -/
def Outcome.exit_code : Outcome → Option Nat
  | .completed => some 0
  | .running => none
  | _ => some 1

/-- The configuration of the server: host byte order and `base_directory`. -/
structure Config where
  le : Bool
  base_directory : List Nat

/-- The environment: every answer may depend on the events so far.
`socket_ok` is the success of `getprotobyname`, `socket` and `setsockopt`;
`sendto` says whether a send succeeds; `recvfrom` is the next receive result;
`fopen` gives the stream or the `errno` of the failure; `fwrite` gives the
number of octets written; `strerror` is the message of an `errno`; `perror`
gives the value `errno` holds after a call of `perror` made while `errno` is
`e` (the call writes to `stderr`; it leaves `errno` as it is or, when the
write fails, sets it). -/
structure Env where
  socket_ok : Bool
  sendto : List Event → Addr → List Nat → Bool
  recvfrom : List Event → RecvResult
  fopen : List Nat → Bool → Except Nat Stream
  fwrite : List Event → List Nat → Nat
  strerror : Nat → List Nat
  perror : Nat → Nat

/-! ## The send and receive helpers -/

/-- The function `tftp_send_data`: the trace after the call and its return value. -/
def tftp_send_data (cfg : Config) (env : Env) (tr : List Event) (block_number : Nat)
    (data : List Nat) (sock : Addr) : List Event × Int :=
  let m := data_dgram cfg.le block_number data
  let ok := env.sendto tr sock m
  (tr ++ [Event.sendto sock m ok], if ok then (m.length : Int) else -1)

/-- The function `tftp_send_ack`. -/
def tftp_send_ack (cfg : Config) (env : Env) (tr : List Event) (block_number : Nat)
    (sock : Addr) : List Event × Int :=
  let m := ack_dgram cfg.le block_number
  let ok := env.sendto tr sock m
  (tr ++ [Event.sendto sock m ok], if ok then (m.length : Int) else -1)

/-- The function `tftp_send_error`: returns -1 without sending when the
string has 512 characters or more. -/
def tftp_send_error (cfg : Config) (env : Env) (tr : List Event) (error_code : Nat)
    (error_string : List Nat) (sock : Addr) : List Event × Int :=
  match tftp_send_error_dgram cfg.le error_code error_string with
  | none => (tr, -1)
  | some m =>
    let ok := env.sendto tr sock m
    (tr ++ [Event.sendto sock m ok], if ok then (m.length : Int) else -1)

/-- The function `tftp_recv_message`: `recvfrom` into a buffer of
`sizeof(tftp_message)` octets, so a longer datagram is cut to 516 octets. -/
def tftp_recv_message (env : Env) (tr : List Event) : List Event × RecvResult :=
  match env.recvfrom tr with
  | .dgram src bytes =>
    (tr ++ [Event.recvfrom (.dgram src (bytes.take MSG_SIZE))], .dgram src (bytes.take MSG_SIZE))
  | r => (tr ++ [Event.recvfrom r], r)

/-! ## The transfer loops of `tftp_handle_request` -/

/-- How a retry loop (`for (countdown = RECV_RETRIES; countdown; countdown--)`)
is left: by `break` with a message of at least 4 octets, by `countdown`
reaching 0, or by `exit(1)`. -/
inductive Cycle where
  | got (m : List Nat)
  | exhausted
  | exit (o : Outcome)
  deriving DecidableEq, Repr

/-- The state after a retry loop: the trace, `client_sock` (which `recvfrom`
overwrites with the source of each datagram it delivers) and how the loop ended. -/
structure CycleResult where
  trace : List Event
  sock : Addr
  res : Cycle
  deriving DecidableEq, Repr

/-- The state in which a handler stops: the trace, the last value of
`client_sock`, the octets written to the opened file, and the outcome. -/
structure Result where
  trace : List Event
  sock : Addr
  sink : List Nat
  outcome : Outcome
  deriving DecidableEq, Repr

/-- The retry loop of the RRQ branch (lines 254-283): send the block, wait
for a message. -/
def rrq_cycle (cfg : Config) (env : Env) (block_number : Nat) (data : List Nat) :
    Nat → List Event → Addr → CycleResult
  | 0, tr, sock => ⟨tr, sock, .exhausted⟩
  | countdown + 1, tr, sock =>
    let sd := tftp_send_data cfg env tr block_number data sock
    if sd.2 < 0 then ⟨sd.1, sock, .exit .killed⟩
    else
      let rv := tftp_recv_message env sd.1
      match rv.2 with
      | .dgram src m =>
        if m.length < 4 then
          ⟨(tftp_send_error cfg env rv.1 0 (cs "invalid request size") src).1, src,
            .exit .invalid_size⟩
        else ⟨rv.1, src, .got m⟩
      | .eagain => rrq_cycle cfg env block_number data countdown rv.1 sock
      | .failed => ⟨rv.1, sock, .exit .killed⟩

/-- The `while (!to_close)` loop of the RRQ branch (lines 245-312).  `rest`
holds the octets the stream can still deliver; one unit of fuel is one
iteration. -/
def rrq_loop (cfg : Config) (env : Env) :
    Nat → List Nat → Nat → List Event → Addr → Result
  | 0, _, _, tr, sock => ⟨tr, sock, [], .running⟩
  | fuel + 1, rest, block_number, tr, sock =>
    let data := rest.take 512
    let tr0 := tr ++ [Event.fread data]
    let block_number := (block_number + 1) % 65536
    let to_close := decide (data.length < 512)
    let cy := rrq_cycle cfg env block_number data RECV_RETRIES tr0 sock
    match cy.res with
    | .exit o => ⟨cy.trace, cy.sock, [], o⟩
    | .exhausted => ⟨cy.trace, cy.sock, [], .timed_out⟩
    | .got m =>
      if msg_opcode cfg.le m = ERROR then
        ⟨cy.trace, cy.sock, [], .peer_error (msg_error_code cfg.le m)⟩
      else if msg_opcode cfg.le m ≠ ACK then
        ⟨(tftp_send_error cfg env cy.trace 0 (cs "invalid message during transfer") cy.sock).1,
          cy.sock, [], .invalid_message⟩
      else if msg_block_number cfg.le m ≠ block_number then
        ⟨(tftp_send_error cfg env cy.trace 0 (cs "invalid ack number") cy.sock).1,
          cy.sock, [], .invalid_ack_number⟩
      else if to_close then ⟨cy.trace, cy.sock, [], .completed⟩
      else rrq_loop cfg env fuel (rest.drop 512) block_number cy.trace cy.sock

/-- The RRQ branch (lines 234-314): `block_number = 0`, then the loop.  A
stream of `n` octets needs at most `n / 512 + 1` iterations. -/
def rrq_session (cfg : Config) (env : Env) (stream : Stream) (tr : List Event)
    (sock : Addr) : Result :=
  rrq_loop cfg env (stream.readable.length / 512 + 1) stream.readable 0 tr sock

/-- The retry loop of the WRQ branch (lines 337-366): wait for a message and
send the acknowledgement again after a timeout. -/
def wrq_cycle (cfg : Config) (env : Env) (block_number : Nat) :
    Nat → List Event → Addr → CycleResult
  | 0, tr, sock => ⟨tr, sock, .exhausted⟩
  | countdown + 1, tr, sock =>
    let rv := tftp_recv_message env tr
    match rv.2 with
    | .dgram src m =>
      if m.length < 4 then
        ⟨(tftp_send_error cfg env rv.1 0 (cs "invalid request size") src).1, src,
          .exit .invalid_size⟩
      else ⟨rv.1, src, .got m⟩
    | .failed => ⟨rv.1, sock, .exit .killed⟩
    | .eagain =>
      let sa := tftp_send_ack cfg env rv.1 block_number sock
      if sa.2 < 0 then ⟨sa.1, sock, .exit .killed⟩
      else wrq_cycle cfg env block_number countdown sa.1 sock

/-- The `while (!to_close)` loop of the WRQ branch (lines 335-416); one unit of
fuel is one iteration.  The value `fwrite` returns is a `size_t` stored in a
`ssize_t`, so the test `c < 0` compares a count that is never negative. -/
def wrq_loop (cfg : Config) (env : Env) :
    Nat → Nat → List Nat → List Event → Addr → Result
  | 0, _, sink, tr, sock => ⟨tr, sock, sink, .running⟩
  | fuel + 1, block_number, sink, tr, sock =>
    let cy := wrq_cycle cfg env block_number RECV_RETRIES tr sock
    match cy.res with
    | .exit o => ⟨cy.trace, cy.sock, sink, o⟩
    | .exhausted => ⟨cy.trace, cy.sock, sink, .timed_out⟩
    | .got m =>
      let block_number := (block_number + 1) % 65536
      let to_close := decide (m.length < MSG_SIZE)
      if msg_opcode cfg.le m = ERROR then
        ⟨cy.trace, cy.sock, sink, .peer_error (msg_error_code cfg.le m)⟩
      else if msg_opcode cfg.le m ≠ DATA then
        ⟨(tftp_send_error cfg env cy.trace 0 (cs "invalid message during transfer") cy.sock).1,
          cy.sock, sink, .invalid_message⟩
      else if msg_block_number cfg.le m ≠ block_number then
        ⟨(tftp_send_error cfg env cy.trace 0 (cs "invalid block number") cy.sock).1,
          cy.sock, sink, .invalid_block_number⟩
      else
        let payload := msg_payload m
        let c := min (env.fwrite cy.trace payload) payload.length
        let tr2 := cy.trace ++ [Event.fwrite payload c]
        let sink2 := sink ++ payload.take c
        if (c : Int) < 0 then ⟨tr2, cy.sock, sink2, .fwrite_failed⟩
        else
          let sa := tftp_send_ack cfg env tr2 block_number cy.sock
          if sa.2 < 0 then ⟨sa.1, cy.sock, sink2, .killed⟩
          else if to_close then ⟨sa.1, cy.sock, sink2, .completed⟩
          else wrq_loop cfg env fuel block_number sink2 sa.1 cy.sock

/-- The WRQ branch (lines 316-418): `block_number = 0`, ACK(0), then the loop. -/
def wrq_session (cfg : Config) (env : Env) (fuel : Nat) (tr : List Event)
    (sock : Addr) : Result :=
  let sa := tftp_send_ack cfg env tr 0 sock
  if sa.2 < 0 then ⟨sa.1, sock, [], .killed⟩
  else wrq_loop cfg env fuel 0 [] sa.1 sock

/-! ## Request parsing, path check and mode selection -/

/-- Why the request parser gives up. -/
inductive ParseError where
  | invalid_filename_or_mode
  | mode_not_specified
  deriving DecidableEq, Repr

/-- The request parser (lines 181-198) on the message buffer `m` and the
datagram length `len`: `filename` starts at offset 2, `end` is
`&filename[len - 2 - 1]`, `mode_s` follows the NUL of the filename. -/
def parse_request (m : List Nat) (len : Nat) : Except ParseError (List Nat × List Nat) :=
  let end_off := 2 + (len - 2 - 1)
  if m.getD end_off 0 ≠ 0 then .error .invalid_filename_or_mode
  else
    let filename := cstr (m.drop 2)
    let mode_off := 2 + filename.length + 1
    if mode_off > end_off then .error .mode_not_specified
    else .ok (filename, cstr (m.drop mode_off))

/-- The path check (lines 200-201): true when the request is refused. -/
def path_rejected (base_directory : List Nat) (filename : List Nat) : Bool :=
  strncmp filename (cs "../") 3 == 0 || (strstr filename (cs "/../")).isSome ||
    (filename.headD 0 == 47 &&
      strncmp filename base_directory (strlen base_directory) != 0)

/-- The mode selection (lines 217-219):
`strcasecmp(mode_s, "netascii") ? NETASCII : strcasecmp(mode_s, "octet") ? OCTET : 0`. -/
def select_mode (mode_s : List Nat) : Nat :=
  if strcasecmp mode_s (cs "netascii") ≠ 0 then NETASCII
  else if strcasecmp mode_s (cs "octet") ≠ 0 then OCTET
  else 0

/-- The function `tftp_handle_request` on the message buffer `m` (the 516
octets of the union, of which the datagram fills the first `len`) and the
address of the client.  `fuel` bounds the iterations of the WRQ loop.  When
`fopen` fails, `perror` is called (line 212) before `errno` is read for the
reply (line 213): the reply carries `errno` as `perror` leaves it, and the
outcome records the `errno` of `fopen`, which is what `perror` logs. -/
def tftp_handle_request (cfg : Config) (env : Env) (fuel : Nat) (m : List Nat) (len : Nat)
    (client_sock : Addr) : Result :=
  if !env.socket_ok then ⟨[], client_sock, [], .setup_failed⟩
  else
    match parse_request m len with
    | .error .invalid_filename_or_mode =>
      ⟨(tftp_send_error cfg env [] 0 (cs "invalid filename or mode") client_sock).1,
        client_sock, [], .invalid_filename_or_mode⟩
    | .error .mode_not_specified =>
      ⟨(tftp_send_error cfg env [] 0 (cs "transfer mode not specified") client_sock).1,
        client_sock, [], .mode_not_specified⟩
    | .ok (filename, mode_s) =>
      if path_rejected cfg.base_directory filename then
        ⟨(tftp_send_error cfg env [] 0 (cs "filename outside base directory") client_sock).1,
          client_sock, [], .outside_base_directory⟩
      else
        let opcode := msg_opcode cfg.le m
        match env.fopen filename (opcode != RRQ) with
        | .error fopen_errno =>
          let errno := env.perror fopen_errno
          ⟨(tftp_send_error cfg env [Event.fopen filename (opcode != RRQ) (some fopen_errno)]
              errno (env.strerror errno) client_sock).1,
            client_sock, [], .open_failed fopen_errno⟩
        | .ok stream =>
          let tr := [Event.fopen filename (opcode != RRQ) none]
          if select_mode mode_s = 0 then
            ⟨(tftp_send_error cfg env tr 0 (cs "invalid transfer mode") client_sock).1,
              client_sock, [], .invalid_transfer_mode⟩
          else
            let tr := tr ++ [Event.request_received (opcode == RRQ) filename mode_s]
            if opcode = RRQ then rrq_session cfg env stream tr client_sock
            else if opcode = WRQ then wrq_session cfg env fuel tr client_sock
            else ⟨tr, client_sock, [], .completed⟩

/-! ## Trace shapes used in the statements -/

/-- The events of `k` rounds of the RRQ retry loop that end in a timeout:
the block is sent, the receive times out. -/
def rrq_timeouts (sock : Addr) (dg : List Nat) : Nat → List Event
  | 0 => []
  | k + 1 => Event.sendto sock dg true :: Event.recvfrom .eagain :: rrq_timeouts sock dg k

/-- The events of `k` rounds of the WRQ retry loop that end in a timeout:
the receive times out, the acknowledgement is sent again. -/
def wrq_timeouts (sock : Addr) (dg : List Nat) : Nat → List Event
  | 0 => []
  | k + 1 => Event.recvfrom .eagain :: Event.sendto sock dg true :: wrq_timeouts sock dg k

/-- The outcomes a transfer loop can end with. -/
def Outcome.in_transfer : Outcome → Bool
  | .killed | .invalid_size | .timed_out | .peer_error _ | .invalid_message
  | .invalid_ack_number | .invalid_block_number | .fwrite_failed | .completed | .running => true
  | _ => false

/-- The datagrams handed to `sendto` in a trace, in order, with their destinations. -/
def sent_dgrams : List Event → List (Addr × List Nat)
  | [] => []
  | Event.sendto dst dg _ :: es => (dst, dg) :: sent_dgrams es
  | _ :: es => sent_dgrams es

/-- The block of a file that carries block number `i + 1`: the octets from
offset `512 * i` up to `512 * (i + 1)` or the end of the file. -/
def file_block (content : List Nat) (i : Nat) : List Nat := (content.drop (512 * i)).take 512

/-- The number of `recvfrom` calls in a trace. -/
def recv_count : List Event → Nat
  | [] => 0
  | Event.recvfrom _ :: es => recv_count es + 1
  | _ :: es => recv_count es

/-- A sequence of payloads of an upload: at least one payload, every payload
but the last has exactly 512 octets and the last has fewer. -/
def short_terminated : List (List Nat) → Bool
  | [] => false
  | [p] => decide (p.length < 512)
  | p :: q :: ps => decide (p.length = 512) && short_terminated (q :: ps)

/-- The events of a write transfer in lock step after the first
acknowledgement, for the payloads that follow block `i`: each DATA is
received from the client, its payload is written in full, and its
acknowledgement is sent. -/
def wrq_lockstep_trace (client : Addr) : Nat → List (List Nat) → List Event
  | _, [] => []
  | i, p :: ps =>
    Event.recvfrom (.dgram client ([0, 3, (i + 1) / 256, (i + 1) % 256] ++ p))
      :: Event.fwrite p p.length
      :: Event.sendto client [0, 4, (i + 1) / 256, (i + 1) % 256] true
      :: wrq_lockstep_trace client (i + 1) ps

/-! ## Concrete peers and environments for the worked examples -/

/-- The datagram a client sends for a request: opcode, file name, NUL, mode, NUL. -/
def request_dgram (opcode : Nat) (filename : List Nat) (mode_s : List Nat) : List Nat :=
  [0, opcode] ++ filename ++ [0] ++ mode_s ++ [0]

/-- The message buffer after a datagram was received into it: the datagram
followed by stale octets (here `0xAA`) up to the 516 octets of the union. -/
def message_buffer (dgram : List Nat) : List Nat :=
  dgram ++ List.replicate (MSG_SIZE - dgram.length) 170

/-- A peer in lock step: it answers the DATA datagram just sent to it with the
acknowledgement of the same block, from the address the datagram went to. -/
def lockstep_peer (tr : List Event) : RecvResult :=
  match tr.getLast? with
  | some (Event.sendto dst dg _) =>
    if dg.take 2 = [0, 3] then .dgram dst ([0, 4] ++ (dg.drop 2).take 2) else .eagain
  | _ => .eagain

/-- An environment in which nothing fails: every send succeeds, the peer is in
lock step, the file opens with the given content and every write is complete. -/
def demo_env (content : List Nat) : Env where
  socket_ok := true
  sendto := fun _ _ _ => true
  recvfrom := lockstep_peer
  fopen := fun _ _ => .ok ⟨content, none⟩
  fwrite := fun _ d => d.length
  strerror := fun _ => cs "Unknown error"
  perror := fun e => e

/-- The address of the client in the worked examples. -/
def demo_client : Addr := ⟨3232235777, 50000⟩

/-- The value of `ENOENT` in the `errno.h` of Linux. -/
def ENOENT : Nat := 2
/-- The 16-bit value two octets of a datagram carry on the wire (big-endian). -/
def wire_u16 (dg : List Nat) (off : Nat) : Nat := 256 * dg.getD off 0 + dg.getD (off + 1) 0

/-- An environment in which the requested file does not exist: `fopen` fails
with `ENOENT`, and `perror` leaves `errno` as it is. -/
def missing_file_env : Env where
  socket_ok := true
  sendto := fun _ _ _ => true
  recvfrom := lockstep_peer
  fopen := fun _ _ => .error ENOENT
  fwrite := fun _ d => d.length
  strerror := fun e => if e = ENOENT then cs "No such file or directory" else cs "Unknown error"
  perror := fun e => e

/-- A client that uploads the given payloads in order: its answer to the
`j`-th receive of the session is DATA(j + 1) with the `j`-th payload. -/
def upload_peer (client : Addr) (ps : List (List Nat)) (tr : List Event) : RecvResult :=
  .dgram client ([0, 3, (recv_count tr + 1) / 256, (recv_count tr + 1) % 256]
    ++ ps.getD (recv_count tr) [])

/-- An environment for an upload in which nothing fails. -/
def upload_env (client : Addr) (ps : List (List Nat)) : Env where
  socket_ok := true
  sendto := fun _ _ _ => true
  recvfrom := upload_peer client ps
  fopen := fun _ _ => .ok ⟨[], none⟩
  fwrite := fun _ d => d.length
  strerror := fun _ => cs "Unknown error"
  perror := fun e => e

/-- An environment that plays a script: the `j`-th receive of the handler gets
the `j`-th entry of the script and times out once the script is over; sends,
opens and writes succeed. -/
def script_env (script : List RecvResult) : Env where
  socket_ok := true
  sendto := fun _ _ _ => true
  recvfrom := fun tr => script.getD (recv_count tr) .eagain
  fopen := fun _ _ => .ok ⟨[], none⟩
  fwrite := fun _ d => d.length
  strerror := fun _ => cs "Unknown error"
  perror := fun e => e

/-! ## Observers of a transfer, in the words of the termination condition -/

/-- What an observer of a READ session knows: the last DATA datagram the
session sent, and whether an ACK carrying the number of that block has been
received since it was sent. -/
structure ReadWatch where
  last_data : Option (List Nat)
  acked : Bool
  deriving DecidableEq, Repr

/-- The observer of a READ session on one event: a DATA datagram handed to
`sendto` becomes the last DATA; a received datagram of at least 4 octets with
opcode ACK and the block number of the last DATA acknowledges it. -/
def read_watch_step (w : ReadWatch) : Event → ReadWatch
  | Event.sendto _ dg _ => if wire_u16 dg 0 = 3 then ⟨some dg, false⟩ else w
  | Event.recvfrom (.dgram _ m) =>
    match w.last_data with
    | some dg =>
      if 4 ≤ m.length ∧ wire_u16 m 0 = 4 ∧ wire_u16 m 2 = wire_u16 dg 2 then ⟨some dg, true⟩
      else w
    | none => w
  | _ => w

/-- The observer of a READ session after a trace. -/
def read_watch (tr : List Event) : ReadWatch := tr.foldl read_watch_step ⟨none, false⟩

/-- The termination condition of a READ: the last DATA sent had a payload of
fewer than 512 octets and an ACK carrying its block number was received for it. -/
def read_completion (tr : List Event) : Bool :=
  match (read_watch tr).last_data with
  | some dg => decide (dg.length - 4 < 512) && (read_watch tr).acked
  | none => false

/-- What an observer of a WRITE session knows: the datagram received last, the
last DATA accepted (the one whose payload was handed to `fwrite`), and whether
the ACK of that block has been sent successfully since. -/
structure WriteWatch where
  received : Option (List Nat)
  accepted : Option (List Nat)
  acked : Bool
  deriving DecidableEq, Repr

/-- The observer of a WRITE session on one event. -/
def write_watch_step (w : WriteWatch) : Event → WriteWatch
  | Event.recvfrom (.dgram _ m) => ⟨some m, w.accepted, w.acked⟩
  | Event.fwrite _ _ => ⟨w.received, w.received, false⟩
  | Event.sendto _ dg ok =>
    match w.accepted with
    | some m =>
      if ok = true ∧ dg.length = 4 ∧ wire_u16 dg 0 = 4 ∧ wire_u16 dg 2 = wire_u16 m 2 then
        ⟨w.received, w.accepted, true⟩
      else w
    | none => w
  | _ => w

/-- The observer of a WRITE session after a trace. -/
def write_watch (tr : List Event) : WriteWatch := tr.foldl write_watch_step ⟨none, none, false⟩

/-- The termination condition of a WRITE: the last DATA accepted had a payload
of fewer than 512 octets and the ACK of that block was sent successfully. -/
def write_completion (tr : List Event) : Bool :=
  match (write_watch tr).accepted with
  | some m => decide (m.length - 4 < 512) && (write_watch tr).acked
  | none => false

/-- An environment that delivers only octets: every value in a received
datagram is below 256. -/
def Env.octets (env : Env) : Prop :=
  ∀ tr src bytes, env.recvfrom tr = .dgram src bytes → ∀ x ∈ bytes, x < 256

/-- True of the calls of `fwrite` in a trace. -/
def Event.is_fwrite : Event → Bool
  | Event.fwrite _ _ => true
  | _ => false

/-- No DATA with a short payload has been accepted: the observer has seen no
accepted DATA, or the last one carried a full block of 512 octets. -/
def WriteWatch.pending (w : WriteWatch) : Prop :=
  match w.accepted with
  | none => True
  | some m => ¬ (m.length - 4 < 512)

/-! ## Traces up to addresses, and the peer a session talks to -/

/-- A receive result with the source address blanked. -/
def RecvResult.blank : RecvResult → RecvResult
  | .dgram _ m => .dgram ⟨0, 0⟩ m
  | r => r

/-- An event with the address blanked. -/
def Event.blank : Event → Event
  | .sendto _ dg ok => .sendto ⟨0, 0⟩ dg ok
  | .recvfrom r => .recvfrom r.blank
  | e => e

/-- A trace with every address blanked. -/
def blank_trace (tr : List Event) : List Event := tr.map Event.blank

/-- Two environments that differ at most in addresses: after traces that are
equal up to addresses they deliver the same datagram, timeout or failure
(from any source), report the same result for a send of the same datagram (to
any destination) and write the same number of octets. -/
def Env.same_up_to_addresses (e1 e2 : Env) : Prop :=
  ∀ tr1 tr2, blank_trace tr1 = blank_trace tr2 →
    (e1.recvfrom tr1).blank = (e2.recvfrom tr2).blank
    ∧ (∀ d1 d2 dg, e1.sendto tr1 d1 dg = e2.sendto tr2 d2 dg)
    ∧ (∀ d, e1.fwrite tr1 d = e2.fwrite tr2 d)

/-- The address `client_sock` holds after a trace: the source of the last
datagram received, or the starting address when none was received. -/
def final_peer : Addr → List Event → Addr
  | cur, [] => cur
  | _, Event.recvfrom (.dgram src _) :: es => final_peer src es
  | cur, _ :: es => final_peer cur es

/-- Every datagram of the trace is sent to the source of the datagram
received last before it, or to the starting address when none was received. -/
def sends_follow_peer : Addr → List Event → Bool
  | _, [] => true
  | cur, Event.sendto dst _ _ :: es => decide (dst = cur) && sends_follow_peer cur es
  | _, Event.recvfrom (.dgram src _) :: es => sends_follow_peer src es
  | cur, _ :: es => sends_follow_peer cur es

/-- The address of a second host in the worked examples. -/
def demo_intruder : Addr := ⟨3232235999, 40000⟩

/-- The trace `tr2` extends `tr1` by events in which every datagram is sent to
the current peer, starting with `s1` and ending with `s2`. -/
def tracks (s1 : Addr) (tr1 tr2 : List Event) (s2 : Addr) : Prop :=
  ∃ evs, tr2 = tr1 ++ evs ∧ sends_follow_peer s1 evs = true ∧ final_peer s1 evs = s2

/-! ## The request payload, in the words of the specification -/

/-- The payload `p` of a request datagram of `len` octets held in the message
buffer `m`: the `len - 2` octets after the opcode. -/
def request_payload (m : List Nat) (len : Nat) : List Nat := (m.take len).drop 2

/-- The result of parsing a request as a function of its payload alone: the
payload must end with a NUL ("invalid filename or mode" otherwise) and hold a
second NUL ("transfer mode not specified" otherwise); the file name is then
the octets before the first NUL and the mode the octets between the first and
the second NUL. -/
def parse_payload (p : List Nat) : Except ParseError (List Nat × List Nat) :=
  if p.getLast? ≠ some 0 then .error .invalid_filename_or_mode
  else if p.count 0 < 2 then .error .mode_not_specified
  else .ok (cstr p, cstr ((p.dropWhile (fun c => c != 0)).drop 1))

/-! ## The listener: the loop of `main` -/

/-- A request handed by `main` to a forked child: the arguments of
`tftp_handle_request`. -/
structure Spawn where
  message : List Nat
  len : Nat
  client_sock : Addr
  deriving DecidableEq, Repr

/-- The state after one iteration of the loop of `main`: the trace of the
listening socket, the content of the message buffer, and the child forked in
this iteration, if any. -/
structure Iteration where
  trace : List Event
  message : List Nat
  spawn : Option Spawn
  deriving DecidableEq, Repr

/-- One iteration of the `while (1)` loop of `main` (lines 488-527) on the
listening socket.  `message` is what the buffer holds before the receive; a
datagram overwrites its first octets.  A failed receive (`len < 0`) continues;
a datagram of fewer than 4 octets is answered with an error; a request forks a
child (the parent goes on); any other opcode is answered with an error. -/
def main_iteration (cfg : Config) (env : Env) (message : List Nat) (tr : List Event) :
    Iteration :=
  let rv := tftp_recv_message env tr
  match rv.2 with
  | .eagain => ⟨rv.1, message, none⟩
  | .failed => ⟨rv.1, message, none⟩
  | .dgram src bytes =>
    let message := bytes ++ message.drop bytes.length
    if bytes.length < 4 then
      ⟨(tftp_send_error cfg env rv.1 0 (cs "invalid request size") src).1, message, none⟩
    else
      let opcode := msg_opcode cfg.le message
      if opcode = RRQ ∨ opcode = WRQ then
        ⟨rv.1, message, some ⟨message, bytes.length, src⟩⟩
      else
        ⟨(tftp_send_error cfg env rv.1 0 (cs "invalid opcode") src).1, message, none⟩

/-- The first `n` iterations of the loop of `main`: the trace of the
listening socket and the children forked, in order. -/
def main_loop (cfg : Config) (env : Env) :
    Nat → List Nat → List Event → List Spawn → List Event × List Spawn
  | 0, _, tr, sp => (tr, sp)
  | n + 1, message, tr, sp =>
    let it := main_iteration cfg env message tr
    main_loop cfg env n it.message it.trace (sp ++ it.spawn.toList)

/-! ## Datagrams of fewer than 4 octets in a session -/

/-- Whether an observer of a READ session allows an event.  A DATA datagram
handed to `sendto` is allowed when it is the first DATA, when it is the last
DATA again (a retransmission), or when an ACK carrying the number of the last
DATA has been received since that DATA was sent and the new block number is
the next one modulo 2^16.  Every other event is allowed. -/
def data_send_allowed (w : ReadWatch) : Event → Bool
  | Event.sendto _ dg _ =>
    if wire_u16 dg 0 = 3 then
      match w.last_data with
      | none => true
      | some prev =>
        decide (dg = prev)
          || (w.acked && decide (wire_u16 dg 2 = (wire_u16 prev 2 + 1) % 65536))
    else true
  | _ => true

/-- Every event of the list is allowed by the observer that has seen the
events before it. -/
def data_order (w : ReadWatch) : List Event → Bool
  | [] => true
  | e :: es => data_send_allowed w e && data_order (read_watch_step w e) es

/-- The observer at the head of the read loop when the block counter is `bn`:
no DATA sent yet, or the last DATA carries `bn` and has been acknowledged. -/
def ReadWatch.at_block (w : ReadWatch) (bn : Nat) : Prop :=
  w.last_data = none ∨ ∃ prev, w = ⟨some prev, true⟩ ∧ wire_u16 prev 2 = bn

/-! ## A peer for both directions -/

/-- A peer in lock step for both directions: it answers a DATA datagram with
the acknowledgement of the same block, and an ACK numbered `b` with the DATA
numbered `b + 1` modulo 2^16 that carries the next payload of an upload (the
payload whose index is the number of receives so far). -/
def relay_peer (client : Addr) (ps : List (List Nat)) (tr : List Event) : RecvResult :=
  match tr.getLast? with
  | some (Event.sendto dst dg _) =>
    if dg.take 2 = [0, 3] then .dgram dst ([0, 4] ++ (dg.drop 2).take 2)
    else if dg.take 2 = [0, 4] then
      .dgram client ([0, 3, ((256 * dg.getD 2 0 + dg.getD 3 0 + 1) % 65536) / 256,
        ((256 * dg.getD 2 0 + dg.getD 3 0 + 1) % 65536) % 256] ++ ps.getD (recv_count tr) [])
    else .eagain
  | _ => .eagain

/-- An environment with the peer in lock step for both directions, in which
nothing fails. -/
def relay_env (client : Addr) (ps : List (List Nat)) : Env where
  socket_ok := true
  sendto := fun _ _ _ => true
  recvfrom := relay_peer client ps
  fopen := fun _ _ => .ok ⟨[], none⟩
  fwrite := fun _ d => d.length
  strerror := fun _ => cs "Unknown error"
  perror := fun e => e

/-! ## Local stream failures -/

/-- An environment that plays a script and whose sink is full: every call of
`fwrite` writes nothing and returns 0. -/
def full_disk_env (script : List RecvResult) : Env where
  socket_ok := true
  sendto := fun _ _ _ => true
  recvfrom := fun tr => script.getD (recv_count tr) .eagain
  fopen := fun _ _ => .ok ⟨[], none⟩
  fwrite := fun _ _ => 0
  strerror := fun _ => cs "Unknown error"
  perror := fun e => e

/-! ## Path components -/

/-- The components of a file name: the pieces between its `/` characters (47).
A name without `/` is its only component; a leading, trailing or doubled `/`
gives an empty component. -/
def components : List Nat → List (List Nat)
  | [] => [[]]
  | c :: rest =>
    if c = 47 then [] :: components rest
    else
      match components rest with
      | [] => [[c]]
      | h :: t => (c :: h) :: t

/-- Lexical resolution of a list of components from a directory `depth` levels
below the base directory: `..` goes one level up, an empty component and `.`
stay, any other component goes one level down.  True when the walk goes above
the base directory. -/
def resolves_above : Nat → List (List Nat) → Bool
  | _, [] => false
  | depth, c :: rest =>
    if c = cs ".." then
      match depth with
      | 0 => true
      | d + 1 => resolves_above d rest
    else if c = [] ∨ c = cs "." then resolves_above depth rest
    else resolves_above (depth + 1) rest

/-! Theorems -/

/-! ## Unfolding lemmas for the helpers and the retry loops -/

theorem tftp_send_data_fst (cfg : Config) (env : Env) (tr : List Event) (b : Nat)
    (d : List Nat) (sock : Addr) :
    (tftp_send_data cfg env tr b d sock).1
      = tr ++ [Event.sendto sock (data_dgram cfg.le b d)
          (env.sendto tr sock (data_dgram cfg.le b d))] := rfl

theorem tftp_send_data_neg (cfg : Config) (env : Env) (tr : List Event) (b : Nat)
    (d : List Nat) (sock : Addr) :
    (tftp_send_data cfg env tr b d sock).2 < 0
      ↔ env.sendto tr sock (data_dgram cfg.le b d) = false := by
  cases h : env.sendto tr sock (data_dgram cfg.le b d) <;> simp [tftp_send_data, h]

theorem tftp_send_ack_fst (cfg : Config) (env : Env) (tr : List Event) (b : Nat)
    (sock : Addr) :
    (tftp_send_ack cfg env tr b sock).1
      = tr ++ [Event.sendto sock (ack_dgram cfg.le b)
          (env.sendto tr sock (ack_dgram cfg.le b))] := rfl

theorem tftp_send_ack_neg (cfg : Config) (env : Env) (tr : List Event) (b : Nat)
    (sock : Addr) :
    (tftp_send_ack cfg env tr b sock).2 < 0
      ↔ env.sendto tr sock (ack_dgram cfg.le b) = false := by
  cases h : env.sendto tr sock (ack_dgram cfg.le b) <;> simp [tftp_send_ack, h]

theorem tftp_send_error_fst (cfg : Config) (env : Env) (tr : List Event) (e : Nat)
    (s : List Nat) (sock : Addr) (h : s.length < 512) :
    (tftp_send_error cfg env tr e s sock).1
      = tr ++ [Event.sendto sock (error_dgram cfg.le e s)
          (env.sendto tr sock (error_dgram cfg.le e s))] := by
  have : tftp_send_error_dgram cfg.le e s = some (error_dgram cfg.le e s) := by
    simp [tftp_send_error_dgram]; omega
  simp [tftp_send_error, this]

theorem tftp_recv_message_fst (env : Env) (tr : List Event) :
    (tftp_recv_message env tr).1 = tr ++ [Event.recvfrom (tftp_recv_message env tr).2] := by
  unfold tftp_recv_message
  split <;> rfl

theorem tftp_recv_message_snd (env : Env) (tr : List Event) :
    (tftp_recv_message env tr).2
      = match env.recvfrom tr with
        | .dgram src bytes => .dgram src (bytes.take MSG_SIZE)
        | r => r := by
  unfold tftp_recv_message
  split <;> rfl

theorem rrq_cycle_zero (cfg : Config) (env : Env) (b : Nat) (d : List Nat)
    (tr : List Event) (sock : Addr) :
    rrq_cycle cfg env b d 0 tr sock = ⟨tr, sock, .exhausted⟩ := rfl

/-- One round of the RRQ retry loop, by the answers of the environment. -/
theorem rrq_cycle_succ (cfg : Config) (env : Env) (b : Nat) (d : List Nat) (n : Nat)
    (tr : List Event) (sock : Addr) :
    rrq_cycle cfg env b d (n + 1) tr sock =
      if env.sendto tr sock (data_dgram cfg.le b d) = false then
        ⟨tr ++ [Event.sendto sock (data_dgram cfg.le b d) false], sock, .exit .killed⟩
      else
        match (tftp_recv_message env (tr ++ [Event.sendto sock (data_dgram cfg.le b d) true])).2 with
        | .dgram src m =>
          if m.length < 4 then
            ⟨(tftp_send_error cfg env
                (tr ++ [Event.sendto sock (data_dgram cfg.le b d) true,
                  Event.recvfrom (.dgram src m)]) 0 (cs "invalid request size") src).1,
              src, .exit .invalid_size⟩
          else
            ⟨tr ++ [Event.sendto sock (data_dgram cfg.le b d) true,
                Event.recvfrom (.dgram src m)], src, .got m⟩
        | .eagain =>
          rrq_cycle cfg env b d n
            (tr ++ [Event.sendto sock (data_dgram cfg.le b d) true, Event.recvfrom .eagain]) sock
        | .failed =>
          ⟨tr ++ [Event.sendto sock (data_dgram cfg.le b d) true, Event.recvfrom .failed], sock,
            .exit .killed⟩ := by
  rw [rrq_cycle]
  simp only [tftp_send_data_neg, tftp_send_data_fst]
  cases hs : env.sendto tr sock (data_dgram cfg.le b d)
  · simp
  · simp only [Bool.true_eq_false, if_false]
    rw [tftp_recv_message_fst]
    cases hr : (tftp_recv_message env
      (tr ++ [Event.sendto sock (data_dgram cfg.le b d) true])).2 <;> simp
theorem wrq_cycle_zero (cfg : Config) (env : Env) (b : Nat)
    (tr : List Event) (sock : Addr) :
    wrq_cycle cfg env b 0 tr sock = ⟨tr, sock, .exhausted⟩ := rfl

/-- One round of the WRQ retry loop, by the answers of the environment. -/
theorem wrq_cycle_succ (cfg : Config) (env : Env) (b : Nat) (n : Nat)
    (tr : List Event) (sock : Addr) :
    wrq_cycle cfg env b (n + 1) tr sock =
      match (tftp_recv_message env tr).2 with
      | .dgram src m =>
        if m.length < 4 then
          ⟨(tftp_send_error cfg env (tr ++ [Event.recvfrom (.dgram src m)]) 0
              (cs "invalid request size") src).1, src, .exit .invalid_size⟩
        else ⟨tr ++ [Event.recvfrom (.dgram src m)], src, .got m⟩
      | .failed => ⟨tr ++ [Event.recvfrom .failed], sock, .exit .killed⟩
      | .eagain =>
        if env.sendto (tr ++ [Event.recvfrom .eagain]) sock (ack_dgram cfg.le b) = false then
          ⟨tr ++ [Event.recvfrom .eagain, Event.sendto sock (ack_dgram cfg.le b) false], sock,
            .exit .killed⟩
        else
          wrq_cycle cfg env b n
            (tr ++ [Event.recvfrom .eagain, Event.sendto sock (ack_dgram cfg.le b) true]) sock := by
  rw [wrq_cycle]
  simp only [tftp_send_ack_neg, tftp_send_ack_fst]
  rw [tftp_recv_message_fst]
  cases hr : (tftp_recv_message env tr).2
  · simp
  · simp only
    cases hs : env.sendto (tr ++ [Event.recvfrom .eagain]) sock (ack_dgram cfg.le b) <;> simp
  · simp


/-! ## The shape of a retry loop -/

theorem tftp_recv_message_len (env : Env) (tr : List Event) (src : Addr) (m : List Nat)
    (h : (tftp_recv_message env tr).2 = .dgram src m) : m.length ≤ 516 := by
  rw [tftp_recv_message_snd] at h
  split at h
  · injection h with _ h2
    rw [← h2]
    simp [MSG_SIZE]
  · rename_i hne
    exact absurd h (fun h => hne src m h)

theorem tftp_recv_message_origin (env : Env) (tr : List Event) (src : Addr) (m : List Nat)
    (h : (tftp_recv_message env tr).2 = .dgram src m) :
    ∃ bytes, env.recvfrom tr = .dgram src bytes ∧ m = bytes.take MSG_SIZE := by
  rw [tftp_recv_message_snd] at h
  split at h
  · rename_i src1 bytes heq
    injection h with h1 h2
    exact ⟨bytes, by rw [heq, h1], h2.symm⟩
  · rename_i hne
    exact absurd h (fun h => hne src m h)

theorem invalid_request_size_short : (cs "invalid request size").length < 512 := by decide

/-- Every run of the RRQ retry loop is a number of timed-out rounds followed
by one of: the countdown is exhausted, a send fails, a receive fails, a short
datagram is answered with an error, or a message of 4 to 516 octets is taken. -/
theorem rrq_cycle_shape (cfg : Config) (env : Env) (b : Nat) (d : List Nat) (n : Nat) :
    ∀ (tr : List Event) (sock : Addr), ∃ k, k ≤ n ∧
      ((k = n ∧ rrq_cycle cfg env b d n tr sock
          = ⟨tr ++ rrq_timeouts sock (data_dgram cfg.le b d) k, sock, .exhausted⟩)
      ∨ (k < n ∧ rrq_cycle cfg env b d n tr sock
          = ⟨tr ++ rrq_timeouts sock (data_dgram cfg.le b d) k
              ++ [Event.sendto sock (data_dgram cfg.le b d) false], sock, .exit .killed⟩)
      ∨ (k < n ∧ rrq_cycle cfg env b d n tr sock
          = ⟨tr ++ rrq_timeouts sock (data_dgram cfg.le b d) k
              ++ [Event.sendto sock (data_dgram cfg.le b d) true, Event.recvfrom .failed],
              sock, .exit .killed⟩)
      ∨ (k < n ∧ ∃ src m ok, m.length < 4 ∧ rrq_cycle cfg env b d n tr sock
          = ⟨tr ++ rrq_timeouts sock (data_dgram cfg.le b d) k
              ++ [Event.sendto sock (data_dgram cfg.le b d) true,
                  Event.recvfrom (.dgram src m),
                  Event.sendto src (error_dgram cfg.le 0 (cs "invalid request size")) ok],
              src, .exit .invalid_size⟩)
      ∨ (k < n ∧ ∃ src m, 4 ≤ m.length ∧ m.length ≤ 516
          ∧ (∃ tr1 bytes, env.recvfrom tr1 = .dgram src bytes ∧ m = bytes.take MSG_SIZE)
          ∧ rrq_cycle cfg env b d n tr sock
          = ⟨tr ++ rrq_timeouts sock (data_dgram cfg.le b d) k
              ++ [Event.sendto sock (data_dgram cfg.le b d) true,
                  Event.recvfrom (.dgram src m)], src, .got m⟩)) := by
  induction n with
  | zero => intro tr sock; exact ⟨0, le_refl _, Or.inl ⟨rfl, by simp [rrq_cycle, rrq_timeouts]⟩⟩
  | succ n ih =>
    intro tr sock
    rw [rrq_cycle_succ]
    cases hs : env.sendto tr sock (data_dgram cfg.le b d)
    · exact ⟨0, Nat.zero_le _, Or.inr (Or.inl ⟨Nat.succ_pos _, by simp [rrq_timeouts]⟩)⟩
    · simp only [Bool.true_eq_false, if_false]
      cases hr : (tftp_recv_message env
          (tr ++ [Event.sendto sock (data_dgram cfg.le b d) true])).2 with
      | dgram src m =>
        simp only
        by_cases hm : m.length < 4
        · refine ⟨0, Nat.zero_le _, Or.inr (Or.inr (Or.inr (Or.inl ⟨Nat.succ_pos _, src, m,
            env.sendto (tr ++ [Event.sendto sock (data_dgram cfg.le b d) true,
              Event.recvfrom (.dgram src m)]) src (error_dgram cfg.le 0 (cs "invalid request size")),
            hm, ?_⟩)))⟩
          rw [if_pos hm, tftp_send_error_fst _ _ _ _ _ _ invalid_request_size_short]
          simp [rrq_timeouts]
        · refine ⟨0, Nat.zero_le _, Or.inr (Or.inr (Or.inr (Or.inr
            ⟨Nat.succ_pos _, src, m, by omega, tftp_recv_message_len _ _ _ _ hr,
            ⟨_, tftp_recv_message_origin _ _ _ _ hr⟩, ?_⟩)))⟩
          rw [if_neg hm]
          simp [rrq_timeouts]
      | eagain =>
        simp only
        obtain ⟨k, hk, h⟩ := ih
          (tr ++ [Event.sendto sock (data_dgram cfg.le b d) true, Event.recvfrom .eagain]) sock
        have hP : tr ++ [Event.sendto sock (data_dgram cfg.le b d) true, Event.recvfrom .eagain]
            ++ rrq_timeouts sock (data_dgram cfg.le b d) k
            = tr ++ rrq_timeouts sock (data_dgram cfg.le b d) (k + 1) := by
          simp [rrq_timeouts]
        rw [hP] at h
        refine ⟨k + 1, Nat.succ_le_succ hk, ?_⟩
        rcases h with ⟨h1, h2⟩ | ⟨h1, h2⟩ | ⟨h1, h2⟩ | ⟨h1, h2⟩ | ⟨h1, h2⟩
        · exact Or.inl ⟨by omega, h2⟩
        · exact Or.inr (Or.inl ⟨by omega, h2⟩)
        · exact Or.inr (Or.inr (Or.inl ⟨by omega, h2⟩))
        · exact Or.inr (Or.inr (Or.inr (Or.inl ⟨by omega, h2⟩)))
        · exact Or.inr (Or.inr (Or.inr (Or.inr ⟨by omega, h2⟩)))
      | failed =>
        exact ⟨0, Nat.zero_le _, Or.inr (Or.inr (Or.inl ⟨Nat.succ_pos _, by simp [rrq_timeouts]⟩))⟩

/-- Every run of the WRQ retry loop is a number of timed-out rounds (each
followed by a repeated acknowledgement) followed by one of: the countdown is
exhausted, a receive fails, the repeated acknowledgement cannot be sent, a
short datagram is answered with an error, or a message of 4 to 516 octets is
taken. -/
theorem wrq_cycle_shape (cfg : Config) (env : Env) (b : Nat) (n : Nat) :
    ∀ (tr : List Event) (sock : Addr), ∃ k, k ≤ n ∧
      ((k = n ∧ wrq_cycle cfg env b n tr sock
          = ⟨tr ++ wrq_timeouts sock (ack_dgram cfg.le b) k, sock, .exhausted⟩)
      ∨ (k < n ∧ wrq_cycle cfg env b n tr sock
          = ⟨tr ++ wrq_timeouts sock (ack_dgram cfg.le b) k
              ++ [Event.recvfrom .failed], sock, .exit .killed⟩)
      ∨ (k < n ∧ wrq_cycle cfg env b n tr sock
          = ⟨tr ++ wrq_timeouts sock (ack_dgram cfg.le b) k
              ++ [Event.recvfrom .eagain, Event.sendto sock (ack_dgram cfg.le b) false],
              sock, .exit .killed⟩)
      ∨ (k < n ∧ ∃ src m ok, m.length < 4 ∧ wrq_cycle cfg env b n tr sock
          = ⟨tr ++ wrq_timeouts sock (ack_dgram cfg.le b) k
              ++ [Event.recvfrom (.dgram src m),
                  Event.sendto src (error_dgram cfg.le 0 (cs "invalid request size")) ok],
              src, .exit .invalid_size⟩)
      ∨ (k < n ∧ ∃ src m, 4 ≤ m.length ∧ m.length ≤ 516
          ∧ (∃ tr1 bytes, env.recvfrom tr1 = .dgram src bytes ∧ m = bytes.take MSG_SIZE)
          ∧ wrq_cycle cfg env b n tr sock
          = ⟨tr ++ wrq_timeouts sock (ack_dgram cfg.le b) k
              ++ [Event.recvfrom (.dgram src m)], src, .got m⟩)) := by
  induction n with
  | zero => intro tr sock; exact ⟨0, le_refl _, Or.inl ⟨rfl, by simp [wrq_cycle, wrq_timeouts]⟩⟩
  | succ n ih =>
    intro tr sock
    rw [wrq_cycle_succ]
    cases hr : (tftp_recv_message env tr).2 with
    | dgram src m =>
      simp only
      by_cases hm : m.length < 4
      · refine ⟨0, Nat.zero_le _, Or.inr (Or.inr (Or.inr (Or.inl ⟨Nat.succ_pos _, src, m,
          env.sendto (tr ++ [Event.recvfrom (.dgram src m)]) src
            (error_dgram cfg.le 0 (cs "invalid request size")), hm, ?_⟩)))⟩
        rw [if_pos hm, tftp_send_error_fst _ _ _ _ _ _ invalid_request_size_short]
        simp [wrq_timeouts]
      · refine ⟨0, Nat.zero_le _, Or.inr (Or.inr (Or.inr (Or.inr
          ⟨Nat.succ_pos _, src, m, by omega, tftp_recv_message_len _ _ _ _ hr,
            ⟨_, tftp_recv_message_origin _ _ _ _ hr⟩, ?_⟩)))⟩
        rw [if_neg hm]
        simp [wrq_timeouts]
    | failed =>
      exact ⟨0, Nat.zero_le _, Or.inr (Or.inl ⟨Nat.succ_pos _, by simp [wrq_timeouts]⟩)⟩
    | eagain =>
      simp only
      cases hs : env.sendto (tr ++ [Event.recvfrom .eagain]) sock (ack_dgram cfg.le b)
      · exact ⟨0, Nat.zero_le _, Or.inr (Or.inr (Or.inl ⟨Nat.succ_pos _, by simp [wrq_timeouts]⟩))⟩
      · simp only [Bool.true_eq_false, if_false]
        obtain ⟨k, hk, h⟩ := ih
          (tr ++ [Event.recvfrom .eagain, Event.sendto sock (ack_dgram cfg.le b) true]) sock
        have hP : tr ++ [Event.recvfrom .eagain, Event.sendto sock (ack_dgram cfg.le b) true]
            ++ wrq_timeouts sock (ack_dgram cfg.le b) k
            = tr ++ wrq_timeouts sock (ack_dgram cfg.le b) (k + 1) := by
          simp [wrq_timeouts]
        rw [hP] at h
        refine ⟨k + 1, Nat.succ_le_succ hk, ?_⟩
        rcases h with ⟨h1, h2⟩ | ⟨h1, h2⟩ | ⟨h1, h2⟩ | ⟨h1, h2⟩ | ⟨h1, h2⟩
        · exact Or.inl ⟨by omega, h2⟩
        · exact Or.inr (Or.inl ⟨by omega, h2⟩)
        · exact Or.inr (Or.inr (Or.inl ⟨by omega, h2⟩))
        · exact Or.inr (Or.inr (Or.inr (Or.inl ⟨by omega, h2⟩)))
        · exact Or.inr (Or.inr (Or.inr (Or.inr ⟨by omega, h2⟩)))

/-! ## Traces only grow, and the outcomes of the transfer loops -/

theorem tftp_send_error_extends (cfg : Config) (env : Env) (tr : List Event) (e : Nat)
    (s : List Nat) (sock : Addr) : tr <+: (tftp_send_error cfg env tr e s sock).1 := by
  unfold tftp_send_error
  split
  · exact List.prefix_refl _
  · exact List.prefix_append _ _

theorem rrq_cycle_extends (cfg : Config) (env : Env) (b : Nat) (d : List Nat) (n : Nat)
    (tr : List Event) (sock : Addr) : tr <+: (rrq_cycle cfg env b d n tr sock).trace := by
  obtain ⟨k, _, h⟩ := rrq_cycle_shape cfg env b d n tr sock
  rcases h with ⟨_, h⟩ | ⟨_, h⟩ | ⟨_, h⟩ | ⟨_, _, _, _, _, h⟩ | ⟨_, _, _, _, _, _, h⟩ <;>
    rw [h] <;> simp [List.append_assoc]

theorem rrq_cycle_exit (cfg : Config) (env : Env) (b : Nat) (d : List Nat) (n : Nat)
    (tr : List Event) (sock : Addr) (o : Outcome)
    (ho : (rrq_cycle cfg env b d n tr sock).res = .exit o) : o = .killed ∨ o = .invalid_size := by
  obtain ⟨k, _, h⟩ := rrq_cycle_shape cfg env b d n tr sock
  rcases h with ⟨_, h⟩ | ⟨_, h⟩ | ⟨_, h⟩ | ⟨_, _, _, _, _, h⟩ | ⟨_, _, _, _, _, _, h⟩ <;>
    rw [h] at ho <;> simp at ho <;> simp [← ho]

theorem wrq_cycle_extends (cfg : Config) (env : Env) (b : Nat) (n : Nat)
    (tr : List Event) (sock : Addr) : tr <+: (wrq_cycle cfg env b n tr sock).trace := by
  obtain ⟨k, _, h⟩ := wrq_cycle_shape cfg env b n tr sock
  rcases h with ⟨_, h⟩ | ⟨_, h⟩ | ⟨_, h⟩ | ⟨_, _, _, _, _, h⟩ | ⟨_, _, _, _, _, _, h⟩ <;>
    rw [h] <;> simp [List.append_assoc]

theorem wrq_cycle_exit (cfg : Config) (env : Env) (b : Nat) (n : Nat)
    (tr : List Event) (sock : Addr) (o : Outcome)
    (ho : (wrq_cycle cfg env b n tr sock).res = .exit o) : o = .killed ∨ o = .invalid_size := by
  obtain ⟨k, _, h⟩ := wrq_cycle_shape cfg env b n tr sock
  rcases h with ⟨_, h⟩ | ⟨_, h⟩ | ⟨_, h⟩ | ⟨_, _, _, _, _, h⟩ | ⟨_, _, _, _, _, _, h⟩ <;>
    rw [h] at ho <;> simp at ho <;> simp [← ho]

theorem rrq_loop_extends (cfg : Config) (env : Env) (fuel : Nat) :
    ∀ (rest : List Nat) (bn : Nat) (tr : List Event) (sock : Addr),
      tr <+: (rrq_loop cfg env fuel rest bn tr sock).trace := by
  induction fuel with
  | zero => intro rest bn tr sock; simp [rrq_loop]
  | succ fuel ih =>
    intro rest bn tr sock
    rw [rrq_loop]
    have hp := (List.prefix_append tr [Event.fread (List.take 512 rest)]).trans
      (rrq_cycle_extends cfg env ((bn + 1) % 65536) (List.take 512 rest) RECV_RETRIES
        (tr ++ [Event.fread (List.take 512 rest)]) sock)
    generalize rrq_cycle cfg env ((bn + 1) % 65536) (List.take 512 rest) RECV_RETRIES
        (tr ++ [Event.fread (List.take 512 rest)]) sock = cy at hp
    cases hres : cy.res with
    | got m =>
      simp only
      split_ifs
      · exact hp
      · exact hp.trans (tftp_send_error_extends _ _ _ _ _ _)
      · exact hp.trans (tftp_send_error_extends _ _ _ _ _ _)
      · exact hp
      · exact hp.trans (ih _ _ _ _)
    | exhausted => exact hp
    | exit o => exact hp

theorem rrq_loop_outcome (cfg : Config) (env : Env) (fuel : Nat) :
    ∀ (rest : List Nat) (bn : Nat) (tr : List Event) (sock : Addr),
      (rrq_loop cfg env fuel rest bn tr sock).outcome.in_transfer = true := by
  induction fuel with
  | zero => intro rest bn tr sock; simp [rrq_loop, Outcome.in_transfer]
  | succ fuel ih =>
    intro rest bn tr sock
    rw [rrq_loop]
    have he := rrq_cycle_exit cfg env ((bn + 1) % 65536) (List.take 512 rest) RECV_RETRIES
        (tr ++ [Event.fread (List.take 512 rest)]) sock
    generalize rrq_cycle cfg env ((bn + 1) % 65536) (List.take 512 rest) RECV_RETRIES
        (tr ++ [Event.fread (List.take 512 rest)]) sock = cy at he
    cases hres : cy.res with
    | got m =>
      simp only
      split_ifs
      · rfl
      · rfl
      · rfl
      · rfl
      · exact ih _ _ _ _
    | exhausted => rfl
    | exit o => rcases he o hres with h | h <;> simp [h, Outcome.in_transfer]

theorem wrq_loop_extends (cfg : Config) (env : Env) (fuel : Nat) :
    ∀ (bn : Nat) (sink : List Nat) (tr : List Event) (sock : Addr),
      tr <+: (wrq_loop cfg env fuel bn sink tr sock).trace := by
  induction fuel with
  | zero => intro bn sink tr sock; simp [wrq_loop]
  | succ fuel ih =>
    intro bn sink tr sock
    rw [wrq_loop]
    have hp := wrq_cycle_extends cfg env bn RECV_RETRIES tr sock
    generalize wrq_cycle cfg env bn RECV_RETRIES tr sock = cy at hp
    cases hres : cy.res with
    | got m =>
      simp only
      have hw : cy.trace <+: cy.trace ++ [Event.fwrite (msg_payload m)
          (min (env.fwrite cy.trace (msg_payload m)) (msg_payload m).length)] :=
        List.prefix_append _ _
      split_ifs
      · exact hp
      · exact hp.trans (tftp_send_error_extends _ _ _ _ _ _)
      · exact hp.trans (tftp_send_error_extends _ _ _ _ _ _)
      · exact hp.trans hw
      · exact (hp.trans hw).trans (List.prefix_append _ _)
      · exact (hp.trans hw).trans (List.prefix_append _ _)
      · exact ((hp.trans hw).trans (List.prefix_append _ _)).trans (ih _ _ _ _)
    | exhausted => exact hp
    | exit o => exact hp

theorem wrq_loop_outcome (cfg : Config) (env : Env) (fuel : Nat) :
    ∀ (bn : Nat) (sink : List Nat) (tr : List Event) (sock : Addr),
      (wrq_loop cfg env fuel bn sink tr sock).outcome.in_transfer = true := by
  induction fuel with
  | zero => intro bn sink tr sock; simp [wrq_loop, Outcome.in_transfer]
  | succ fuel ih =>
    intro bn sink tr sock
    rw [wrq_loop]
    have he := wrq_cycle_exit cfg env bn RECV_RETRIES tr sock
    generalize wrq_cycle cfg env bn RECV_RETRIES tr sock = cy at he
    cases hres : cy.res with
    | got m =>
      simp only
      split_ifs
      · rfl
      · rfl
      · rfl
      · rfl
      · rfl
      · rfl
      · exact ih _ _ _ _
    | exhausted => rfl
    | exit o => rcases he o hres with h | h <;> simp [h, Outcome.in_transfer]

theorem rrq_session_extends (cfg : Config) (env : Env) (stream : Stream) (tr : List Event)
    (sock : Addr) : tr <+: (rrq_session cfg env stream tr sock).trace :=
  rrq_loop_extends _ _ _ _ _ _ _

theorem rrq_session_outcome (cfg : Config) (env : Env) (stream : Stream) (tr : List Event)
    (sock : Addr) : (rrq_session cfg env stream tr sock).outcome.in_transfer = true :=
  rrq_loop_outcome _ _ _ _ _ _ _

theorem wrq_session_extends (cfg : Config) (env : Env) (fuel : Nat) (tr : List Event)
    (sock : Addr) : tr <+: (wrq_session cfg env fuel tr sock).trace := by
  unfold wrq_session
  simp only
  split_ifs
  · exact List.prefix_append _ _
  · exact (List.prefix_append _ _).trans (wrq_loop_extends _ _ _ _ _ _ _)

theorem wrq_session_outcome (cfg : Config) (env : Env) (fuel : Nat) (tr : List Event)
    (sock : Addr) : (wrq_session cfg env fuel tr sock).outcome.in_transfer = true := by
  unfold wrq_session
  simp only
  split_ifs
  · rfl
  · exact wrq_loop_outcome _ _ _ _ _ _ _

/-! ## The read loop ends -/

/-- With one unit of fuel per block still to read, the read loop never runs
out of fuel. -/
theorem rrq_loop_ends (cfg : Config) (env : Env) (fuel : Nat) :
    ∀ (rest : List Nat) (bn : Nat) (tr : List Event) (sock : Addr),
      rest.length < 512 * fuel →
      (rrq_loop cfg env fuel rest bn tr sock).outcome ≠ .running := by
  induction fuel with
  | zero => intro rest bn tr sock h; omega
  | succ fuel ih =>
    intro rest bn tr sock hlen
    rw [rrq_loop]
    have he := rrq_cycle_exit cfg env ((bn + 1) % 65536) (List.take 512 rest) RECV_RETRIES
        (tr ++ [Event.fread (List.take 512 rest)]) sock
    generalize rrq_cycle cfg env ((bn + 1) % 65536) (List.take 512 rest) RECV_RETRIES
        (tr ++ [Event.fread (List.take 512 rest)]) sock = cy at he
    cases hres : cy.res with
    | got m =>
      simp only
      split_ifs with h1 h2 h3 h4
      · simp
      · simp
      · simp
      · simp
      · exact ih _ _ _ _ (by simp at h4 ⊢; omega)
    | exhausted => simp
    | exit o => rcases he o hres with h | h <;> simp [h]

/-- The RRQ branch always ends: the fuel it is given is never used up. -/
theorem rrq_session_ends (cfg : Config) (env : Env) (stream : Stream) (tr : List Event)
    (sock : Addr) : (rrq_session cfg env stream tr sock).outcome ≠ .running :=
  rrq_loop_ends cfg env _ _ _ _ _ (by omega)

/-! ## The wire codec -/

/-- Storing `htons x` puts the high octet first on either kind of host. -/
theorem store16_htons (le : Bool) (x : Nat) (h : x < 65536) :
    store16 le (htons le x) = [x / 256, x % 256] := by
  have h1 : (x % 256 * 256 + x / 256 % 256) / 256 = x % 256 := by
    rw [Nat.mul_comm, Nat.mul_add_div (by norm_num)]; omega
  cases le
  · simp only [store16, htons, Bool.false_eq_true, if_false, List.cons.injEq, and_true]
    omega
  · simp only [store16, htons, bswap16, if_true, List.cons.injEq, and_true, h1]
    omega

/-- Reading a stored word through `ntohs` gives the big-endian value of the
two octets on either kind of host. -/
theorem ntohs_load16 (le : Bool) (m : List Nat) (off : Nat)
    (h0 : m.getD off 0 < 256) (h1 : m.getD (off + 1) 0 < 256) :
    ntohs le (load16 le m off) = 256 * m.getD off 0 + m.getD (off + 1) 0 := by
  cases le
  · simp only [ntohs, load16, Bool.false_eq_true, if_false]
    omega
  · simp only [ntohs, load16, bswap16, if_true]
    have h2 : (m.getD off 0 + 256 * m.getD (off + 1) 0) / 256 = m.getD (off + 1) 0 := by
      rw [Nat.add_comm, Nat.mul_add_div (by norm_num)]; omega
    rw [h2]
    omega

/-- Claim C8: for every block number below 65536 and every data slice of at
most 512 octets, `tftp_send_data` sends the 4 + |d| octets (at most 516)
`00 03 b/256 b%256` followed by the data, and `tftp_send_ack` sends exactly
the 4 octets `00 04 b/256 b%256`, on either host byte order. -/
theorem send_data_ack_wire_format (cfg : Config) (env : Env) (tr : List Event) (sock : Addr)
    (b : Nat) (d : List Nat) (hb : b < 65536) (hd : d.length ≤ 512) :
    (tftp_send_data cfg env tr b d sock).1
        = tr ++ [Event.sendto sock ([0, 3, b / 256, b % 256] ++ d)
            (env.sendto tr sock ([0, 3, b / 256, b % 256] ++ d))]
      ∧ (data_dgram cfg.le b d).length = 4 + d.length
      ∧ (data_dgram cfg.le b d).length ≤ 516
      ∧ (tftp_send_ack cfg env tr b sock).1
        = tr ++ [Event.sendto sock [0, 4, b / 256, b % 256]
            (env.sendto tr sock [0, 4, b / 256, b % 256])]
      ∧ (ack_dgram cfg.le b).length = 4 := by
  have hD : data_dgram cfg.le b d = [0, 3, b / 256, b % 256] ++ d := by
    rw [data_dgram, store16_htons cfg.le b hb, store16_htons cfg.le DATA (by decide)]
    simp [DATA]
  have hA : ack_dgram cfg.le b = [0, 4, b / 256, b % 256] := by
    rw [ack_dgram, store16_htons cfg.le b hb, store16_htons cfg.le ACK (by decide)]
    simp [ACK]
  refine ⟨?_, ?_, ?_, ?_, ?_⟩
  · simp [tftp_send_data, hD]
  · simp [hD]; omega
  · simp [hD]; omega
  · simp [tftp_send_ack, hA]
  · simp [hA]

/-- Witness of C8: block 258 with three octets of data. -/
theorem send_data_ack_wire_format_witness :
    (tftp_send_data ⟨true, []⟩ ⟨true, fun _ _ _ => true, fun _ => .eagain,
        fun _ _ => .error 2, fun _ d => d.length, fun _ => [], fun e => e⟩ [] 258 [7, 8, 9] ⟨1, 2⟩).1
        = [] ++ [Event.sendto ⟨1, 2⟩ ([0, 3, 258 / 256, 258 % 256] ++ [7, 8, 9]) true]
      ∧ (data_dgram true 258 [7, 8, 9]).length = 4 + [7, 8, 9].length
      ∧ (data_dgram true 258 [7, 8, 9]).length ≤ 516
      ∧ (tftp_send_ack ⟨true, []⟩ ⟨true, fun _ _ _ => true, fun _ => .eagain,
        fun _ _ => .error 2, fun _ d => d.length, fun _ => [], fun e => e⟩ [] 258 ⟨1, 2⟩).1
        = [] ++ [Event.sendto ⟨1, 2⟩ [0, 4, 258 / 256, 258 % 256] true]
      ∧ (ack_dgram true 258).length = 4 :=
  send_data_ack_wire_format ⟨true, []⟩ ⟨true, fun _ _ _ => true, fun _ => .eagain,
    fun _ _ => .error 2, fun _ d => d.length, fun _ => [], fun e => e⟩ [] ⟨1, 2⟩ 258 [7, 8, 9]
    (by decide) (by decide)

/-- Claim C7 (evaluation at the failing input): on a little-endian host
`tftp_send_error` for error code 2 and the string of `ENOENT` sends the code
as the octets `02 00`, low octet first, where the wire format has `00 02`. -/
theorem send_error_code_host_order :
    tftp_send_error_dgram true 2 (cs "No such file or directory")
      = some ([0, 5, 2, 0] ++ cs "No such file or directory" ++ [0]) := by
  decide

/-- Claim C9 (evaluation at the failing input): on a little-endian host the
datagram `tftp_send_error` builds for ERROR(2, "No such file or directory")
decodes through `ntohs(m.error.error_code)` to error code 512. -/
theorem error_code_round_trip_fails :
    msg_opcode true (error_dgram true 2 (cs "No such file or directory")) = ERROR
      ∧ msg_error_code true (error_dgram true 2 (cs "No such file or directory")) = 512
      ∧ msg_error_string (error_dgram true 2 (cs "No such file or directory"))
          = cs "No such file or directory" := by
  decide

/-! ## The path check -/

theorem strncmp_eq_zero_iff (b : List Nat) (hb : ∀ c ∈ b, c ≠ 0) :
    ∀ a : List Nat, strncmp a b b.length = 0 ↔ b <+: a := by
  induction b with
  | nil => intro a; simp [strncmp]
  | cons c bs ih =>
    intro a
    have hc : c ≠ 0 := hb c (List.mem_cons_self _ _)
    have hbs : ∀ x ∈ bs, x ≠ 0 := fun x hx => hb x (List.mem_cons_of_mem _ hx)
    cases a with
    | nil =>
      simp only [List.length_cons, strncmp, List.headD_nil, List.headD_cons]
      rw [if_pos (Ne.symm hc)]
      simp
      omega
    | cons x as =>
      simp only [List.length_cons, strncmp, List.headD_cons, List.tail_cons]
      by_cases hx : x = c
      · subst hx
        simp only [ne_eq, not_true_eq_false, if_false, if_neg hc]
        rw [ih hbs as, List.cons_prefix_cons]
        simp
      · rw [if_pos hx]
        rw [List.cons_prefix_cons]
        constructor
        · intro h; exfalso; omega
        · intro h; exact absurd h.1.symm hx

theorem strlen_eq_length (b : List Nat) (hb : ∀ c ∈ b, c ≠ 0) : strlen b = b.length := by
  unfold strlen cstr
  rw [List.takeWhile_eq_self_iff.mpr]
  intro c hc
  simpa using hb c hc

theorem strstr_isSome_iff (needle : List Nat) :
    ∀ h : List Nat, (strstr h needle).isSome = true ↔ needle <:+: h := by
  intro h
  induction h with
  | nil =>
    unfold strstr
    cases needle <;> simp
  | cons c h ih =>
    unfold strstr
    rw [List.infix_cons_iff]
    by_cases hp : needle.isPrefixOf (c :: h) = true
    · rw [if_pos hp]
      simp [List.isPrefixOf_iff_prefix.mp hp]
    · rw [if_neg hp]
      have hnp : ¬ needle <+: c :: h := fun hh => hp (List.isPrefixOf_iff_prefix.mpr hh)
      simp only [Option.isSome_map', ih, hnp, false_or]

/-- The path check refuses exactly the names that begin with `../`, contain
`/../`, or begin with `/` without having the base directory as a prefix. -/
theorem path_rejected_iff (base filename : List Nat) (hb : ∀ c ∈ base, c ≠ 0) :
    path_rejected base filename = true
      ↔ (cs "../" <+: filename ∨ cs "/../" <:+: filename
          ∨ (cs "/" <+: filename ∧ ¬ base <+: filename)) := by
  have h1 : strncmp filename (cs "../") 3 = 0 ↔ cs "../" <+: filename :=
    strncmp_eq_zero_iff (cs "../") (by decide) filename
  have h3 : strncmp filename base (strlen base) = 0 ↔ base <+: filename := by
    rw [strlen_eq_length base hb]; exact strncmp_eq_zero_iff base hb filename
  have h4 : filename.headD 0 = 47 ↔ cs "/" <+: filename := by
    have : cs "/" = [47] := by decide
    rw [this]
    cases filename with
    | nil => simp
    | cons x xs => simp [List.cons_prefix_cons, eq_comm]
  unfold path_rejected
  simp only [Bool.or_eq_true, Bool.and_eq_true, beq_iff_eq, bne_iff_ne, ne_eq,
    strstr_isSome_iff, h1, h3, h4]
  tauto

theorem error_dgram_zero (le : Bool) (s : List Nat) :
    error_dgram le 0 s = [0, 5, 0, 0] ++ s ++ [0] := by
  rw [error_dgram, store16_htons le ERROR (by decide)]
  cases le <;> simp [store16, ERROR]

theorem outside_base_directory_short :
    (cs "filename outside base directory").length < 512 := by decide

/-- Claim C1: for a base directory string and a parsed request file name,
`tftp_handle_request` ends with "filename outside base directory" if and only
if the name begins with `../`, contains `/../`, or begins with `/` and does
not have the base directory as a prefix; in that case all it does is send
ERROR(0, "filename outside base directory"), and otherwise its first action is
to open the file.  With base `/srv/tftp` the check refuses `../etc/passwd`,
`foo/../../etc/passwd` and `/etc/passwd` and lets `foo/bar.bin` and
`/srv/tftp/foo.bin` pass. -/
theorem path_containment (cfg : Config) (env : Env) (fuel : Nat) (m : List Nat) (len : Nat)
    (client : Addr) (filename mode_s : List Nat)
    (hsock : env.socket_ok = true) (hbase : ∀ c ∈ cfg.base_directory, c ≠ 0)
    (hparse : parse_request m len = .ok (filename, mode_s)) :
    ((tftp_handle_request cfg env fuel m len client).outcome = .outside_base_directory
        ↔ (cs "../" <+: filename ∨ cs "/../" <:+: filename
            ∨ (cs "/" <+: filename ∧ ¬ cfg.base_directory <+: filename)))
      ∧ ((tftp_handle_request cfg env fuel m len client).outcome = .outside_base_directory →
          (tftp_handle_request cfg env fuel m len client).trace
            = [Event.sendto client ([0, 5, 0, 0] ++ cs "filename outside base directory" ++ [0])
                (env.sendto [] client
                  ([0, 5, 0, 0] ++ cs "filename outside base directory" ++ [0]))])
      ∧ ((tftp_handle_request cfg env fuel m len client).outcome ≠ .outside_base_directory →
          ∃ w e, [Event.fopen filename w e]
            <+: (tftp_handle_request cfg env fuel m len client).trace)
      ∧ path_rejected (cs "/srv/tftp") (cs "../etc/passwd") = true
      ∧ path_rejected (cs "/srv/tftp") (cs "foo/../../etc/passwd") = true
      ∧ path_rejected (cs "/srv/tftp") (cs "/etc/passwd") = true
      ∧ path_rejected (cs "/srv/tftp") (cs "foo/bar.bin") = false
      ∧ path_rejected (cs "/srv/tftp") (cs "/srv/tftp/foo.bin") = false := by
  have hiff := path_rejected_iff cfg.base_directory filename hbase
  have key : ((tftp_handle_request cfg env fuel m len client).outcome = .outside_base_directory
        ↔ path_rejected cfg.base_directory filename = true)
      ∧ (path_rejected cfg.base_directory filename = true →
          (tftp_handle_request cfg env fuel m len client).trace
            = [Event.sendto client ([0, 5, 0, 0] ++ cs "filename outside base directory" ++ [0])
                (env.sendto [] client
                  ([0, 5, 0, 0] ++ cs "filename outside base directory" ++ [0]))])
      ∧ (path_rejected cfg.base_directory filename ≠ true →
          ∃ w e, [Event.fopen filename w e]
            <+: (tftp_handle_request cfg env fuel m len client).trace) := by
    unfold tftp_handle_request
    simp only [hsock, Bool.not_true, Bool.false_eq_true, if_false, hparse]
    by_cases hrej : path_rejected cfg.base_directory filename = true
    · simp only [hrej, if_true, true_iff, forall_const, ne_eq, not_true_eq_false,
        false_implies, and_true, true_and]
      rw [tftp_send_error_fst _ _ _ _ _ _ outside_base_directory_short, error_dgram_zero]
      simp
    · simp only [hrej, if_false, false_iff, false_implies, true_and, ne_eq, not_false_eq_true,
        forall_const, Bool.false_eq_true]
      cases hopen : env.fopen filename (msg_opcode cfg.le m != RRQ) with
      | error errno =>
        simp only
        exact ⟨by simp, _, some errno, tftp_send_error_extends _ _ _ _ _ _⟩
      | ok stream =>
        simp only
        split_ifs with h1 h2 h3
        · exact ⟨by simp, _, none, tftp_send_error_extends _ _ _ _ _ _⟩
        · refine ⟨?_, _, none, (List.prefix_append _ _).trans (rrq_session_extends _ _ _ _ _)⟩
          rw [iff_false]
          intro h
          have := rrq_session_outcome cfg env stream
            ([Event.fopen filename (msg_opcode cfg.le m != RRQ) none] ++
              [Event.request_received (msg_opcode cfg.le m == RRQ) filename mode_s]) client
          rw [h] at this
          simp [Outcome.in_transfer] at this
        · refine ⟨?_, _, none, (List.prefix_append _ _).trans (wrq_session_extends _ _ _ _ _)⟩
          rw [iff_false]
          intro h
          have := wrq_session_outcome cfg env fuel
            ([Event.fopen filename (msg_opcode cfg.le m != RRQ) none] ++
              [Event.request_received (msg_opcode cfg.le m == RRQ) filename mode_s]) client
          rw [h] at this
          simp [Outcome.in_transfer] at this
        · exact ⟨by simp, _, none, List.prefix_append _ _⟩
  refine ⟨key.1.trans hiff, fun h => key.2.1 (key.1.mp h), fun h => key.2.2 (fun h2 => h (key.1.mpr h2)),
    by decide, by decide, by decide, by decide, by decide⟩

/-- Witness of C1: the request RRQ("../etc/passwd", "octet") with base `/srv/tftp`. -/
theorem path_containment_witness :
    (tftp_handle_request ⟨true, cs "/srv/tftp"⟩ (demo_env []) 0
        (message_buffer (request_dgram RRQ (cs "../etc/passwd") (cs "octet"))) 22 demo_client).outcome
      = .outside_base_directory
    ∧ (tftp_handle_request ⟨true, cs "/srv/tftp"⟩ (demo_env []) 0
        (message_buffer (request_dgram RRQ (cs "../etc/passwd") (cs "octet"))) 22 demo_client).trace
      = [Event.sendto demo_client
          ([0, 5, 0, 0] ++ cs "filename outside base directory" ++ [0]) true] :=
  have h := path_containment ⟨true, cs "/srv/tftp"⟩ (demo_env []) 0
    (message_buffer (request_dgram RRQ (cs "../etc/passwd") (cs "octet"))) 22 demo_client
    (cs "../etc/passwd") (cs "octet") rfl (by decide) rfl
  ⟨h.1.mpr (Or.inl (by decide)), h.2.1 (h.1.mpr (Or.inl (by decide)))⟩

/-! ## Mode selection -/

/-- The mode selector never yields 0: a string that is not "netascii" selects
NETASCII and the string "netascii" selects OCTET, so the test `mode == 0` of
line 221 never succeeds. -/
theorem select_mode_ne_zero (mode_s : List Nat) : select_mode mode_s ≠ 0 := by
  have hn : cs "netascii" = [110, 101, 116, 97, 115, 99, 105, 105] := by decide
  have ho : cs "octet" = [111, 99, 116, 101, 116] := by decide
  unfold select_mode
  rw [hn, ho]
  cases mode_s with
  | nil => simp [strcasecmp, NETASCII, tolower]
  | cons a as =>
    by_cases h1 : strcasecmp (a :: as) [110, 101, 116, 97, 115, 99, 105, 105] = 0
    · rw [if_neg (by simpa using h1)]
      have h2 : strcasecmp (a :: as) [111, 99, 116, 101, 116] ≠ 0 := by
        have ha : tolower a = 110 := by
          by_contra hne
          have h110 : tolower 110 = 110 := by decide
          rw [strcasecmp, h110, if_neg hne] at h1
          omega
        have h111 : tolower 111 = 111 := by decide
        rw [strcasecmp, h111, ha, if_neg (by decide)]
        decide
      rw [if_pos h2]
      decide
    · rw [if_pos h1]
      decide

/-- Claim C6 (evaluation at the failing input): the request
RRQ("hello.txt", "foo"), whose mode is neither "netascii" nor "octet", is
accepted: the file is opened, the request is logged as received, the block
DATA(1) is sent and, once acknowledged, the transfer completes; no ERROR is
sent. -/
theorem unknown_mode_accepted :
    tftp_handle_request ⟨true, cs "/srv/tftp"⟩ (demo_env [72, 101, 108, 108, 111, 10]) 0
        (message_buffer (request_dgram RRQ (cs "hello.txt") (cs "foo"))) 16 demo_client
      = ⟨[Event.fopen (cs "hello.txt") false none,
          Event.request_received true (cs "hello.txt") (cs "foo"),
          Event.fread [72, 101, 108, 108, 111, 10],
          Event.sendto demo_client [0, 3, 0, 1, 72, 101, 108, 108, 111, 10] true,
          Event.recvfrom (.dgram demo_client [0, 4, 0, 1])],
        demo_client, [], .completed⟩ := by
  decide

/-! ## Failure of `fopen` -/

/-- When `perror` leaves `errno` as it is, the RRQ for a missing file is
answered with the `errno` of `fopen`: `ENOENT` (2) and its message. -/
theorem open_failure_reply_errno_kept :
    (tftp_handle_request ⟨true, cs "/srv/tftp"⟩ missing_file_env 0
        (message_buffer (request_dgram RRQ (cs "missing.txt") (cs "octet"))) 20 demo_client).trace
        = [Event.fopen (cs "missing.txt") false (some ENOENT),
            Event.sendto demo_client
              (error_dgram true ENOENT (cs "No such file or directory")) true] := by
  decide

/-! ## A complete read transfer -/

theorem sent_dgrams_append (a b : List Event) :
    sent_dgrams (a ++ b) = sent_dgrams a ++ sent_dgrams b := by
  induction a with
  | nil => rfl
  | cons e es ih => cases e <;> simp [sent_dgrams, ih]

theorem data_dgram_wire (le : Bool) (b : Nat) (d : List Nat) (hb : b < 65536) :
    data_dgram le b d = [0, 3, b / 256, b % 256] ++ d := by
  rw [data_dgram, store16_htons le b hb, store16_htons le DATA (by decide)]
  simp [DATA]

theorem ack_dgram_wire (le : Bool) (b : Nat) (hb : b < 65536) :
    ack_dgram le b = [0, 4, b / 256, b % 256] := by
  rw [ack_dgram, store16_htons le b hb, store16_htons le ACK (by decide)]
  simp [ACK]

theorem msg_opcode_wire (le : Bool) (a b : Nat) (rest : List Nat) (ha : a < 256) (hb : b < 256) :
    msg_opcode le (a :: b :: rest) = 256 * a + b := by
  rw [msg_opcode, ntohs_load16] <;> simp [ha, hb]

theorem msg_block_number_wire (le : Bool) (x y a b : Nat) (rest : List Nat)
    (ha : a < 256) (hb : b < 256) :
    msg_block_number le (x :: y :: a :: b :: rest) = 256 * a + b := by
  rw [msg_block_number, ntohs_load16] <;> simp [ha, hb]

/-- The read loop against a peer in lock step, from any state. -/
theorem rrq_loop_lockstep (cfg : Config) (env : Env) (client : Addr)
    (hsend : ∀ tr dst dg, env.sendto tr dst dg = true)
    (hpeer : ∀ tr dst b d ok,
      env.recvfrom (tr ++ [Event.sendto dst ([0, 3, b / 256, b % 256] ++ d) ok])
        = .dgram dst [0, 4, b / 256, b % 256])
    (fuel : Nat) :
    ∀ (rest : List Nat) (bn : Nat) (tr : List Event),
      rest.length < 512 * fuel → bn + fuel ≤ 65535 →
      (rrq_loop cfg env fuel rest bn tr client).outcome = .completed
      ∧ (rrq_loop cfg env fuel rest bn tr client).sock = client
      ∧ sent_dgrams (rrq_loop cfg env fuel rest bn tr client).trace
          = sent_dgrams tr ++ (List.range (rest.length / 512 + 1)).map
              (fun i => (client,
                [0, 3, (bn + 1 + i) / 256, (bn + 1 + i) % 256] ++ file_block rest i)) := by
  induction fuel with
  | zero => intro rest bn tr h; omega
  | succ fuel ih =>
    intro rest bn tr hlen hbn
    have hb1 : (bn + 1) % 65536 = bn + 1 := Nat.mod_eq_of_lt (by omega)
    have hcy : rrq_cycle cfg env (bn + 1) (List.take 512 rest) RECV_RETRIES
        (tr ++ [Event.fread (List.take 512 rest)]) client
        = ⟨tr ++ [Event.fread (List.take 512 rest)]
            ++ [Event.sendto client (data_dgram cfg.le (bn + 1) (List.take 512 rest)) true,
                Event.recvfrom (.dgram client [0, 4, (bn + 1) / 256, (bn + 1) % 256])],
            client, .got [0, 4, (bn + 1) / 256, (bn + 1) % 256]⟩ := by
      have hr : (tftp_recv_message env (tr ++ [Event.fread (List.take 512 rest)]
          ++ [Event.sendto client (data_dgram cfg.le (bn + 1) (List.take 512 rest)) true])).2
          = .dgram client [0, 4, (bn + 1) / 256, (bn + 1) % 256] := by
        rw [tftp_recv_message_snd, data_dgram_wire _ _ _ (by omega), hpeer]
        simp [MSG_SIZE]
      show rrq_cycle cfg env (bn + 1) (List.take 512 rest) (4 + 1) _ client = _
      rw [rrq_cycle_succ, hsend, hr]
      simp
    have hop : msg_opcode cfg.le [0, 4, (bn + 1) / 256, (bn + 1) % 256] = 4 := by
      rw [msg_opcode_wire _ _ _ _ (by norm_num) (by norm_num)]
    have hbl : msg_block_number cfg.le [0, 4, (bn + 1) / 256, (bn + 1) % 256] = bn + 1 := by
      rw [msg_block_number_wire _ _ _ _ _ _ (by omega) (by omega)]
      omega
    rw [rrq_loop]
    simp only [hb1, hcy, hop, hbl, ERROR, ACK]
    simp only [Nat.reduceEqDiff, if_false, ne_eq, not_true_eq_false, not_false_eq_true]
    by_cases hshort : rest.length < 512
    · have h0 : rest.length / 512 = 0 := by omega
      simp only [List.length_take]
      rw [if_pos (by simp; omega)]
      refine ⟨rfl, rfl, ?_⟩
      have hr1 : List.range 1 = [0] := rfl
      simp [h0, hr1, sent_dgrams_append, sent_dgrams,
        data_dgram_wire _ _ _ (show bn + 1 < 65536 by omega), file_block]
    · simp only [List.length_take]
      rw [if_neg (by simp; omega)]
      obtain ⟨h1, h2, h3⟩ := ih (rest.drop 512) (bn + 1)
        (tr ++ [Event.fread (List.take 512 rest)]
            ++ [Event.sendto client (data_dgram cfg.le (bn + 1) (List.take 512 rest)) true,
                Event.recvfrom (.dgram client [0, 4, (bn + 1) / 256, (bn + 1) % 256])])
        (by simp; omega) (by omega)
      refine ⟨h1, h2, ?_⟩
      rw [h3]
      have hq : rest.length / 512 = (rest.drop 512).length / 512 + 1 := by
        simp; omega
      rw [hq, List.range_succ_eq_map (n := (rest.drop 512).length / 512 + 1)]
      simp only [sent_dgrams_append, sent_dgrams, List.map_cons, List.map_map,
        data_dgram_wire _ _ _ (show bn + 1 < 65536 by omega), List.append_nil, List.nil_append,
        List.append_assoc, List.cons_append, List.singleton_append]
      congr 2
      simp [file_block]
      intro a _
      have e1 : bn + 1 + 1 + a = bn + 1 + (a + 1) := by omega
      have e2 : 512 + 512 * a = 512 * (a + 1) := by omega
      rw [e1, e2]
      exact ⟨rfl, rfl, rfl⟩

theorem lockstep_peer_answers (tr : List Event) (dst : Addr) (b : Nat) (d : List Nat)
    (ok : Bool) :
    lockstep_peer (tr ++ [Event.sendto dst ([0, 3, b / 256, b % 256] ++ d) ok])
      = .dgram dst [0, 4, b / 256, b % 256] := by
  simp [lockstep_peer]

/-- Claim C2: for a file of n octets with k = n / 512 + 1 at most 65535, sends
that succeed and a peer that answers each DATA(b) with ACK(b), the RRQ branch
completes and the datagrams it sends are exactly DATA(1), ..., DATA(k) in that
order, the one numbered i + 1 carrying the file octets from offset 512 * i up
to 512 * (i + 1) or the end of the file: 512 octets for every block but the
last and n mod 512 octets for the last. -/
theorem read_transfer_blocks (cfg : Config) (env : Env) (content : List Nat)
    (tr0 : List Event) (client : Addr)
    (hk : content.length / 512 + 1 ≤ 65535)
    (hsend : ∀ tr dst dg, env.sendto tr dst dg = true)
    (hpeer : ∀ tr dst b d ok,
      env.recvfrom (tr ++ [Event.sendto dst ([0, 3, b / 256, b % 256] ++ d) ok])
        = .dgram dst [0, 4, b / 256, b % 256]) :
    (rrq_session cfg env ⟨content, none⟩ tr0 client).outcome = .completed
      ∧ sent_dgrams (rrq_session cfg env ⟨content, none⟩ tr0 client).trace
          = sent_dgrams tr0 ++ (List.range (content.length / 512 + 1)).map
              (fun i => (client, [0, 3, (i + 1) / 256, (i + 1) % 256] ++ file_block content i))
      ∧ (∀ i, i < content.length / 512 + 1 →
          (file_block content i).length
            = if i + 1 < content.length / 512 + 1 then 512 else content.length % 512) := by
  obtain ⟨h1, _, h3⟩ := rrq_loop_lockstep cfg env client hsend hpeer
    (content.length / 512 + 1) content 0 tr0 (by omega) (by omega)
  refine ⟨h1, ?_, ?_⟩
  · show sent_dgrams (rrq_loop cfg env (content.length / 512 + 1) content 0 tr0 client).trace = _
    rw [h3]
    congr 1
    apply List.map_congr_left
    intro i _
    have e : 0 + 1 + i = i + 1 := by omega
    rw [e]
  · intro i hi
    simp only [file_block, List.length_take, List.length_drop]
    split_ifs <;> omega

set_option maxRecDepth 100000 in
/-- Witness of C2: the file of 6 octets of scenario S1 is sent as one block of
6 octets; a file of 512 octets as DATA(1) with 512 octets and DATA(2) with
none; a file of 1500 octets as blocks of 512, 512 and 476 octets. -/
theorem read_transfer_blocks_witness :
    ((rrq_session ⟨true, []⟩ (demo_env [72, 101, 108, 108, 111, 10])
          ⟨[72, 101, 108, 108, 111, 10], none⟩ [] demo_client).outcome = .completed
      ∧ sent_dgrams (rrq_session ⟨true, []⟩ (demo_env [72, 101, 108, 108, 111, 10])
          ⟨[72, 101, 108, 108, 111, 10], none⟩ [] demo_client).trace
        = [(demo_client, [0, 3, 0, 1, 72, 101, 108, 108, 111, 10])])
    ∧ (sent_dgrams (rrq_session ⟨true, []⟩ (demo_env (List.replicate 512 7))
          ⟨List.replicate 512 7, none⟩ [] demo_client).trace).map
          (fun p => (p.2.take 4, p.2.length - 4))
        = [([0, 3, 0, 1], 512), ([0, 3, 0, 2], 0)]
    ∧ (sent_dgrams (rrq_session ⟨true, []⟩ (demo_env (List.replicate 1500 7))
          ⟨List.replicate 1500 7, none⟩ [] demo_client).trace).map
          (fun p => (p.2.take 4, p.2.length - 4))
        = [([0, 3, 0, 1], 512), ([0, 3, 0, 2], 512), ([0, 3, 0, 3], 476)] :=
  have h6 := read_transfer_blocks ⟨true, []⟩ (demo_env [72, 101, 108, 108, 111, 10])
    [72, 101, 108, 108, 111, 10] [] demo_client (by decide) (fun _ _ _ => rfl)
    lockstep_peer_answers
  have h512 := read_transfer_blocks ⟨true, []⟩ (demo_env (List.replicate 512 7))
    (List.replicate 512 7) [] demo_client (by decide) (fun _ _ _ => rfl)
    lockstep_peer_answers
  have h1500 := read_transfer_blocks ⟨true, []⟩ (demo_env (List.replicate 1500 7))
    (List.replicate 1500 7) [] demo_client (by decide) (fun _ _ _ => rfl)
    lockstep_peer_answers
  ⟨⟨h6.1, h6.2.1.trans (by decide)⟩,
    (congrArg (List.map (fun p => (p.2.take 4, p.2.length - 4))) h512.2.1).trans (by decide),
    (congrArg (List.map (fun p => (p.2.take 4, p.2.length - 4))) h1500.2.1).trans (by decide)⟩

/-! ## A complete write transfer -/

theorem recv_count_append (a b : List Event) :
    recv_count (a ++ b) = recv_count a + recv_count b := by
  induction a with
  | nil => simp [recv_count]
  | cons e es ih =>
    cases e <;> simp [recv_count, ih]
    omega

/-- The write loop against a client that uploads in lock step, from any state. -/
theorem wrq_loop_lockstep (cfg : Config) (env : Env) (client : Addr)
    (hsend : ∀ tr dst dg, env.sendto tr dst dg = true)
    (hwrite : ∀ tr d, env.fwrite tr d = d.length) :
    ∀ (ps : List (List Nat)) (fuel bn : Nat) (sink : List Nat) (tr : List Event),
      short_terminated ps = true → ps.length ≤ fuel → bn + ps.length ≤ 65535 →
      (∀ tr1 j, j < ps.length → recv_count tr1 = recv_count tr + j →
        env.recvfrom tr1 = .dgram client
          ([0, 3, (bn + j + 1) / 256, (bn + j + 1) % 256] ++ ps.getD j [])) →
      (wrq_loop cfg env fuel bn sink tr client).outcome = .completed
      ∧ (wrq_loop cfg env fuel bn sink tr client).sink = sink ++ ps.flatten
      ∧ (wrq_loop cfg env fuel bn sink tr client).trace
          = tr ++ wrq_lockstep_trace client bn ps := by
  intro ps
  induction ps with
  | nil => intro fuel bn sink tr h; simp [short_terminated] at h
  | cons p rest ih =>
    intro fuel bn sink tr hps hfuel hbn hpeer
    obtain ⟨fuel, rfl⟩ : ∃ f, fuel = f + 1 := ⟨fuel - 1, by simp at hfuel; omega⟩
    have hp512 : p.length ≤ 512 := by
      cases rest with
      | nil => simp [short_terminated] at hps; omega
      | cons q qs => simp [short_terminated] at hps; omega
    have hb1 : (bn + 1) % 65536 = bn + 1 := Nat.mod_eq_of_lt (by simp at hbn; omega)
    have hr : (tftp_recv_message env tr).2
        = .dgram client ([0, 3, (bn + 1) / 256, (bn + 1) % 256] ++ p) := by
      rw [tftp_recv_message_snd, hpeer tr 0 (by simp) (by simp)]
      simp only [Nat.add_zero, List.getD_cons_zero]
      rw [List.take_of_length_le (by simp [MSG_SIZE]; omega)]
    have hcy : wrq_cycle cfg env bn RECV_RETRIES tr client
        = ⟨tr ++ [Event.recvfrom (.dgram client ([0, 3, (bn + 1) / 256, (bn + 1) % 256] ++ p))],
            client, .got ([0, 3, (bn + 1) / 256, (bn + 1) % 256] ++ p)⟩ := by
      show wrq_cycle cfg env bn (4 + 1) tr client = _
      rw [wrq_cycle_succ, hr]
      simp
    have hop : msg_opcode cfg.le ([0, 3, (bn + 1) / 256, (bn + 1) % 256] ++ p) = 3 := by
      show msg_opcode cfg.le (0 :: 3 :: _) = 3
      rw [msg_opcode_wire _ _ _ _ (by norm_num) (by norm_num)]
    have hbl : msg_block_number cfg.le ([0, 3, (bn + 1) / 256, (bn + 1) % 256] ++ p)
        = bn + 1 := by
      show msg_block_number cfg.le (0 :: 3 :: (bn + 1) / 256 :: (bn + 1) % 256 :: _) = bn + 1
      rw [msg_block_number_wire _ _ _ _ _ _ (by omega) (by omega)]
      omega
    have hpay : msg_payload ([0, 3, (bn + 1) / 256, (bn + 1) % 256] ++ p) = p := by
      simp [msg_payload]
    have hack : ack_dgram cfg.le (bn + 1) = [0, 4, (bn + 1) / 256, (bn + 1) % 256] :=
      ack_dgram_wire _ _ (by simp at hbn; omega)
    rw [wrq_loop]
    simp only [hb1, hcy, hop, hbl, hpay, hwrite, ERROR, DATA, tftp_send_ack_neg,
      tftp_send_ack_fst, hsend, hack, MSG_SIZE]
    simp only [Nat.reduceEqDiff, if_false, ne_eq, not_true_eq_false, Nat.min_self,
      List.take_length, Bool.true_eq_false, Int.natCast_nonneg, not_lt.mpr]
    cases rest with
    | nil =>
      have hlt : p.length < 512 := by simpa [short_terminated] using hps
      rw [if_pos (by simp; omega)]
      simp [wrq_lockstep_trace]
    | cons q qs =>
      have h512 : p.length = 512 := by
        simp [short_terminated] at hps; exact hps.1
      have hrest : short_terminated (q :: qs) = true := by
        simp [short_terminated] at hps; simpa [short_terminated] using hps.2
      rw [if_neg (by simp; omega)]
      obtain ⟨h1, h2, h3⟩ := ih fuel (bn + 1) (sink ++ p)
        (tr ++ [Event.recvfrom (.dgram client ([0, 3, (bn + 1) / 256, (bn + 1) % 256] ++ p))]
          ++ [Event.fwrite p p.length]
          ++ [Event.sendto client [0, 4, (bn + 1) / 256, (bn + 1) % 256] true])
        hrest (by simp at hfuel ⊢; omega) (by simp at hbn ⊢; omega)
        (by
          intro tr1 j hj hc
          have := hpeer tr1 (j + 1) (by simp at hj ⊢; omega)
            (by simp [recv_count_append, recv_count] at hc ⊢; omega)
          rw [this]
          have e : bn + (j + 1) + 1 = bn + 1 + j + 1 := by omega
          simp [e])
      refine ⟨h1, ?_, ?_⟩
      · rw [h2]; simp
      · rw [h3]; simp [wrq_lockstep_trace]

theorem sent_dgrams_wrq_lockstep (client : Addr) :
    ∀ (ps : List (List Nat)) (bn : Nat),
      sent_dgrams (wrq_lockstep_trace client bn ps)
        = (List.range ps.length).map
            (fun i => (client, [0, 4, (bn + 1 + i) / 256, (bn + 1 + i) % 256])) := by
  intro ps
  induction ps with
  | nil => intro bn; simp [wrq_lockstep_trace, sent_dgrams]
  | cons p rest ih =>
    intro bn
    simp only [wrq_lockstep_trace, sent_dgrams, ih, List.length_cons]
    rw [List.range_succ_eq_map]
    simp only [List.map_cons, List.map_map, Nat.add_zero]
    congr 1
    apply List.map_congr_left
    intro i _
    have e : bn + 1 + 1 + i = bn + 1 + (i + 1) := by omega
    simp [e]

theorem upload_peer_answers (client : Addr) (ps : List (List Nat)) (tr : List Event) (j : Nat)
    (hc : recv_count tr = recv_count [] + j) :
    upload_peer client ps tr
      = .dgram client ([0, 3, (j + 1) / 256, (j + 1) % 256] ++ ps.getD j []) := by
  have : recv_count tr = j := by simpa [recv_count] using hc
  simp [upload_peer, this]

/-- Claim C3: for payloads p_1..p_k (k at most 65535) of which all but the
last have 512 octets and the last has fewer, a client that sends
DATA(1, p_1), ..., DATA(k, p_k) in order, sends that succeed and writes that
are complete, the WRQ branch (with fuel for k iterations) first sends ACK(0),
then for each DATA(i, p_i) writes exactly p_i and sends ACK(i), and completes
right after ACK(k): the file holds p_1 ++ ... ++ p_k and the datagrams sent
are ACK(0), ACK(1), ..., ACK(k) in that order. -/
theorem write_transfer (cfg : Config) (env : Env) (fuel : Nat) (ps : List (List Nat))
    (tr0 : List Event) (client : Addr)
    (hps : short_terminated ps = true) (hk : ps.length ≤ 65535) (hfuel : ps.length ≤ fuel)
    (hsend : ∀ tr dst dg, env.sendto tr dst dg = true)
    (hwrite : ∀ tr d, env.fwrite tr d = d.length)
    (hpeer : ∀ tr j, j < ps.length → recv_count tr = recv_count tr0 + j →
      env.recvfrom tr = .dgram client ([0, 3, (j + 1) / 256, (j + 1) % 256] ++ ps.getD j [])) :
    (wrq_session cfg env fuel tr0 client).outcome = .completed
      ∧ (wrq_session cfg env fuel tr0 client).sink = ps.flatten
      ∧ (wrq_session cfg env fuel tr0 client).trace
          = tr0 ++ Event.sendto client [0, 4, 0, 0] true :: wrq_lockstep_trace client 0 ps
      ∧ sent_dgrams (wrq_session cfg env fuel tr0 client).trace
          = sent_dgrams tr0 ++ (List.range (ps.length + 1)).map
              (fun i => (client, [0, 4, i / 256, i % 256])) := by
  have hack : ack_dgram cfg.le 0 = [0, 4, 0, 0] := ack_dgram_wire _ _ (by norm_num)
  obtain ⟨h1, h2, h3⟩ := wrq_loop_lockstep cfg env client hsend hwrite ps fuel 0 []
    (tr0 ++ [Event.sendto client [0, 4, 0, 0] true]) hps hfuel (by omega)
    (by
      intro tr1 j hj hc
      rw [hpeer tr1 j hj (by simpa [recv_count_append, recv_count] using hc)]
      simp)
  have hs : wrq_session cfg env fuel tr0 client
      = wrq_loop cfg env fuel 0 [] (tr0 ++ [Event.sendto client [0, 4, 0, 0] true]) client := by
    unfold wrq_session
    simp only [tftp_send_ack_neg, tftp_send_ack_fst, hsend, hack]
    simp
  rw [hs]
  refine ⟨h1, by simpa using h2, by simpa using h3, ?_⟩
  rw [h3, sent_dgrams_append, sent_dgrams_append, sent_dgrams_wrq_lockstep,
    List.range_succ_eq_map (n := ps.length)]
  simp only [sent_dgrams, List.map_cons, List.map_map, List.append_assoc, List.singleton_append]
  congr 2
  apply List.map_congr_left
  intro i _
  have e : 0 + 1 + i = i + 1 := by omega
  simp [e]

/-- Witness of C3 (scenario S4): one DATA(1) of 100 octets yields ACK(0), a
file of these 100 octets, ACK(1), and the transfer is completed. -/
theorem write_transfer_witness :
    (wrq_session ⟨true, []⟩ (upload_env demo_client [List.replicate 100 7]) 1 []
        demo_client).outcome = .completed
      ∧ (wrq_session ⟨true, []⟩ (upload_env demo_client [List.replicate 100 7]) 1 []
        demo_client).sink = List.replicate 100 7
      ∧ (wrq_session ⟨true, []⟩ (upload_env demo_client [List.replicate 100 7]) 1 []
        demo_client).trace
          = [Event.sendto demo_client [0, 4, 0, 0] true,
              Event.recvfrom (.dgram demo_client ([0, 3, 0, 1] ++ List.replicate 100 7)),
              Event.fwrite (List.replicate 100 7) 100,
              Event.sendto demo_client [0, 4, 0, 1] true] :=
  have h := write_transfer ⟨true, []⟩ (upload_env demo_client [List.replicate 100 7]) 1
    [List.replicate 100 7] [] demo_client (by decide) (by decide) (by decide)
    (fun _ _ _ => rfl) (fun _ _ => rfl)
    (fun tr j _ hc => upload_peer_answers demo_client [List.replicate 100 7] tr j hc)
  ⟨h.1, h.2.1.trans (by decide), h.2.2.1.trans (by decide)⟩

/-! ## The termination condition of a READ -/

theorem read_watch_append (a b : List Event) :
    read_watch (a ++ b) = b.foldl read_watch_step (read_watch a) := by
  simp [read_watch, List.foldl_append]

theorem wire_u16_data_dgram (le : Bool) (b : Nat) (d : List Nat) (hb : b < 65536) :
    wire_u16 (data_dgram le b d) 0 = 3 ∧ wire_u16 (data_dgram le b d) 2 = b := by
  rw [data_dgram_wire le b d hb]
  simp [wire_u16]
  omega

theorem wire_u16_error_dgram (le : Bool) (s : List Nat) :
    wire_u16 (error_dgram le 0 s) 0 = 5 := by
  rw [error_dgram_zero]
  simp [wire_u16]

/-- After any number of timed-out rounds and one more DATA send, the observer
holds that DATA as the last one, not acknowledged. -/
theorem read_watch_timeouts_send (sock : Addr) (dg : List Nat) (h3 : wire_u16 dg 0 = 3)
    (ok : Bool) (rest : List Event) (k : Nat) :
    ∀ w : ReadWatch,
      (rrq_timeouts sock dg k ++ Event.sendto sock dg ok :: rest).foldl read_watch_step w
        = rest.foldl read_watch_step ⟨some dg, false⟩ := by
  induction k with
  | zero => intro w; simp [rrq_timeouts, read_watch_step, h3]
  | succ k ih =>
    intro w
    simp only [rrq_timeouts, List.cons_append, List.foldl_cons]
    exact ih _

theorem read_watch_timeouts (sock : Addr) (dg : List Nat) (h3 : wire_u16 dg 0 = 3) (k : Nat) :
    ∀ w : ReadWatch,
      (rrq_timeouts sock dg (k + 1)).foldl read_watch_step w = ⟨some dg, false⟩ := by
  induction k with
  | zero => intro w; simp [rrq_timeouts, read_watch_step, h3]
  | succ k ih =>
    intro w
    rw [rrq_timeouts]
    simp only [List.foldl_cons]
    exact ih _

theorem msg_opcode_octets (le : Bool) (m : List Nat) (h : ∀ x ∈ m, x < 256) :
    msg_opcode le m = wire_u16 m 0 ∧ msg_block_number le m = wire_u16 m 2 := by
  have hget : ∀ i, m.getD i 0 < 256 := by
    intro i
    rw [List.getD_eq_getElem?_getD]
    cases hi : m[i]? with
    | none => simp
    | some x => simpa using h x (List.getElem?_mem hi)
  exact ⟨ntohs_load16 le m 0 (hget 0) (hget 1), ntohs_load16 le m 2 (hget 2) (hget 3)⟩

theorem octets_take (env : Env) (hoct : env.octets) (src : Addr) (m : List Nat)
    (h : ∃ tr1 bytes, env.recvfrom tr1 = .dgram src bytes ∧ m = bytes.take MSG_SIZE) :
    ∀ x ∈ m, x < 256 := by
  obtain ⟨tr1, bytes, h1, rfl⟩ := h
  intro x hx
  exact hoct tr1 src bytes h1 x (List.mem_of_mem_take hx)

theorem read_watch_cycle (tr0 : List Event) (sock : Addr) (dg : List Nat)
    (h3 : wire_u16 dg 0 = 3) (k : Nat) (ok : Bool) (rest : List Event) :
    read_watch (tr0 ++ rrq_timeouts sock dg k ++ (Event.sendto sock dg ok :: rest))
      = rest.foldl read_watch_step ⟨some dg, false⟩ := by
  rw [List.append_assoc, read_watch_append, read_watch_timeouts_send sock dg h3]

theorem read_watch_send_error (cfg : Config) (env : Env) (T : List Event) (s : List Nat)
    (sock : Addr) :
    read_watch (tftp_send_error cfg env T 0 s sock).1 = read_watch T := by
  unfold tftp_send_error
  split
  · rfl
  · rename_i m hm
    have : m = error_dgram cfg.le 0 s := by
      unfold tftp_send_error_dgram at hm
      split at hm
      · exact absurd hm (by simp)
      · exact (Option.some.inj hm).symm
    subst this
    rw [read_watch_append]
    simp [read_watch_step, wire_u16_error_dgram]

theorem read_completion_of_watch (T : List Event) (dg : List Nat) (a : Bool)
    (h : read_watch T = ⟨some dg, a⟩) :
    read_completion T = (decide (dg.length - 4 < 512) && a) := by
  simp [read_completion, h]

/-- The read loop reaches "transfer completed" exactly when the termination
condition holds of its trace. -/
theorem rrq_loop_completion (cfg : Config) (env : Env) (hoct : env.octets) (fuel : Nat) :
    ∀ (rest : List Nat) (bn : Nat) (tr : List Event) (sock : Addr),
      rest.length < 512 * fuel →
      ((rrq_loop cfg env fuel rest bn tr sock).outcome = .completed
        ↔ read_completion (rrq_loop cfg env fuel rest bn tr sock).trace = true) := by
  induction fuel with
  | zero => intro rest bn tr sock h; omega
  | succ fuel ih =>
    intro rest bn tr sock hlen
    have hb : (bn + 1) % 65536 < 65536 := Nat.mod_lt _ (by norm_num)
    obtain ⟨h3, hblk⟩ := wire_u16_data_dgram cfg.le ((bn + 1) % 65536) (List.take 512 rest) hb
    have hdl : (data_dgram cfg.le ((bn + 1) % 65536) (List.take 512 rest)).length - 4
        = (List.take 512 rest).length := by
      rw [data_dgram_wire _ _ _ hb]; simp
    obtain ⟨k, hk, hshape⟩ := rrq_cycle_shape cfg env ((bn + 1) % 65536) (List.take 512 rest)
      RECV_RETRIES (tr ++ [Event.fread (List.take 512 rest)]) sock
    rw [rrq_loop]
    rcases hshape with ⟨hkn, h⟩ | ⟨_, h⟩ | ⟨_, h⟩ | ⟨_, src, m, ok, hm, h⟩
      | ⟨_, src, m, hm4, _, horg, h⟩
    · -- the countdown is exhausted
      rw [h]
      simp only
      have hw : read_watch (tr ++ [Event.fread (List.take 512 rest)] ++ rrq_timeouts sock
          (data_dgram cfg.le ((bn + 1) % 65536) (List.take 512 rest)) k)
          = ⟨some (data_dgram cfg.le ((bn + 1) % 65536) (List.take 512 rest)), false⟩ := by
        rw [hkn, read_watch_append]
        exact read_watch_timeouts sock _ h3 4 _
      rw [read_completion_of_watch _ _ _ hw]
      simp
    · -- a send fails
      rw [h]
      simp only
      have hw := read_watch_cycle (tr ++ [Event.fread (List.take 512 rest)]) sock _ h3 k false []
      rw [read_completion_of_watch _ _ false (by rw [hw]; rfl)]
      simp
    · -- a receive fails
      rw [h]
      simp only
      have hw := read_watch_cycle (tr ++ [Event.fread (List.take 512 rest)]) sock _ h3 k true
        [Event.recvfrom .failed]
      rw [read_completion_of_watch _ _ false (by rw [hw]; rfl)]
      simp
    · -- a short datagram
      rw [h]
      simp only
      have hw := read_watch_cycle (tr ++ [Event.fread (List.take 512 rest)]) sock _ h3 k true
        [Event.recvfrom (.dgram src m),
          Event.sendto src (error_dgram cfg.le 0 (cs "invalid request size")) ok]
      simp only [List.foldl_cons, List.foldl_nil, read_watch_step, wire_u16_error_dgram,
        Nat.not_le.mpr hm, false_and, if_false, Nat.reduceEqDiff] at hw
      rw [read_completion_of_watch _ _ false hw]
      simp
    · -- a message of at least 4 octets
      have hmo := msg_opcode_octets cfg.le m (octets_take env hoct src m horg)
      have hw := read_watch_cycle (tr ++ [Event.fread (List.take 512 rest)]) sock _ h3 k true
        [Event.recvfrom (.dgram src m)]
      simp only [List.foldl_cons, List.foldl_nil, read_watch_step, hblk] at hw
      rw [h]
      simp only [hmo.1, hmo.2]
      by_cases he : wire_u16 m 0 = ERROR
      · rw [if_pos he]
        rw [if_neg (by rw [he]; simp [ERROR])] at hw
        rw [read_completion_of_watch _ _ false hw]
        simp
      · rw [if_neg he]
        by_cases ha : wire_u16 m 0 = ACK
        · rw [if_neg (by simpa using ha)]
          by_cases hbn : wire_u16 m 2 = (bn + 1) % 65536
          · rw [if_neg (by simpa using hbn)]
            rw [if_pos ⟨hm4, by simpa [ACK] using ha, hbn⟩] at hw
            by_cases hclose : (List.take 512 rest).length < 512
            · rw [if_pos (by simpa using hclose)]
              rw [read_completion_of_watch _ _ true hw, hdl, decide_eq_true hclose]
              simp
            · rw [if_neg (by simpa using hclose)]
              exact ih _ _ _ _ (by simp at hclose ⊢; omega)
          · rw [if_pos (by simpa using hbn)]
            rw [if_neg (by intro hh; exact hbn hh.2.2)] at hw
            simp only
            rw [read_completion_of_watch _ _ false (by rw [read_watch_send_error]; exact hw)]
            simp
        · rw [if_pos (by simpa using ha)]
          rw [if_neg (by intro hh; exact ha (by simpa [ACK] using hh.2.1))] at hw
          simp only
          rw [read_completion_of_watch _ _ false (by rw [read_watch_send_error]; exact hw)]
          simp

/-! ## The termination condition of a WRITE -/

theorem write_watch_append (a b : List Event) :
    write_watch (a ++ b) = b.foldl write_watch_step (write_watch a) := by
  simp [write_watch, List.foldl_append]

theorem write_watch_step_keeps (w : WriteWatch) (e : Event) (he : e.is_fwrite = false) :
    (write_watch_step w e).accepted = w.accepted := by
  cases e with
  | sendto dst dg ok =>
    simp only [write_watch_step]
    split
    · split <;> simp_all
    · rfl
  | recvfrom r => cases r <;> rfl
  | fwrite d n => simp [Event.is_fwrite] at he
  | fopen f w e => rfl
  | fread d => rfl
  | request_received g f s => rfl

theorem write_watch_keeps (l : List Event) :
    ∀ w : WriteWatch, (∀ e ∈ l, e.is_fwrite = false) →
      (l.foldl write_watch_step w).accepted = w.accepted := by
  induction l with
  | nil => intro w _; rfl
  | cons e es ih =>
    intro w h
    rw [List.foldl_cons, ih _ (fun x hx => h x (List.mem_cons_of_mem _ hx)),
      write_watch_step_keeps w e (h e (List.mem_cons_self _ _))]

theorem wrq_timeouts_no_fwrite (sock : Addr) (dg : List Nat) (k : Nat) :
    ∀ e ∈ wrq_timeouts sock dg k, e.is_fwrite = false := by
  induction k with
  | zero => simp [wrq_timeouts]
  | succ k ih =>
    intro e he
    simp only [wrq_timeouts, List.mem_cons] at he
    rcases he with rfl | rfl | he
    · rfl
    · rfl
    · exact ih e he

theorem write_completion_of_pending (T : List Event) (h : (write_watch T).pending) :
    write_completion T = false := by
  unfold write_completion
  unfold WriteWatch.pending at h
  cases hacc : (write_watch T).accepted with
  | none => rfl
  | some m =>
    rw [hacc] at h
    simp only [Bool.and_eq_false_imp, decide_eq_true_eq]
    intro hh
    exact absurd hh h

theorem pending_of_accepted_eq (w1 w2 : WriteWatch) (h : w1.accepted = w2.accepted)
    (hp : w2.pending) : w1.pending := by
  unfold WriteWatch.pending at hp ⊢
  rw [h]
  exact hp

/-- Events that are not calls of `fwrite` keep the observer pending. -/
theorem pending_append (T l : List Event) (hp : (write_watch T).pending)
    (hl : ∀ e ∈ l, e.is_fwrite = false) : (write_watch (T ++ l)).pending := by
  rw [write_watch_append]
  exact pending_of_accepted_eq _ _ (write_watch_keeps l _ hl) hp

theorem pending_send_error (cfg : Config) (env : Env) (T : List Event) (s : List Nat)
    (sock : Addr) (hp : (write_watch T).pending) :
    (write_watch (tftp_send_error cfg env T 0 s sock).1).pending := by
  unfold tftp_send_error
  split
  · exact hp
  · exact pending_append T _ hp (by simp [Event.is_fwrite])

theorem wire_u16_ack_dgram (le : Bool) (b : Nat) (hb : b < 65536) :
    (ack_dgram le b).length = 4 ∧ wire_u16 (ack_dgram le b) 0 = 4
      ∧ wire_u16 (ack_dgram le b) 2 = b := by
  rw [ack_dgram_wire le b hb]
  simp [wire_u16]
  omega

theorem write_completion_of_watch (T : List Event) (r : Option (List Nat)) (m : List Nat)
    (a : Bool) (h : write_watch T = ⟨r, some m, a⟩) :
    write_completion T = (decide (m.length - 4 < 512) && a) := by
  simp [write_completion, h]

/-- The write loop reaches "transfer completed" exactly when the termination
condition holds of its trace, from any state in which no short DATA has been
accepted. -/
theorem wrq_loop_completion (cfg : Config) (env : Env) (hoct : env.octets) (fuel : Nat) :
    ∀ (bn : Nat) (sink : List Nat) (tr : List Event) (sock : Addr),
      (write_watch tr).pending →
      ((wrq_loop cfg env fuel bn sink tr sock).outcome = .completed
        ↔ write_completion (wrq_loop cfg env fuel bn sink tr sock).trace = true) := by
  induction fuel with
  | zero =>
    intro bn sink tr sock hp
    simp [wrq_loop, write_completion_of_pending tr hp]
  | succ fuel ih =>
    intro bn sink tr sock hp
    have hb : (bn + 1) % 65536 < 65536 := Nat.mod_lt _ (by norm_num)
    obtain ⟨k, hk, hshape⟩ := wrq_cycle_shape cfg env bn RECV_RETRIES tr sock
    have hpk : (write_watch (tr ++ wrq_timeouts sock (ack_dgram cfg.le bn) k)).pending :=
      pending_append tr _ hp (wrq_timeouts_no_fwrite _ _ _)
    rw [wrq_loop]
    rcases hshape with ⟨_, h⟩ | ⟨_, h⟩ | ⟨_, h⟩ | ⟨_, src, m, ok, hm, h⟩
      | ⟨_, src, m, hm4, _, horg, h⟩
    · rw [h]
      simp only
      rw [write_completion_of_pending _ hpk]
      simp
    · rw [h]
      simp only
      rw [write_completion_of_pending _ (pending_append _ _ hpk (by simp [Event.is_fwrite]))]
      simp
    · rw [h]
      simp only
      rw [write_completion_of_pending _ (pending_append _ _ hpk (by simp [Event.is_fwrite]))]
      simp
    · rw [h]
      simp only
      rw [write_completion_of_pending _ (pending_append _ _ hpk (by simp [Event.is_fwrite]))]
      simp
    · have hmo := msg_opcode_octets cfg.le m (octets_take env hoct src m horg)
      have hpT : (write_watch (tr ++ wrq_timeouts sock (ack_dgram cfg.le bn) k
          ++ [Event.recvfrom (.dgram src m)])).pending :=
        pending_append _ _ hpk (by simp [Event.is_fwrite])
      have hrecv : (write_watch (tr ++ wrq_timeouts sock (ack_dgram cfg.le bn) k
          ++ [Event.recvfrom (.dgram src m)])).received = some m := by
        rw [write_watch_append]; rfl
      rw [h]
      simp only [hmo.1, hmo.2]
      by_cases he : wire_u16 m 0 = ERROR
      · rw [if_pos he]
        simp only
        rw [write_completion_of_pending _ hpT]
        simp
      · rw [if_neg he]
        by_cases hd : wire_u16 m 0 = DATA
        · rw [if_neg (by simpa using hd)]
          by_cases hbn : wire_u16 m 2 = (bn + 1) % 65536
          · rw [if_neg (by simpa using hbn)]
            have hc : ¬ ((min (env.fwrite (tr ++ wrq_timeouts sock (ack_dgram cfg.le bn) k
                ++ [Event.recvfrom (.dgram src m)]) (msg_payload m))
                (msg_payload m).length : Nat) : Int) < 0 := by omega
            rw [if_neg hc]
            simp only [tftp_send_ack_neg, tftp_send_ack_fst]
            obtain ⟨ha1, ha2, ha3⟩ := wire_u16_ack_dgram cfg.le ((bn + 1) % 65536) hb
            have hw2 : ∀ ok, write_watch (tr ++ wrq_timeouts sock (ack_dgram cfg.le bn) k
                ++ [Event.recvfrom (.dgram src m)]
                ++ [Event.fwrite (msg_payload m)
                  (min (env.fwrite (tr ++ wrq_timeouts sock (ack_dgram cfg.le bn) k
                    ++ [Event.recvfrom (.dgram src m)]) (msg_payload m)) (msg_payload m).length)]
                ++ [Event.sendto src (ack_dgram cfg.le ((bn + 1) % 65536)) ok])
                = ⟨some m, some m, ok⟩ := by
              intro ok
              rw [write_watch_append, write_watch_append]
              simp only [List.foldl_cons, List.foldl_nil, write_watch_step, hrecv, ha1, ha2, ha3,
                hbn, true_and, and_true]
              cases ok <;> simp
            cases hs : env.sendto (tr ++ wrq_timeouts sock (ack_dgram cfg.le bn) k
                ++ [Event.recvfrom (.dgram src m)]
                ++ [Event.fwrite (msg_payload m)
                  (min (env.fwrite (tr ++ wrq_timeouts sock (ack_dgram cfg.le bn) k
                    ++ [Event.recvfrom (.dgram src m)]) (msg_payload m)) (msg_payload m).length)])
                src (ack_dgram cfg.le ((bn + 1) % 65536))
            · simp only [if_true]
              rw [write_completion_of_watch _ _ _ _ (hw2 false)]
              simp
            · simp only [Bool.true_eq_false, if_false]
              by_cases hclose : m.length < MSG_SIZE
              · rw [if_pos (by simpa using hclose)]
                have : m.length - 4 < 512 := by simp [MSG_SIZE] at hclose; omega
                rw [write_completion_of_watch _ _ _ _ (hw2 true), decide_eq_true this]
                simp
              · rw [if_neg (by simpa using hclose)]
                apply ih
                rw [hw2 true]
                simp only [WriteWatch.pending]
                simp [MSG_SIZE] at hclose
                omega
          · rw [if_pos (by simpa using hbn)]
            simp only
            rw [write_completion_of_pending _ (pending_send_error _ _ _ _ _ hpT)]
            simp
        · rw [if_pos (by simpa using hd)]
          simp only
          rw [write_completion_of_pending _ (pending_send_error _ _ _ _ _ hpT)]
          simp

theorem script_env_octets (script : List RecvResult)
    (h : ∀ src bytes, RecvResult.dgram src bytes ∈ script → ∀ x ∈ bytes, x < 256) :
    (script_env script).octets := by
  intro tr src bytes hr
  apply h src bytes
  simp only [script_env, List.getD_eq_getElem?_getD] at hr
  cases hg : script[recv_count tr]? with
  | none => rw [hg] at hr; simp at hr
  | some r =>
    rw [hg] at hr
    simp only [Option.getD_some] at hr
    rw [← hr]
    exact List.getElem?_mem hg

/-- Claim C4: in an environment that delivers octets, whatever datagrams,
timeouts and send results it produces, a READ session reaches "transfer
completed" if and only if the last DATA it sent had a payload of fewer than
512 octets and an ACK carrying the number of that block was received for it,
and a WRITE session (started before anything was written, run for any number
of iterations) reaches "transfer completed" if and only if the last DATA it
accepted had a payload of fewer than 512 octets and the ACK of that block was
sent successfully.  In particular a completed session has a last block of
fewer than 512 octets of payload: none completes right after a full block. -/
theorem termination_condition (cfg : Config) (env : Env) (stream : Stream) (fuel : Nat)
    (tr0 : List Event) (client : Addr)
    (hoct : env.octets) (h0 : ∀ e ∈ tr0, e.is_fwrite = false) :
    ((rrq_session cfg env stream tr0 client).outcome = .completed
        ↔ read_completion (rrq_session cfg env stream tr0 client).trace = true)
      ∧ ((wrq_session cfg env fuel tr0 client).outcome = .completed
        ↔ write_completion (wrq_session cfg env fuel tr0 client).trace = true)
      ∧ ((rrq_session cfg env stream tr0 client).outcome = .completed →
          ∃ dg, (read_watch (rrq_session cfg env stream tr0 client).trace).last_data = some dg
            ∧ dg.length - 4 < 512)
      ∧ ((wrq_session cfg env fuel tr0 client).outcome = .completed →
          ∃ m, (write_watch (wrq_session cfg env fuel tr0 client).trace).accepted = some m
            ∧ m.length - 4 < 512) := by
  have hr : (rrq_session cfg env stream tr0 client).outcome = .completed
      ↔ read_completion (rrq_session cfg env stream tr0 client).trace = true :=
    rrq_loop_completion cfg env hoct _ _ _ _ _ (by omega)
  have hp0 : (write_watch tr0).pending := by
    have : (write_watch tr0).accepted = none := write_watch_keeps tr0 ⟨none, none, false⟩ h0
    simp [WriteWatch.pending, this]
  have hw : (wrq_session cfg env fuel tr0 client).outcome = .completed
      ↔ write_completion (wrq_session cfg env fuel tr0 client).trace = true := by
    unfold wrq_session
    simp only [tftp_send_ack_neg, tftp_send_ack_fst]
    have hp1 : ∀ ok, (write_watch (tr0 ++ [Event.sendto client (ack_dgram cfg.le 0) ok])).pending :=
      fun ok => pending_append tr0 _ hp0 (by simp [Event.is_fwrite])
    cases hs : env.sendto tr0 client (ack_dgram cfg.le 0)
    · simp only [if_true]
      rw [write_completion_of_pending _ (hp1 false)]
      simp
    · simp only [Bool.true_eq_false, if_false]
      exact wrq_loop_completion cfg env hoct fuel 0 [] _ client (hp1 true)
  refine ⟨hr, hw, ?_, ?_⟩
  · intro h
    have hc := hr.mp h
    unfold read_completion at hc
    cases hl : (read_watch (rrq_session cfg env stream tr0 client).trace).last_data with
    | none => rw [hl] at hc; simp at hc
    | some dg =>
      rw [hl] at hc
      simp only [Bool.and_eq_true, decide_eq_true_eq] at hc
      exact ⟨dg, rfl, hc.1⟩
  · intro h
    have hc := hw.mp h
    unfold write_completion at hc
    cases hl : (write_watch (wrq_session cfg env fuel tr0 client).trace).accepted with
    | none => rw [hl] at hc; simp at hc
    | some m =>
      rw [hl] at hc
      simp only [Bool.and_eq_true, decide_eq_true_eq] at hc
      exact ⟨m, rfl, hc.1⟩

/-- Witness of C4: a READ of a 6-octet file whose DATA(1) is answered with
ACK(1) completes and satisfies the termination condition; a WRITE that
receives the same ACK(1) instead of a DATA does neither. -/
theorem termination_condition_witness :
    ((rrq_session ⟨true, []⟩ (script_env [.dgram demo_client [0, 4, 0, 1]])
          ⟨[72, 101, 108, 108, 111, 10], none⟩ [] demo_client).outcome = .completed
      ∧ read_completion (rrq_session ⟨true, []⟩ (script_env [.dgram demo_client [0, 4, 0, 1]])
          ⟨[72, 101, 108, 108, 111, 10], none⟩ [] demo_client).trace = true)
    ∧ ((wrq_session ⟨true, []⟩ (script_env [.dgram demo_client [0, 4, 0, 1]]) 3 []
          demo_client).outcome ≠ .completed
      ∧ write_completion (wrq_session ⟨true, []⟩ (script_env [.dgram demo_client [0, 4, 0, 1]])
          3 [] demo_client).trace ≠ true) :=
  have h := termination_condition ⟨true, []⟩ (script_env [.dgram demo_client [0, 4, 0, 1]])
    ⟨[72, 101, 108, 108, 111, 10], none⟩ 3 [] demo_client
    (script_env_octets _ (by
      intro src bytes hm x hx
      simp only [List.mem_singleton, RecvResult.dgram.injEq] at hm
      rw [hm.2] at hx
      revert x
      decide))
    (by simp)
  ⟨⟨by decide, h.1.mp (by decide)⟩, ⟨by decide, fun hc => absurd (h.2.1.mpr hc) (by decide)⟩⟩

/-! ## Source addresses are not examined -/

set_option maxRecDepth 100000 in
/-- Claim C5 (counterexample): a READ session for a file of 600 octets pinned
to the client receives ACK(1) from another address; it takes the datagram as
the awaited acknowledgement, reads on, sends DATA(2) to that other address and
completes on its ACK(2), with `client_sock` now holding the other address. -/
theorem tid_pinning_counterexample :
    demo_intruder ≠ demo_client
    ∧ rrq_session ⟨true, []⟩
        (script_env [.dgram demo_intruder [0, 4, 0, 1], .dgram demo_intruder [0, 4, 0, 2]])
        ⟨List.replicate 600 7, none⟩ [] demo_client
      = ⟨[Event.fread (List.replicate 512 7),
          Event.sendto demo_client ([0, 3, 0, 1] ++ List.replicate 512 7) true,
          Event.recvfrom (.dgram demo_intruder [0, 4, 0, 1]),
          Event.fread (List.replicate 88 7),
          Event.sendto demo_intruder ([0, 3, 0, 2] ++ List.replicate 88 7) true,
          Event.recvfrom (.dgram demo_intruder [0, 4, 0, 2])],
        demo_intruder, [], .completed⟩ := by
  decide

theorem blank_trace_append (a b : List Event) :
    blank_trace (a ++ b) = blank_trace a ++ blank_trace b := by
  simp [blank_trace]

theorem blank_snoc (tr1 tr2 l1 l2 : List Event) (hb : blank_trace tr1 = blank_trace tr2)
    (hl : blank_trace l1 = blank_trace l2) :
    blank_trace (tr1 ++ l1) = blank_trace (tr2 ++ l2) := by
  rw [blank_trace_append, blank_trace_append, hb, hl]

theorem tftp_recv_message_blank (env : Env) (tr : List Event) :
    (tftp_recv_message env tr).2.blank
      = match (env.recvfrom tr).blank with
        | .dgram a bytes => .dgram a (bytes.take MSG_SIZE)
        | r => r := by
  rw [tftp_recv_message_snd]
  cases env.recvfrom tr <;> rfl

theorem recv_blank_eq (e1 e2 : Env) (hsim : e1.same_up_to_addresses e2) (tr1 tr2 : List Event)
    (hb : blank_trace tr1 = blank_trace tr2) :
    (tftp_recv_message e1 tr1).2.blank = (tftp_recv_message e2 tr2).2.blank := by
  rw [tftp_recv_message_blank, tftp_recv_message_blank, (hsim tr1 tr2 hb).1]

theorem blank_eq_dgram (r : RecvResult) (src : Addr) (m : List Nat)
    (h : (RecvResult.dgram src m).blank = r.blank) : ∃ src2, r = .dgram src2 m := by
  cases r with
  | dgram s2 m2 =>
    simp only [RecvResult.blank, RecvResult.dgram.injEq, true_and] at h
    exact ⟨s2, by rw [h]⟩
  | eagain => simp [RecvResult.blank] at h
  | failed => simp [RecvResult.blank] at h

theorem blank_eq_eagain (r : RecvResult) (h : RecvResult.eagain.blank = r.blank) :
    r = .eagain := by
  cases r <;> simp [RecvResult.blank] at h ⊢

theorem blank_eq_failed (r : RecvResult) (h : RecvResult.failed.blank = r.blank) :
    r = .failed := by
  cases r <;> simp [RecvResult.blank] at h ⊢

theorem tftp_send_error_sim (cfg : Config) (e1 e2 : Env) (hsim : e1.same_up_to_addresses e2)
    (tr1 tr2 : List Event) (hb : blank_trace tr1 = blank_trace tr2) (c : Nat) (s : List Nat)
    (d1 d2 : Addr) :
    blank_trace (tftp_send_error cfg e1 tr1 c s d1).1
      = blank_trace (tftp_send_error cfg e2 tr2 c s d2).1 := by
  unfold tftp_send_error
  cases tftp_send_error_dgram cfg.le c s with
  | none => exact hb
  | some m =>
    simp only [(hsim tr1 tr2 hb).2.1 d1 d2 m]
    exact blank_snoc _ _ _ _ hb rfl

/-- The RRQ retry loop in two environments that differ at most in addresses. -/
theorem rrq_cycle_sim (cfg : Config) (e1 e2 : Env) (hsim : e1.same_up_to_addresses e2)
    (b : Nat) (d : List Nat) (n : Nat) :
    ∀ (tr1 tr2 : List Event) (s1 s2 : Addr), blank_trace tr1 = blank_trace tr2 →
      blank_trace (rrq_cycle cfg e1 b d n tr1 s1).trace
          = blank_trace (rrq_cycle cfg e2 b d n tr2 s2).trace
        ∧ (rrq_cycle cfg e1 b d n tr1 s1).res = (rrq_cycle cfg e2 b d n tr2 s2).res := by
  induction n with
  | zero => intro tr1 tr2 s1 s2 hb; exact ⟨hb, by trivial⟩
  | succ n ih =>
    intro tr1 tr2 s1 s2 hb
    rw [rrq_cycle_succ, rrq_cycle_succ]
    have hs := (hsim tr1 tr2 hb).2.1 s1 s2 (data_dgram cfg.le b d)
    cases hs1 : e1.sendto tr1 s1 (data_dgram cfg.le b d)
    · rw [hs1] at hs
      rw [← hs]
      simp only [if_true]
      exact ⟨blank_snoc _ _ _ _ hb rfl, by trivial⟩
    · rw [hs1] at hs
      rw [← hs]
      simp only [Bool.true_eq_false, if_false]
      have hbT : blank_trace (tr1 ++ [Event.sendto s1 (data_dgram cfg.le b d) true])
          = blank_trace (tr2 ++ [Event.sendto s2 (data_dgram cfg.le b d) true]) := by
        simp only [blank_trace_append, hb]; rfl
      have hrb := recv_blank_eq e1 e2 hsim _ _ hbT
      cases hr1 : (tftp_recv_message e1
          (tr1 ++ [Event.sendto s1 (data_dgram cfg.le b d) true])).2 with
      | dgram src1 m =>
        rw [hr1] at hrb
        obtain ⟨src2, hr2⟩ := blank_eq_dgram _ _ _ hrb
        rw [hr2]
        simp only
        have hbR : blank_trace (tr1 ++ [Event.sendto s1 (data_dgram cfg.le b d) true,
              Event.recvfrom (.dgram src1 m)])
            = blank_trace (tr2 ++ [Event.sendto s2 (data_dgram cfg.le b d) true,
              Event.recvfrom (.dgram src2 m)]) := by
          simp only [blank_trace_append, hb]; rfl
        by_cases hm : m.length < 4
        · rw [if_pos hm, if_pos hm]
          exact ⟨tftp_send_error_sim cfg e1 e2 hsim _ _ hbR _ _ _ _, by trivial⟩
        · rw [if_neg hm, if_neg hm]
          exact ⟨hbR, by trivial⟩
      | eagain =>
        rw [hr1] at hrb
        rw [blank_eq_eagain _ hrb]
        simp only
        exact ih _ _ _ _ (blank_snoc _ _ _ _ hb rfl)
      | failed =>
        rw [hr1] at hrb
        rw [blank_eq_failed _ hrb]
        simp only
        exact ⟨blank_snoc _ _ _ _ hb rfl, by trivial⟩

/-- The RRQ loop in two environments that differ at most in addresses. -/
theorem rrq_loop_sim (cfg : Config) (e1 e2 : Env) (hsim : e1.same_up_to_addresses e2)
    (fuel : Nat) :
    ∀ (rest : List Nat) (bn : Nat) (tr1 tr2 : List Event) (s1 s2 : Addr),
      blank_trace tr1 = blank_trace tr2 →
      blank_trace (rrq_loop cfg e1 fuel rest bn tr1 s1).trace
          = blank_trace (rrq_loop cfg e2 fuel rest bn tr2 s2).trace
        ∧ (rrq_loop cfg e1 fuel rest bn tr1 s1).outcome
          = (rrq_loop cfg e2 fuel rest bn tr2 s2).outcome := by
  induction fuel with
  | zero => intro rest bn tr1 tr2 s1 s2 hb; exact ⟨hb, rfl⟩
  | succ fuel ih =>
    intro rest bn tr1 tr2 s1 s2 hb
    have hc := rrq_cycle_sim cfg e1 e2 hsim ((bn + 1) % 65536) (List.take 512 rest) RECV_RETRIES
      (tr1 ++ [Event.fread (List.take 512 rest)]) (tr2 ++ [Event.fread (List.take 512 rest)])
      s1 s2 (blank_snoc _ _ _ _ hb rfl)
    rw [rrq_loop, rrq_loop]
    generalize rrq_cycle cfg e1 ((bn + 1) % 65536) (List.take 512 rest) RECV_RETRIES
      (tr1 ++ [Event.fread (List.take 512 rest)]) s1 = c1 at hc ⊢
    generalize rrq_cycle cfg e2 ((bn + 1) % 65536) (List.take 512 rest) RECV_RETRIES
      (tr2 ++ [Event.fread (List.take 512 rest)]) s2 = c2 at hc ⊢
    obtain ⟨htr, hres⟩ := hc
    cases h1 : c1.res with
    | exit o => rw [h1] at hres; rw [← hres]; exact ⟨htr, rfl⟩
    | exhausted => rw [h1] at hres; rw [← hres]; exact ⟨htr, rfl⟩
    | got m =>
      rw [h1] at hres
      rw [← hres]
      simp only
      split_ifs
      · exact ⟨htr, rfl⟩
      · exact ⟨tftp_send_error_sim cfg e1 e2 hsim _ _ htr _ _ _ _, rfl⟩
      · exact ⟨tftp_send_error_sim cfg e1 e2 hsim _ _ htr _ _ _ _, rfl⟩
      · exact ⟨htr, rfl⟩
      · exact ih _ _ _ _ _ _ htr

/-- The WRQ retry loop in two environments that differ at most in addresses. -/
theorem wrq_cycle_sim (cfg : Config) (e1 e2 : Env) (hsim : e1.same_up_to_addresses e2)
    (b : Nat) (n : Nat) :
    ∀ (tr1 tr2 : List Event) (s1 s2 : Addr), blank_trace tr1 = blank_trace tr2 →
      blank_trace (wrq_cycle cfg e1 b n tr1 s1).trace
          = blank_trace (wrq_cycle cfg e2 b n tr2 s2).trace
        ∧ (wrq_cycle cfg e1 b n tr1 s1).res = (wrq_cycle cfg e2 b n tr2 s2).res := by
  induction n with
  | zero => intro tr1 tr2 s1 s2 hb; exact ⟨hb, rfl⟩
  | succ n ih =>
    intro tr1 tr2 s1 s2 hb
    rw [wrq_cycle_succ, wrq_cycle_succ]
    have hrb := recv_blank_eq e1 e2 hsim _ _ hb
    cases hr1 : (tftp_recv_message e1 tr1).2 with
    | dgram src1 m =>
      rw [hr1] at hrb
      obtain ⟨src2, hr2⟩ := blank_eq_dgram _ _ _ hrb
      rw [hr2]
      have hbR : blank_trace (tr1 ++ [Event.recvfrom (.dgram src1 m)])
          = blank_trace (tr2 ++ [Event.recvfrom (.dgram src2 m)]) := blank_snoc _ _ _ _ hb rfl
      by_cases hm : m.length < 4
      · simp only [if_pos hm]
        exact ⟨tftp_send_error_sim cfg e1 e2 hsim _ _ hbR _ _ _ _, by trivial⟩
      · simp only [if_neg hm]
        exact ⟨hbR, by trivial⟩
    | failed =>
      rw [hr1] at hrb
      rw [blank_eq_failed _ hrb]
      exact ⟨blank_snoc _ _ _ _ hb rfl, by trivial⟩
    | eagain =>
      rw [hr1] at hrb
      rw [blank_eq_eagain _ hrb]
      have hbE : blank_trace (tr1 ++ [Event.recvfrom .eagain])
          = blank_trace (tr2 ++ [Event.recvfrom .eagain]) := blank_snoc _ _ _ _ hb rfl
      have hs := (hsim _ _ hbE).2.1 s1 s2 (ack_dgram cfg.le b)
      cases hs1 : e1.sendto (tr1 ++ [Event.recvfrom .eagain]) s1 (ack_dgram cfg.le b)
      · rw [hs1] at hs
        simp only [← hs, if_true]
        exact ⟨blank_snoc _ _ _ _ hb rfl, by trivial⟩
      · rw [hs1] at hs
        simp only [← hs, Bool.true_eq_false, if_false]
        exact ih _ _ _ _ (blank_snoc _ _ _ _ hb rfl)

/-- The WRQ loop in two environments that differ at most in addresses. -/
theorem wrq_loop_sim (cfg : Config) (e1 e2 : Env) (hsim : e1.same_up_to_addresses e2)
    (fuel : Nat) :
    ∀ (bn : Nat) (sink : List Nat) (tr1 tr2 : List Event) (s1 s2 : Addr),
      blank_trace tr1 = blank_trace tr2 →
      blank_trace (wrq_loop cfg e1 fuel bn sink tr1 s1).trace
          = blank_trace (wrq_loop cfg e2 fuel bn sink tr2 s2).trace
        ∧ (wrq_loop cfg e1 fuel bn sink tr1 s1).outcome
          = (wrq_loop cfg e2 fuel bn sink tr2 s2).outcome
        ∧ (wrq_loop cfg e1 fuel bn sink tr1 s1).sink
          = (wrq_loop cfg e2 fuel bn sink tr2 s2).sink := by
  induction fuel with
  | zero => intro bn sink tr1 tr2 s1 s2 hb; exact ⟨hb, rfl, rfl⟩
  | succ fuel ih =>
    intro bn sink tr1 tr2 s1 s2 hb
    have hc := wrq_cycle_sim cfg e1 e2 hsim bn RECV_RETRIES tr1 tr2 s1 s2 hb
    rw [wrq_loop, wrq_loop]
    generalize wrq_cycle cfg e1 bn RECV_RETRIES tr1 s1 = c1 at hc ⊢
    generalize wrq_cycle cfg e2 bn RECV_RETRIES tr2 s2 = c2 at hc ⊢
    obtain ⟨htr, hres⟩ := hc
    cases h1 : c1.res with
    | exit o => rw [h1] at hres; rw [← hres]; exact ⟨htr, rfl, rfl⟩
    | exhausted => rw [h1] at hres; rw [← hres]; exact ⟨htr, rfl, rfl⟩
    | got m =>
      rw [h1] at hres
      rw [← hres]
      simp only
      have hfw := (hsim _ _ htr).2.2 (msg_payload m)
      have hbW : blank_trace (c1.trace ++ [Event.fwrite (msg_payload m)
            (min (e1.fwrite c1.trace (msg_payload m)) (msg_payload m).length)])
          = blank_trace (c2.trace ++ [Event.fwrite (msg_payload m)
            (min (e2.fwrite c2.trace (msg_payload m)) (msg_payload m).length)]) := by
        rw [hfw]; exact blank_snoc _ _ _ _ htr rfl
      have hsa := (hsim _ _ hbW).2.1 c1.sock c2.sock (ack_dgram cfg.le ((bn + 1) % 65536))
      by_cases he : msg_opcode cfg.le m = ERROR
      · simp only [if_pos he]
        exact ⟨htr, trivial, trivial⟩
      · simp only [if_neg he]
        by_cases hd : msg_opcode cfg.le m ≠ DATA
        · simp only [if_pos hd]
          exact ⟨tftp_send_error_sim cfg e1 e2 hsim _ _ htr _ _ _ _, trivial, trivial⟩
        · simp only [if_neg hd]
          by_cases hbn : msg_block_number cfg.le m ≠ (bn + 1) % 65536
          · simp only [if_pos hbn]
            exact ⟨tftp_send_error_sim cfg e1 e2 hsim _ _ htr _ _ _ _, trivial, trivial⟩
          · simp only [if_neg hbn]
            have hc1 : ∀ x : Nat, ¬ ((x : Nat) : Int) < 0 := fun x => by omega
            simp only [hc1, if_false, tftp_send_ack_neg, tftp_send_ack_fst]
            rw [← hfw] at hsa ⊢
            cases hs1 : e1.sendto (c1.trace ++ [Event.fwrite (msg_payload m)
              (min (e1.fwrite c1.trace (msg_payload m)) (msg_payload m).length)]) c1.sock
              (ack_dgram cfg.le ((bn + 1) % 65536))
            · rw [hs1] at hsa
              simp only [← hsa, if_true]
              rw [← hfw] at hbW
              exact ⟨blank_snoc _ _ _ _ hbW rfl, trivial, trivial⟩
            · rw [hs1] at hsa
              simp only [← hsa, Bool.true_eq_false, if_false]
              rw [← hfw] at hbW
              by_cases hcl : decide (m.length < MSG_SIZE) = true
              · simp only [if_pos hcl]
                exact ⟨blank_snoc _ _ _ _ hbW rfl, trivial, trivial⟩
              · simp only [if_neg hcl]
                exact ih _ _ _ _ _ _ (blank_snoc _ _ _ _ hbW rfl)

/-! ## Every datagram goes to the source of the last datagram received -/

theorem final_peer_append (a b : List Event) :
    ∀ cur, final_peer cur (a ++ b) = final_peer (final_peer cur a) b := by
  induction a with
  | nil => intro cur; rfl
  | cons e es ih =>
    intro cur
    cases e with
    | recvfrom r => cases r <;> simp [final_peer, ih]
    | sendto d g o => simp [final_peer, ih]
    | fopen f w e => simp [final_peer, ih]
    | fread d => simp [final_peer, ih]
    | fwrite d n => simp [final_peer, ih]
    | request_received g f s => simp [final_peer, ih]

theorem sends_follow_peer_append (a b : List Event) :
    ∀ cur, sends_follow_peer cur (a ++ b)
      = (sends_follow_peer cur a && sends_follow_peer (final_peer cur a) b) := by
  induction a with
  | nil => intro cur; simp [sends_follow_peer, final_peer]
  | cons e es ih =>
    intro cur
    cases e with
    | recvfrom r => cases r <;> simp [sends_follow_peer, final_peer, ih]
    | sendto d g o => simp [sends_follow_peer, final_peer, ih, Bool.and_assoc]
    | fopen f w e => simp [sends_follow_peer, final_peer, ih]
    | fread d => simp [sends_follow_peer, final_peer, ih]
    | fwrite d n => simp [sends_follow_peer, final_peer, ih]
    | request_received g f s => simp [sends_follow_peer, final_peer, ih]

theorem tracks_refl (s : Addr) (tr : List Event) : tracks s tr tr s :=
  ⟨[], by simp, rfl, rfl⟩

theorem tracks_trans (s1 s2 s3 : Addr) (a b c : List Event)
    (h1 : tracks s1 a b s2) (h2 : tracks s2 b c s3) : tracks s1 a c s3 := by
  obtain ⟨e1, rfl, hf1, hp1⟩ := h1
  obtain ⟨e2, rfl, hf2, hp2⟩ := h2
  refine ⟨e1 ++ e2, by simp, ?_, ?_⟩
  · rw [sends_follow_peer_append, hf1, hp1, hf2]; rfl
  · rw [final_peer_append, hp1, hp2]

theorem tracks_events (s : Addr) (tr l : List Event) (h : sends_follow_peer s l = true) :
    tracks s tr (tr ++ l) (final_peer s l) := ⟨l, rfl, h, rfl⟩

theorem tracks_send_error (cfg : Config) (env : Env) (tr : List Event) (c : Nat)
    (s : List Nat) (sock : Addr) : tracks sock tr (tftp_send_error cfg env tr c s sock).1 sock := by
  unfold tftp_send_error
  split
  · exact tracks_refl _ _
  · exact tracks_events sock tr _ (by simp [sends_follow_peer])

/-- In the RRQ retry loop every datagram is sent to the current peer. -/
theorem rrq_cycle_tracks (cfg : Config) (env : Env) (b : Nat) (d : List Nat) (n : Nat) :
    ∀ (tr : List Event) (sock : Addr),
      tracks sock tr (rrq_cycle cfg env b d n tr sock).trace
        (rrq_cycle cfg env b d n tr sock).sock := by
  induction n with
  | zero => intro tr sock; exact tracks_refl _ _
  | succ n ih =>
    intro tr sock
    rw [rrq_cycle_succ]
    split_ifs
    · exact tracks_events sock tr _ (by simp [sends_follow_peer])
    · split
      · rename_i src m _
        split_ifs
        · exact tracks_trans _ _ _ _ _ _
            (tracks_events sock tr [Event.sendto sock (data_dgram cfg.le b d) true,
              Event.recvfrom (.dgram src m)] (by simp [sends_follow_peer]))
            (tracks_send_error _ _ _ _ _ _)
        · exact tracks_events sock tr [Event.sendto sock (data_dgram cfg.le b d) true,
              Event.recvfrom (.dgram src m)] (by simp [sends_follow_peer])
      · exact tracks_trans _ _ _ _ _ _
          (tracks_events sock tr [Event.sendto sock (data_dgram cfg.le b d) true,
            Event.recvfrom .eagain] (by simp [sends_follow_peer])) (ih _ _)
      · exact tracks_events sock tr [Event.sendto sock (data_dgram cfg.le b d) true,
            Event.recvfrom .failed] (by simp [sends_follow_peer])

/-- In the WRQ retry loop every datagram is sent to the current peer. -/
theorem wrq_cycle_tracks (cfg : Config) (env : Env) (b : Nat) (n : Nat) :
    ∀ (tr : List Event) (sock : Addr),
      tracks sock tr (wrq_cycle cfg env b n tr sock).trace
        (wrq_cycle cfg env b n tr sock).sock := by
  induction n with
  | zero => intro tr sock; exact tracks_refl _ _
  | succ n ih =>
    intro tr sock
    rw [wrq_cycle_succ]
    split
    · rename_i src m _
      split_ifs
      · exact tracks_trans _ _ _ _ _ _
          (tracks_events sock tr [Event.recvfrom (.dgram src m)] (by simp [sends_follow_peer]))
          (tracks_send_error _ _ _ _ _ _)
      · exact tracks_events sock tr [Event.recvfrom (.dgram src m)]
          (by simp [sends_follow_peer])
    · exact tracks_events sock tr [Event.recvfrom .failed] (by simp [sends_follow_peer])
    · split_ifs
      · exact tracks_events sock tr [Event.recvfrom .eagain,
          Event.sendto sock (ack_dgram cfg.le b) false] (by simp [sends_follow_peer])
      · exact tracks_trans _ _ _ _ _ _
          (tracks_events sock tr [Event.recvfrom .eagain,
            Event.sendto sock (ack_dgram cfg.le b) true] (by simp [sends_follow_peer])) (ih _ _)

/-- In the RRQ loop every datagram is sent to the current peer. -/
theorem rrq_loop_tracks (cfg : Config) (env : Env) (fuel : Nat) :
    ∀ (rest : List Nat) (bn : Nat) (tr : List Event) (sock : Addr),
      tracks sock tr (rrq_loop cfg env fuel rest bn tr sock).trace
        (rrq_loop cfg env fuel rest bn tr sock).sock := by
  induction fuel with
  | zero => intro rest bn tr sock; exact tracks_refl _ _
  | succ fuel ih =>
    intro rest bn tr sock
    have hc := tracks_trans _ _ _ _ _ _
      (tracks_events sock tr [Event.fread (List.take 512 rest)] (by simp [sends_follow_peer]))
      (rrq_cycle_tracks cfg env ((bn + 1) % 65536) (List.take 512 rest) RECV_RETRIES
        (tr ++ [Event.fread (List.take 512 rest)]) sock)
    rw [rrq_loop]
    generalize rrq_cycle cfg env ((bn + 1) % 65536) (List.take 512 rest) RECV_RETRIES
      (tr ++ [Event.fread (List.take 512 rest)]) sock = cy at hc ⊢
    cases hres : cy.res with
    | exit o => exact hc
    | exhausted => exact hc
    | got m =>
      simp only
      split_ifs
      · exact hc
      · exact tracks_trans _ _ _ _ _ _ hc (tracks_send_error _ _ _ _ _ _)
      · exact tracks_trans _ _ _ _ _ _ hc (tracks_send_error _ _ _ _ _ _)
      · exact hc
      · exact tracks_trans _ _ _ _ _ _ hc (ih _ _ _ _)

/-- In the WRQ loop every datagram is sent to the current peer. -/
theorem wrq_loop_tracks (cfg : Config) (env : Env) (fuel : Nat) :
    ∀ (bn : Nat) (sink : List Nat) (tr : List Event) (sock : Addr),
      tracks sock tr (wrq_loop cfg env fuel bn sink tr sock).trace
        (wrq_loop cfg env fuel bn sink tr sock).sock := by
  induction fuel with
  | zero => intro bn sink tr sock; exact tracks_refl _ _
  | succ fuel ih =>
    intro bn sink tr sock
    have hc := wrq_cycle_tracks cfg env bn RECV_RETRIES tr sock
    rw [wrq_loop]
    generalize wrq_cycle cfg env bn RECV_RETRIES tr sock = cy at hc ⊢
    cases hres : cy.res with
    | exit o => exact hc
    | exhausted => exact hc
    | got m =>
      simp only
      have hw : tracks sock tr (cy.trace ++ [Event.fwrite (msg_payload m)
          (min (env.fwrite cy.trace (msg_payload m)) (msg_payload m).length)]) cy.sock :=
        tracks_trans _ _ _ _ _ _ hc (tracks_events cy.sock cy.trace _ (by simp [sends_follow_peer]))
      have ha : tracks sock tr (tftp_send_ack cfg env (cy.trace ++ [Event.fwrite (msg_payload m)
          (min (env.fwrite cy.trace (msg_payload m)) (msg_payload m).length)])
          ((bn + 1) % 65536) cy.sock).1 cy.sock :=
        tracks_trans _ _ _ _ _ _ hw (tracks_events cy.sock _ _ (by simp [sends_follow_peer]))
      split_ifs
      · exact hc
      · exact tracks_trans _ _ _ _ _ _ hc (tracks_send_error _ _ _ _ _ _)
      · exact tracks_trans _ _ _ _ _ _ hc (tracks_send_error _ _ _ _ _ _)
      · exact hw
      · exact ha
      · exact ha
      · exact tracks_trans _ _ _ _ _ _ ha (ih _ _ _ _)

theorem recv_count_blank (tr : List Event) : recv_count (blank_trace tr) = recv_count tr := by
  induction tr with
  | nil => rfl
  | cons e es ih =>
    cases e <;> simp_all [blank_trace, recv_count, Event.blank]

theorem script_env_sim (s1 s2 : List RecvResult)
    (h : s1.map RecvResult.blank = s2.map RecvResult.blank) :
    (script_env s1).same_up_to_addresses (script_env s2) := by
  intro tr1 tr2 hb
  refine ⟨?_, fun _ _ _ => rfl, fun _ => rfl⟩
  have hc : recv_count tr1 = recv_count tr2 := by
    rw [← recv_count_blank tr1, ← recv_count_blank tr2, hb]
  have hg : (s1.map RecvResult.blank)[recv_count tr1]?
      = (s2.map RecvResult.blank)[recv_count tr1]? := by rw [h]
  rw [List.getElem?_map, List.getElem?_map] at hg
  show (s1.getD (recv_count tr1) .eagain).blank = (s2.getD (recv_count tr2) .eagain).blank
  rw [← hc, List.getD_eq_getElem?_getD, List.getD_eq_getElem?_getD]
  cases h1 : s1[recv_count tr1]? with
  | none =>
    cases h2 : s2[recv_count tr1]? with
    | none => rfl
    | some b => rw [h1, h2] at hg; simp at hg
  | some a =>
    cases h2 : s2[recv_count tr1]? with
    | none => rw [h1, h2] at hg; simp at hg
    | some b =>
      rw [h1, h2] at hg
      simpa using hg

/-- Claim C5 (amended): a session never examines the source address of a
datagram it receives.  In two environments that differ at most in addresses
(of the client and of the sources of the datagrams delivered), a READ session
and a WRITE session produce the same events up to addresses, with the same
outcome and the same file written: a datagram from an address other than the
peer is handled exactly as the same datagram from the peer.  And every
datagram a session sends goes to the source of the datagram received last
(to the client before any is received), which is the address `client_sock`
holds at the end. -/
theorem source_address_not_examined (cfg : Config) (e1 e2 : Env) (stream : Stream) (fuel : Nat)
    (tr1 tr2 : List Event) (c1 c2 : Addr)
    (hsim : e1.same_up_to_addresses e2) (hb : blank_trace tr1 = blank_trace tr2) :
    (blank_trace (rrq_session cfg e1 stream tr1 c1).trace
        = blank_trace (rrq_session cfg e2 stream tr2 c2).trace
      ∧ (rrq_session cfg e1 stream tr1 c1).outcome = (rrq_session cfg e2 stream tr2 c2).outcome)
    ∧ (blank_trace (wrq_session cfg e1 fuel tr1 c1).trace
        = blank_trace (wrq_session cfg e2 fuel tr2 c2).trace
      ∧ (wrq_session cfg e1 fuel tr1 c1).outcome = (wrq_session cfg e2 fuel tr2 c2).outcome
      ∧ (wrq_session cfg e1 fuel tr1 c1).sink = (wrq_session cfg e2 fuel tr2 c2).sink)
    ∧ (∃ evs, (rrq_session cfg e1 stream tr1 c1).trace = tr1 ++ evs
        ∧ sends_follow_peer c1 evs = true
        ∧ final_peer c1 evs = (rrq_session cfg e1 stream tr1 c1).sock)
    ∧ (∃ evs, (wrq_session cfg e1 fuel tr1 c1).trace = tr1 ++ evs
        ∧ sends_follow_peer c1 evs = true
        ∧ final_peer c1 evs = (wrq_session cfg e1 fuel tr1 c1).sock) := by
  refine ⟨rrq_loop_sim cfg e1 e2 hsim _ _ _ _ _ _ _ hb, ?_, rrq_loop_tracks cfg e1 _ _ _ _ _, ?_⟩
  · unfold wrq_session
    simp only [tftp_send_ack_neg, tftp_send_ack_fst]
    have hs := (hsim tr1 tr2 hb).2.1 c1 c2 (ack_dgram cfg.le 0)
    cases hs1 : e1.sendto tr1 c1 (ack_dgram cfg.le 0)
    · rw [hs1] at hs
      simp only [← hs, if_true]
      exact ⟨blank_snoc _ _ _ _ hb rfl, trivial, trivial⟩
    · rw [hs1] at hs
      simp only [← hs, Bool.true_eq_false, if_false]
      exact wrq_loop_sim cfg e1 e2 hsim fuel 0 [] _ _ c1 c2 (blank_snoc _ _ _ _ hb rfl)
  · unfold wrq_session
    have ha : tracks c1 tr1 (tftp_send_ack cfg e1 tr1 0 c1).1 c1 :=
      tracks_events c1 tr1 _ (by simp [sends_follow_peer])
    simp only
    split_ifs
    · exact ha
    · exact tracks_trans _ _ _ _ _ _ ha (wrq_loop_tracks cfg e1 fuel 0 [] _ c1)

/-- Witness of C5 (amended): the READ of a 600-octet file whose two
acknowledgements come from another address runs like the one whose
acknowledgements come from the client, up to addresses. -/
theorem source_address_not_examined_witness :
    blank_trace (rrq_session ⟨true, []⟩
        (script_env [.dgram demo_intruder [0, 4, 0, 1], .dgram demo_intruder [0, 4, 0, 2]])
        ⟨List.replicate 600 7, none⟩ [] demo_client).trace
      = blank_trace (rrq_session ⟨true, []⟩
        (script_env [.dgram demo_client [0, 4, 0, 1], .dgram demo_client [0, 4, 0, 2]])
        ⟨List.replicate 600 7, none⟩ [] demo_client).trace
    ∧ (rrq_session ⟨true, []⟩
        (script_env [.dgram demo_intruder [0, 4, 0, 1], .dgram demo_intruder [0, 4, 0, 2]])
        ⟨List.replicate 600 7, none⟩ [] demo_client).outcome
      = (rrq_session ⟨true, []⟩
        (script_env [.dgram demo_client [0, 4, 0, 1], .dgram demo_client [0, 4, 0, 2]])
        ⟨List.replicate 600 7, none⟩ [] demo_client).outcome :=
  (source_address_not_examined ⟨true, []⟩
    (script_env [.dgram demo_intruder [0, 4, 0, 1], .dgram demo_intruder [0, 4, 0, 2]])
    (script_env [.dgram demo_client [0, 4, 0, 1], .dgram demo_client [0, 4, 0, 2]])
    ⟨List.replicate 600 7, none⟩ 0 [] [] demo_client demo_client
    (script_env_sim _ _ (by decide)) rfl).1

/-! ## What does hold of the codec -/

/-- DATA and ACK round-trip on either host byte order: the accessors of the
sessions recover opcode, block number and payload from the datagrams of
`tftp_send_data` and `tftp_send_ack`. -/
theorem data_ack_round_trip (le : Bool) (b : Nat) (d : List Nat) (hb : b < 65536) :
    msg_opcode le (data_dgram le b d) = DATA
      ∧ msg_block_number le (data_dgram le b d) = b
      ∧ msg_payload (data_dgram le b d) = d
      ∧ msg_opcode le (ack_dgram le b) = ACK
      ∧ msg_block_number le (ack_dgram le b) = b := by
  rw [data_dgram_wire le b d hb, ack_dgram_wire le b hb]
  refine ⟨?_, ?_, ?_, ?_, ?_⟩
  · show msg_opcode le (0 :: 3 :: _) = DATA
    rw [msg_opcode_wire _ _ _ _ (by norm_num) (by norm_num)]; rfl
  · show msg_block_number le (0 :: 3 :: (b / 256) :: (b % 256) :: _) = b
    rw [msg_block_number_wire _ _ _ _ _ _ (by omega) (by omega)]; omega
  · simp [msg_payload]
  · rw [msg_opcode_wire _ _ _ _ (by norm_num) (by norm_num)]; rfl
  · rw [msg_block_number_wire _ _ _ _ _ _ (by omega) (by omega)]; omega

/-- The parts of the ERROR format that hold on either host byte order: a
string of 512 octets or more is refused; a shorter one gives a datagram of
`4 + |s| + 1` octets that starts with `00 05` and ends with the string and a
NUL; on a big-endian host the error code is big-endian too. -/
theorem send_error_format (le : Bool) (e : Nat) (s : List Nat) :
    (512 ≤ s.length → tftp_send_error_dgram le e s = none)
      ∧ (s.length < 512 →
          tftp_send_error_dgram le e s = some (error_dgram le e s)
          ∧ (error_dgram le e s).length = 4 + s.length + 1
          ∧ (error_dgram le e s).take 2 = [0, 5]
          ∧ (error_dgram le e s).drop 4 = s ++ [0])
      ∧ (e < 65536 → error_dgram false e s = [0, 5, e / 256, e % 256] ++ s ++ [0]) := by
  have hd : error_dgram le e s = [0, 5] ++ store16 le (e % 65536) ++ s ++ [0] := by
    rw [error_dgram, store16_htons le ERROR (by decide)]
    simp [ERROR]
  refine ⟨?_, ?_, ?_⟩
  · intro h
    simp [tftp_send_error_dgram, h]
  · intro h
    refine ⟨by simp [tftp_send_error_dgram]; omega, ?_, ?_, ?_⟩
    · rw [hd]; cases le <;> simp [store16] <;> omega
    · rw [hd]; simp
    · rw [hd]; cases le <;> simp [store16]
  · intro h
    rw [error_dgram, store16_htons false ERROR (by decide)]
    simp [store16, ERROR, Nat.mod_eq_of_lt h]
    omega

/-! ## Request parsing -/

theorem takeWhile_append_of_stop (q : Nat → Bool) (l1 l2 : List Nat)
    (h : ∃ x ∈ l1, q x = false) : (l1 ++ l2).takeWhile q = l1.takeWhile q := by
  induction l1 with
  | nil => simp at h
  | cons a as ih =>
    simp only [List.cons_append, List.takeWhile_cons]
    cases hq : q a
    · rfl
    · simp only [if_true]
      congr 1
      apply ih
      obtain ⟨x, hx, hqx⟩ := h
      rcases List.mem_cons.mp hx with rfl | hx
      · rw [hq] at hqx; simp at hqx
      · exact ⟨x, hx, hqx⟩

theorem cstr_append_of_nul (l1 l2 : List Nat) (h : 0 ∈ l1) : cstr (l1 ++ l2) = cstr l1 :=
  takeWhile_append_of_stop _ l1 l2 ⟨0, h, by simp⟩

/-- A list whose last element is NUL: the C string at its start, the NUL, and
what follows. -/
theorem cstr_split (p : List Nat) (h : 0 ∈ p) :
    p = cstr p ++ 0 :: (p.dropWhile (fun c => c != 0)).drop 1
      ∧ (cstr p).length < p.length := by
  induction p with
  | nil => simp at h
  | cons a as ih =>
    by_cases ha : a = 0
    · subst ha
      simp [cstr]
    · have h' : 0 ∈ as := by
        rcases List.mem_cons.mp h with h0 | h0
        · exact absurd h0.symm ha
        · exact h0
      obtain ⟨h1, h2⟩ := ih h'
      have hb : (a != 0) = true := by simpa using ha
      constructor
      · simp only [cstr, List.takeWhile_cons, hb, if_true, List.dropWhile_cons, List.cons_append]
        congr 1
      · simp only [cstr, List.takeWhile_cons, hb, if_true, List.length_cons]
        simp only [cstr] at h2
        omega

theorem count_zero_cstr (p : List Nat) : (cstr p).count 0 = 0 := by
  rw [List.count_eq_zero]
  intro h
  have := List.mem_takeWhile_imp h
  simp at this

theorem drop_two_split (m : List Nat) (len : Nat) (h2 : 2 ≤ len) (hl : len ≤ m.length) :
    m.drop 2 = request_payload m len ++ m.drop len
      ∧ (request_payload m len).length = len - 2 := by
  constructor
  · unfold request_payload
    conv_lhs => rw [← List.take_append_drop len m]
    rw [List.drop_append_of_le_length (by simp; omega)]
  · simp [request_payload]; omega

theorem request_payload_last (m : List Nat) (len : Nat) (h3 : 3 ≤ len) (hl : len ≤ m.length) :
    (request_payload m len).getLast? = some (m.getD (2 + (len - 2 - 1)) 0) := by
  have hlen := (drop_two_split m len (by omega) hl).2
  rw [List.getLast?_eq_getElem?, hlen]
  unfold request_payload
  rw [List.getElem?_drop, List.getElem?_take_of_lt (by omega), List.getD_eq_getElem?_getD]
  have e : 2 + (len - 2 - 1) = 2 + (len - 2 - 1) := rfl
  have hlt : 2 + (len - 2 - 1) < m.length := by omega
  rw [List.getElem?_eq_getElem hlt]
  simp

theorem getLast?_after_nul (f r : List Nat) (hne : r ≠ []) :
    (f ++ 0 :: r).getLast? = r.getLast? := by
  obtain ⟨b, l, rfl⟩ := List.exists_cons_of_ne_nil hne
  rw [List.getLast?_append, List.getLast?_cons_cons]
  cases h : (b :: l).getLast? with
  | none => simp at h
  | some x => rfl

theorem drop_after_nul (f r t : List Nat) :
    (f ++ 0 :: r ++ t).drop (f.length + 1) = r ++ t := by
  rw [List.append_assoc, List.drop_append_eq_append_drop]
  simp

/-- The request parser reads the payload only, and accepts it exactly when it
ends with a NUL and holds a second NUL. -/
theorem parse_request_eq (m : List Nat) (len : Nat) (h3 : 3 ≤ len) (hl : len ≤ m.length) :
    parse_request m len = parse_payload (request_payload m len) := by
  obtain ⟨hsplit, hplen⟩ := drop_two_split m len (by omega) hl
  have hlast := request_payload_last m len h3 hl
  unfold parse_request parse_payload
  by_cases hend : m.getD (2 + (len - 2 - 1)) 0 = 0
  · rw [hend] at hlast
    have hmem : 0 ∈ request_payload m len := List.mem_of_getLast?_eq_some hlast
    obtain ⟨hp, hfl⟩ := cstr_split (request_payload m len) hmem
    have hc : cstr (m.drop 2) = cstr (request_payload m len) := by
      rw [hsplit]; exact cstr_append_of_nul _ _ hmem
    have hcount : (request_payload m len).count 0
        = 1 + (((request_payload m len).dropWhile (fun c => c != 0)).drop 1).count 0 := by
      conv_lhs => rw [hp]
      rw [List.count_append, count_zero_cstr, List.count_cons_self]
      omega
    have hrlen : (((request_payload m len).dropWhile (fun c => c != 0)).drop 1).length
        = len - 2 - (cstr (request_payload m len)).length - 1 := by
      have := congrArg List.length hp
      simp only [List.length_append, List.length_cons] at this
      omega
    simp only [hend, hlast, hc, ne_eq, not_true_eq_false, if_false]
    by_cases hmode : 2 + (cstr (request_payload m len)).length + 1 > 2 + (len - 2 - 1)
    · have hnil : ((request_payload m len).dropWhile (fun c => c != 0)).drop 1 = [] :=
        List.eq_nil_of_length_eq_zero (by omega)
      rw [if_pos hmode, if_pos (by rw [hcount, hnil]; simp)]
    · have hne : ((request_payload m len).dropWhile (fun c => c != 0)).drop 1 ≠ [] := by
        intro h
        rw [h] at hrlen
        simp at hrlen
        omega
      have hrlast : (((request_payload m len).dropWhile (fun c => c != 0)).drop 1).getLast?
          = some 0 := by
        rw [congrArg List.getLast? hp, getLast?_after_nul _ _ hne] at hlast
        exact hlast
      have hrmem := List.mem_of_getLast?_eq_some hrlast
      have hpos : 0 < (((request_payload m len).dropWhile (fun c => c != 0)).drop 1).count 0 :=
        List.count_pos_iff.mpr hrmem
      rw [if_neg hmode, if_neg (by omega)]
      have hdrop : m.drop (2 + (cstr (request_payload m len)).length + 1)
          = ((request_payload m len).dropWhile (fun c => c != 0)).drop 1 ++ m.drop len := by
        have e : 2 + (cstr (request_payload m len)).length + 1
            = 2 + ((cstr (request_payload m len)).length + 1) := by omega
        rw [e, ← List.drop_drop, hsplit]
        have h := drop_after_nul (cstr (request_payload m len))
          (((request_payload m len).dropWhile (fun c => c != 0)).drop 1) (m.drop len)
        rw [← hp] at h
        exact h
      rw [hdrop, cstr_append_of_nul _ _ hrmem]
  · have hl2 : ¬ (request_payload m len).getLast? = some 0 := by
      rw [hlast]; simpa using hend
    simp only [ne_eq, hend, not_false_eq_true, if_true, hl2]

theorem invalid_filename_or_mode_short : (cs "invalid filename or mode").length < 512 := by
  decide

theorem mode_not_specified_short : (cs "transfer mode not specified").length < 512 := by
  decide

/-- After a successful parse the handler never ends with one of the two
malformed-request outcomes. -/
theorem parsed_request_outcome (cfg : Config) (env : Env) (fuel : Nat) (m : List Nat) (len : Nat)
    (client : Addr) (filename mode_s : List Nat)
    (hparse : parse_request m len = .ok (filename, mode_s)) :
    (tftp_handle_request cfg env fuel m len client).outcome ≠ .invalid_filename_or_mode
      ∧ (tftp_handle_request cfg env fuel m len client).outcome ≠ .mode_not_specified := by
  unfold tftp_handle_request
  by_cases h0 : (!env.socket_ok) = true
  · rw [if_pos h0]; simp
  · rw [if_neg h0]
    simp only [hparse]
    by_cases h1 : path_rejected cfg.base_directory filename = true
    · rw [if_pos h1]; simp
    · rw [if_neg h1]
      cases hopen : env.fopen filename (msg_opcode cfg.le m != RRQ) with
      | error errno => simp
      | ok stream =>
        simp only
        split_ifs with h2 h3 h4
        · simp
        · have := rrq_session_outcome cfg env stream
            ([Event.fopen filename (msg_opcode cfg.le m != RRQ) none] ++
              [Event.request_received (msg_opcode cfg.le m == RRQ) filename mode_s]) client
          constructor <;> intro h <;> rw [h] at this <;> simp [Outcome.in_transfer] at this
        · have := wrq_session_outcome cfg env fuel
            ([Event.fopen filename (msg_opcode cfg.le m != RRQ) none] ++
              [Event.request_received (msg_opcode cfg.le m == RRQ) filename mode_s]) client
          constructor <;> intro h <;> rw [h] at this <;> simp [Outcome.in_transfer] at this
        · simp

/-- Claim C11 (counterexample): the RRQ datagram of 7 octets with payload
`a NUL b NUL c` holds two NUL-terminated strings (two NUL octets), yet it is
answered with ERROR(0, "invalid filename or mode"), because its last octet is
not a NUL. -/
theorem request_parsing_counterexample :
    (request_payload (message_buffer [0, 1, 97, 0, 98, 0, 99]) 7).count 0 = 2
    ∧ tftp_handle_request ⟨true, cs "/srv/tftp"⟩ (demo_env []) 0
        (message_buffer [0, 1, 97, 0, 98, 0, 99]) 7 demo_client
      = ⟨[Event.sendto demo_client ([0, 5, 0, 0] ++ cs "invalid filename or mode" ++ [0]) true],
          demo_client, [], .invalid_filename_or_mode⟩ := by
  decide

/-- Claim C11 (amended): for a request datagram of `len` octets (4 at least)
with payload `p`, the handler answers with a malformed-request error if and
only if the last octet of `p` is not a NUL or `p` holds fewer than two NUL
octets: ERROR(0, "invalid filename or mode") in the first case and
ERROR(0, "transfer mode not specified") when the final NUL is the only one,
and nothing else is done.  Otherwise the file name is the octets of `p` before
the first NUL and the mode the octets between the first and the second NUL.
The parser reads octets of `p` only: its result is the same for every buffer
holding the same payload. -/
theorem request_parsing (cfg : Config) (env : Env) (fuel : Nat) (m : List Nat) (len : Nat)
    (client : Addr) (hsock : env.socket_ok = true) (h4 : 4 ≤ len) (hl : len ≤ m.length) :
    (((tftp_handle_request cfg env fuel m len client).outcome = .invalid_filename_or_mode
          ∨ (tftp_handle_request cfg env fuel m len client).outcome = .mode_not_specified)
        ↔ ((request_payload m len).getLast? ≠ some 0 ∨ (request_payload m len).count 0 < 2))
      ∧ ((request_payload m len).getLast? ≠ some 0 →
          tftp_handle_request cfg env fuel m len client
            = ⟨[Event.sendto client ([0, 5, 0, 0] ++ cs "invalid filename or mode" ++ [0])
                (env.sendto [] client ([0, 5, 0, 0] ++ cs "invalid filename or mode" ++ [0]))],
              client, [], .invalid_filename_or_mode⟩)
      ∧ ((request_payload m len).getLast? = some 0 → (request_payload m len).count 0 < 2 →
          tftp_handle_request cfg env fuel m len client
            = ⟨[Event.sendto client ([0, 5, 0, 0] ++ cs "transfer mode not specified" ++ [0])
                (env.sendto [] client
                  ([0, 5, 0, 0] ++ cs "transfer mode not specified" ++ [0]))],
              client, [], .mode_not_specified⟩)
      ∧ ((request_payload m len).getLast? = some 0 → 2 ≤ (request_payload m len).count 0 →
          parse_request m len
            = .ok (cstr (request_payload m len),
                cstr (((request_payload m len).dropWhile (fun c => c != 0)).drop 1)))
      ∧ (∀ m2 : List Nat, len ≤ m2.length → request_payload m2 len = request_payload m len →
          parse_request m2 len = parse_request m len) := by
  have hpe := parse_request_eq m len (by omega) hl
  have hA : (request_payload m len).getLast? ≠ some 0 →
      tftp_handle_request cfg env fuel m len client
        = ⟨[Event.sendto client ([0, 5, 0, 0] ++ cs "invalid filename or mode" ++ [0])
            (env.sendto [] client ([0, 5, 0, 0] ++ cs "invalid filename or mode" ++ [0]))],
          client, [], .invalid_filename_or_mode⟩ := by
    intro h
    have hp : parse_request m len = .error .invalid_filename_or_mode := by
      rw [hpe, parse_payload, if_pos h]
    unfold tftp_handle_request
    simp only [hsock, Bool.not_true, Bool.false_eq_true, if_false, hp]
    rw [tftp_send_error_fst _ _ _ _ _ _ invalid_filename_or_mode_short, error_dgram_zero]
    simp
  have hB : (request_payload m len).getLast? = some 0 → (request_payload m len).count 0 < 2 →
      tftp_handle_request cfg env fuel m len client
        = ⟨[Event.sendto client ([0, 5, 0, 0] ++ cs "transfer mode not specified" ++ [0])
            (env.sendto [] client ([0, 5, 0, 0] ++ cs "transfer mode not specified" ++ [0]))],
          client, [], .mode_not_specified⟩ := by
    intro h1 h2
    have hp : parse_request m len = .error .mode_not_specified := by
      rw [hpe, parse_payload, if_neg (by simpa using h1), if_pos h2]
    unfold tftp_handle_request
    simp only [hsock, Bool.not_true, Bool.false_eq_true, if_false, hp]
    rw [tftp_send_error_fst _ _ _ _ _ _ mode_not_specified_short, error_dgram_zero]
    simp
  have hC : (request_payload m len).getLast? = some 0 → 2 ≤ (request_payload m len).count 0 →
      parse_request m len
        = .ok (cstr (request_payload m len),
            cstr (((request_payload m len).dropWhile (fun c => c != 0)).drop 1)) := by
    intro h1 h2
    rw [hpe, parse_payload, if_neg (by simpa using h1), if_neg (by omega)]
  refine ⟨?_, hA, hB, hC, ?_⟩
  · constructor
    · intro hout
      by_contra hcon
      simp only [not_or, not_not, not_lt] at hcon
      have hno := parsed_request_outcome cfg env fuel m len client _ _ (hC hcon.1 hcon.2)
      rcases hout with h | h
      · exact hno.1 h
      · exact hno.2 h
    · intro hcond
      by_cases hlast : (request_payload m len).getLast? = some 0
      · rcases hcond with h | h
        · exact absurd hlast h
        · right; rw [hB hlast h]
      · left; rw [hA hlast]
  · intro m2 hl2 hp2
    rw [hpe, parse_request_eq m2 len (by omega) hl2, hp2]

set_option maxRecDepth 100000 in
/-- Witness of C11 (amended): the request RRQ("hello.txt", "octet") of 18
octets in a buffer of 516 octets is parsed into its file name and mode. -/
theorem request_parsing_witness :
    parse_request (message_buffer (request_dgram RRQ (cs "hello.txt") (cs "octet"))) 18
      = .ok (cs "hello.txt", cs "octet") :=
  ((request_parsing ⟨true, cs "/srv/tftp"⟩ (demo_env []) 0
    (message_buffer (request_dgram RRQ (cs "hello.txt") (cs "octet"))) 18 demo_client
    rfl (by decide) (by decide)).2.2.2.1 (by decide) (by decide)).trans rfl

/-! ## The retry policy -/

theorem rrq_cycle_all_timeouts (cfg : Config) (env : Env) (b : Nat) (d : List Nat)
    (hsend : ∀ tr dst dg, env.sendto tr dst dg = true) (n : Nat) :
    ∀ (tr : List Event) (sock : Addr), (∀ ext, env.recvfrom (tr ++ ext) = .eagain) →
      rrq_cycle cfg env b d n tr sock
        = ⟨tr ++ rrq_timeouts sock (data_dgram cfg.le b d) n, sock, .exhausted⟩ := by
  induction n with
  | zero => intro tr sock _; simp [rrq_cycle, rrq_timeouts]
  | succ n ih =>
    intro tr sock hrecv
    have hr : (tftp_recv_message env (tr ++ [Event.sendto sock (data_dgram cfg.le b d) true])).2
        = .eagain := by
      rw [tftp_recv_message_snd, hrecv]
    rw [rrq_cycle_succ, hsend, hr]
    simp only [Bool.true_eq_false, if_false]
    rw [ih _ sock (fun ext => by rw [List.append_assoc]; exact hrecv _)]
    simp [rrq_timeouts]

theorem wrq_cycle_all_timeouts (cfg : Config) (env : Env) (b : Nat)
    (hsend : ∀ tr dst dg, env.sendto tr dst dg = true) (n : Nat) :
    ∀ (tr : List Event) (sock : Addr), (∀ ext, env.recvfrom (tr ++ ext) = .eagain) →
      wrq_cycle cfg env b n tr sock
        = ⟨tr ++ wrq_timeouts sock (ack_dgram cfg.le b) n, sock, .exhausted⟩ := by
  induction n with
  | zero => intro tr sock _; simp [wrq_cycle, wrq_timeouts]
  | succ n ih =>
    intro tr sock hrecv
    have hr : (tftp_recv_message env tr).2 = .eagain := by
      rw [tftp_recv_message_snd]
      have := hrecv []
      rw [List.append_nil] at this
      rw [this]
    rw [wrq_cycle_succ, hr]
    simp only [hsend, Bool.true_eq_false, if_false]
    rw [ih _ sock (fun ext => by rw [List.append_assoc]; exact hrecv _)]
    simp [wrq_timeouts]

theorem rrq_timeouts_counts (sock : Addr) (dg : List Nat) (k : Nat) :
    recv_count (rrq_timeouts sock dg k) = k
      ∧ sent_dgrams (rrq_timeouts sock dg k) = List.replicate k (sock, dg) := by
  induction k with
  | zero => simp [rrq_timeouts, recv_count, sent_dgrams]
  | succ k ih => simp [rrq_timeouts, recv_count, sent_dgrams, ih, List.replicate_succ]

theorem wrq_timeouts_counts (sock : Addr) (dg : List Nat) (k : Nat) :
    recv_count (wrq_timeouts sock dg k) = k
      ∧ sent_dgrams (wrq_timeouts sock dg k) = List.replicate k (sock, dg) := by
  induction k with
  | zero => simp [wrq_timeouts, recv_count, sent_dgrams]
  | succ k ih => simp [wrq_timeouts, recv_count, sent_dgrams, ih, List.replicate_succ]

/-- Claim C12: when the sends succeed and every receive from some point on
times out, then from every state of a READ session at the start of a block the
session reads the block, makes exactly RECV_RETRIES = 5 receive attempts,
sends the same DATA datagram (current block number, same payload) exactly 5
times and nothing else, and ends as timed out; from every state of a WRITE
session awaiting a block the session makes exactly 5 receive attempts, sends
ACK(block_n) of the last accepted block after each timeout (5 times) and
nothing else, writes nothing, and ends as timed out; a WRITE session that never
receives anything sends ACK(0), then ACK(0) again after each of 5 timeouts.
The count starts at RECV_RETRIES in every state, that is for every block. -/
theorem retry_policy (cfg : Config) (env : Env) (fuel : Nat) (rest : List Nat) (bn : Nat)
    (sink : List Nat) (tr : List Event) (sock : Addr)
    (hsend : ∀ tr dst dg, env.sendto tr dst dg = true)
    (hrecv : ∀ ext, env.recvfrom (tr ++ ext) = .eagain) :
    RECV_RETRIES = 5
      ∧ rrq_loop cfg env (fuel + 1) rest bn tr sock
          = ⟨tr ++ Event.fread (rest.take 512)
              :: rrq_timeouts sock (data_dgram cfg.le ((bn + 1) % 65536) (rest.take 512))
                  RECV_RETRIES,
            sock, [], .timed_out⟩
      ∧ recv_count (Event.fread (rest.take 512)
          :: rrq_timeouts sock (data_dgram cfg.le ((bn + 1) % 65536) (rest.take 512))
              RECV_RETRIES) = 5
      ∧ sent_dgrams (Event.fread (rest.take 512)
          :: rrq_timeouts sock (data_dgram cfg.le ((bn + 1) % 65536) (rest.take 512))
              RECV_RETRIES)
          = List.replicate 5 (sock, data_dgram cfg.le ((bn + 1) % 65536) (rest.take 512))
      ∧ wrq_loop cfg env (fuel + 1) bn sink tr sock
          = ⟨tr ++ wrq_timeouts sock (ack_dgram cfg.le bn) RECV_RETRIES, sock, sink, .timed_out⟩
      ∧ recv_count (wrq_timeouts sock (ack_dgram cfg.le bn) RECV_RETRIES) = 5
      ∧ sent_dgrams (wrq_timeouts sock (ack_dgram cfg.le bn) RECV_RETRIES)
          = List.replicate 5 (sock, ack_dgram cfg.le bn)
      ∧ wrq_session cfg env (fuel + 1) tr sock
          = ⟨tr ++ Event.sendto sock (ack_dgram cfg.le 0) true
              :: wrq_timeouts sock (ack_dgram cfg.le 0) RECV_RETRIES, sock, [], .timed_out⟩ := by
  refine ⟨rfl, ?_, ?_, ?_, ?_, (wrq_timeouts_counts _ _ _).1, (wrq_timeouts_counts _ _ _).2, ?_⟩
  · rw [rrq_loop, rrq_cycle_all_timeouts cfg env _ _ hsend RECV_RETRIES _ sock
      (fun ext => by rw [List.append_assoc]; exact hrecv _)]
    simp
  · simp [recv_count, (rrq_timeouts_counts _ _ _).1, RECV_RETRIES]
  · simp [sent_dgrams, (rrq_timeouts_counts _ _ _).2, RECV_RETRIES]
  · rw [wrq_loop, wrq_cycle_all_timeouts cfg env _ hsend RECV_RETRIES _ sock hrecv]
  · unfold wrq_session
    simp only [tftp_send_ack_neg, tftp_send_ack_fst, hsend, Bool.true_eq_false, if_false]
    rw [wrq_loop, wrq_cycle_all_timeouts cfg env _ hsend RECV_RETRIES _ sock
      (fun ext => by rw [List.append_assoc]; exact hrecv _)]
    simp

/-- Witness of C12 (scenario S6): a READ of a 6-octet file whose peer never
answers sends DATA(1) five times and ends as timed out; a WRITE whose peer
never sends anything ends as timed out after ACK(0) and five repetitions. -/
theorem retry_policy_witness :
    rrq_session ⟨true, []⟩ (script_env []) ⟨[72, 101, 108, 108, 111, 10], none⟩ [] demo_client
      = ⟨Event.fread [72, 101, 108, 108, 111, 10]
          :: rrq_timeouts demo_client [0, 3, 0, 1, 72, 101, 108, 108, 111, 10] 5,
        demo_client, [], .timed_out⟩
    ∧ wrq_session ⟨true, []⟩ (script_env []) 1 [] demo_client
      = ⟨Event.sendto demo_client [0, 4, 0, 0] true :: wrq_timeouts demo_client [0, 4, 0, 0] 5,
        demo_client, [], .timed_out⟩ :=
  have h := retry_policy ⟨true, []⟩ (script_env []) 0 [72, 101, 108, 108, 111, 10] 0 [] []
    demo_client (fun _ _ _ => rfl) (fun _ => rfl)
  ⟨h.2.1, h.2.2.2.2.2.2.2⟩

/-! ## Datagrams of fewer than 4 octets -/

theorem invalid_opcode_short : (cs "invalid opcode").length < 512 := by decide

set_option maxRecDepth 100000 in
/-- Claim C14 (counterexample): the listener answers a DATA datagram (opcode 3)
with an ERROR datagram whose error code is 0, not 4. -/
theorem invalid_opcode_counterexample :
    main_iteration ⟨true, []⟩ (script_env [.dgram demo_client [0, 3, 0, 1]])
        (List.replicate 516 170) []
      = ⟨[Event.recvfrom (.dgram demo_client [0, 3, 0, 1]),
          Event.sendto demo_client ([0, 5, 0, 0] ++ cs "invalid opcode" ++ [0]) true],
        [0, 3, 0, 1] ++ List.replicate 512 170, none⟩
    ∧ wire_u16 ([0, 5, 0, 0] ++ cs "invalid opcode" ++ [0]) 2 = 0 := by
  decide

/-- Claim C14 (amended): for every datagram of at least 4 octets received by
the listener whose big-endian opcode is neither 1 (RRQ) nor 2 (WRQ), the
listener replies to the sender with an ERROR datagram carrying error code 0
and the message "invalid opcode", forks no child, and goes on with the next
iteration of its loop. -/
theorem invalid_opcode_reply (cfg : Config) (env : Env) (message : List Nat) (tr : List Event)
    (src : Addr) (bytes : List Nat) (n : Nat) (sp : List Spawn)
    (hrecv : env.recvfrom tr = .dgram src bytes) (hlen : 4 ≤ bytes.length)
    (hoct : ∀ x ∈ bytes, x < 256)
    (hop : wire_u16 bytes 0 ≠ 1 ∧ wire_u16 bytes 0 ≠ 2) :
    main_iteration cfg env message tr
        = ⟨tr ++ [Event.recvfrom (.dgram src (bytes.take MSG_SIZE)),
            Event.sendto src ([0, 5, 0, 0] ++ cs "invalid opcode" ++ [0])
              (env.sendto (tr ++ [Event.recvfrom (.dgram src (bytes.take MSG_SIZE))]) src
                ([0, 5, 0, 0] ++ cs "invalid opcode" ++ [0]))],
          bytes.take MSG_SIZE ++ message.drop (bytes.take MSG_SIZE).length, none⟩
      ∧ main_loop cfg env (n + 1) message tr sp
        = main_loop cfg env n (bytes.take MSG_SIZE ++ message.drop (bytes.take MSG_SIZE).length)
            (tr ++ [Event.recvfrom (.dgram src (bytes.take MSG_SIZE)),
              Event.sendto src ([0, 5, 0, 0] ++ cs "invalid opcode" ++ [0])
                (env.sendto (tr ++ [Event.recvfrom (.dgram src (bytes.take MSG_SIZE))]) src
                  ([0, 5, 0, 0] ++ cs "invalid opcode" ++ [0]))]) sp := by
  have hit : main_iteration cfg env message tr
      = ⟨tr ++ [Event.recvfrom (.dgram src (bytes.take MSG_SIZE)),
          Event.sendto src ([0, 5, 0, 0] ++ cs "invalid opcode" ++ [0])
            (env.sendto (tr ++ [Event.recvfrom (.dgram src (bytes.take MSG_SIZE))]) src
              ([0, 5, 0, 0] ++ cs "invalid opcode" ++ [0]))],
        bytes.take MSG_SIZE ++ message.drop (bytes.take MSG_SIZE).length, none⟩ := by
    have hr : (tftp_recv_message env tr).2 = .dgram src (bytes.take MSG_SIZE) := by
      rw [tftp_recv_message_snd, hrecv]
    have hl : ¬ (bytes.take MSG_SIZE).length < 4 := by
      simp [MSG_SIZE]; omega
    have hopc : msg_opcode cfg.le
        (bytes.take MSG_SIZE ++ message.drop (bytes.take MSG_SIZE).length) = wire_u16 bytes 0 := by
      obtain ⟨a, b, tl, rfl⟩ : ∃ a b tl, bytes = a :: b :: tl := by
        match bytes, hlen with
        | a :: b :: tl, _ => exact ⟨a, b, tl, rfl⟩
      have ha : a < 256 := hoct a (by simp)
      have hb : b < 256 := hoct b (by simp)
      simp only [MSG_SIZE, List.take_succ_cons, List.cons_append]
      rw [msg_opcode_wire _ _ _ _ ha hb]
      simp [wire_u16]
    unfold main_iteration
    simp only [hr, hl, if_false, hopc, RRQ, WRQ]
    rw [if_neg (by intro h; rcases h with h | h; exact hop.1 h; exact hop.2 h)]
    rw [tftp_recv_message_fst, hr, tftp_send_error_fst _ _ _ _ _ _ invalid_opcode_short,
      error_dgram_zero]
    simp
  refine ⟨hit, ?_⟩
  rw [main_loop, hit]
  simp

/-- Witness of C14 (amended): an ACK datagram sent to the listener. -/
theorem invalid_opcode_reply_witness :
    main_iteration ⟨true, []⟩ (script_env [.dgram demo_client [0, 4, 0, 1]]) [] []
      = ⟨[Event.recvfrom (.dgram demo_client [0, 4, 0, 1]),
          Event.sendto demo_client ([0, 5, 0, 0] ++ cs "invalid opcode" ++ [0]) true],
        [0, 4, 0, 1], none⟩ :=
  ((invalid_opcode_reply ⟨true, []⟩ (script_env [.dgram demo_client [0, 4, 0, 1]]) [] []
    demo_client [0, 4, 0, 1] 0 [] rfl (by decide) (by decide) (by decide)).1).trans (by decide)

/-! ## Unexpected messages in a READ session -/

theorem invalid_message_short : (cs "invalid message during transfer").length < 512 := by
  decide

theorem invalid_ack_number_short : (cs "invalid ack number").length < 512 := by decide

theorem invalid_block_number_short : (cs "invalid block number").length < 512 := by decide

/-- A message taken by the RRQ retry loop is the datagram received last: it
has 4 to 516 octets and came from the address now in `client_sock`. -/
theorem rrq_cycle_got (cfg : Config) (env : Env) (b : Nat) (d : List Nat) (n : Nat)
    (tr : List Event) (sock : Addr) (m : List Nat)
    (h : (rrq_cycle cfg env b d n tr sock).res = .got m) :
    4 ≤ m.length ∧ m.length ≤ 516
      ∧ (∃ tr1 bytes, env.recvfrom tr1 = .dgram (rrq_cycle cfg env b d n tr sock).sock bytes
          ∧ m = bytes.take MSG_SIZE)
      ∧ ∃ pre, (rrq_cycle cfg env b d n tr sock).trace
          = pre ++ [Event.sendto sock (data_dgram cfg.le b d) true,
              Event.recvfrom (.dgram (rrq_cycle cfg env b d n tr sock).sock m)] := by
  obtain ⟨k, _, hs⟩ := rrq_cycle_shape cfg env b d n tr sock
  rcases hs with ⟨_, hs⟩ | ⟨_, hs⟩ | ⟨_, hs⟩ | ⟨_, _, _, _, _, hs⟩ | ⟨_, src, m2, h4, h516, ho, hs⟩
  · rw [hs] at h; simp at h
  · rw [hs] at h; simp at h
  · rw [hs] at h; simp at h
  · rw [hs] at h; simp at h
  · rw [hs] at h ⊢
    simp only [Cycle.got.injEq] at h
    subst h
    exact ⟨h4, h516, ho, _, rfl⟩

/-- A message taken by the WRQ retry loop is the datagram received last. -/
theorem wrq_cycle_got (cfg : Config) (env : Env) (b : Nat) (n : Nat)
    (tr : List Event) (sock : Addr) (m : List Nat)
    (h : (wrq_cycle cfg env b n tr sock).res = .got m) :
    4 ≤ m.length ∧ m.length ≤ 516
      ∧ (∃ tr1 bytes, env.recvfrom tr1 = .dgram (wrq_cycle cfg env b n tr sock).sock bytes
          ∧ m = bytes.take MSG_SIZE)
      ∧ ∃ pre, (wrq_cycle cfg env b n tr sock).trace
          = pre ++ [Event.recvfrom (.dgram (wrq_cycle cfg env b n tr sock).sock m)] := by
  obtain ⟨k, _, hs⟩ := wrq_cycle_shape cfg env b n tr sock
  rcases hs with ⟨_, hs⟩ | ⟨_, hs⟩ | ⟨_, hs⟩ | ⟨_, _, _, _, _, hs⟩ | ⟨_, src, m2, h4, h516, ho, hs⟩
  · rw [hs] at h; simp at h
  · rw [hs] at h; simp at h
  · rw [hs] at h; simp at h
  · rw [hs] at h; simp at h
  · rw [hs] at h ⊢
    simp only [Cycle.got.injEq] at h
    subst h
    exact ⟨h4, h516, ho, _, rfl⟩

/-- Claim C15 (counterexample): a READ session that receives a DATA datagram
instead of the acknowledgement answers with an ERROR datagram whose error code
is 0, not 4. -/
theorem read_invalid_message_counterexample :
    rrq_session ⟨true, []⟩ (script_env [.dgram demo_client [0, 3, 0, 1]])
        ⟨[72, 101, 108, 108, 111, 10], none⟩ [] demo_client
      = ⟨[Event.fread [72, 101, 108, 108, 111, 10],
          Event.sendto demo_client [0, 3, 0, 1, 72, 101, 108, 108, 111, 10] true,
          Event.recvfrom (.dgram demo_client [0, 3, 0, 1]),
          Event.sendto demo_client
            ([0, 5, 0, 0] ++ cs "invalid message during transfer" ++ [0]) true],
        demo_client, [], .invalid_message⟩
    ∧ wire_u16 ([0, 5, 0, 0] ++ cs "invalid message during transfer" ++ [0]) 2 = 0 := by
  decide

/-- Claim C15 (amended): in a READ session, in every state, when the retry
loop takes a received datagram (of at least 4 octets) whose opcode is neither
ERROR (5) nor ACK (4), the session sends an ERROR datagram with error code 0
and the message "invalid message during transfer" to the sender of that
datagram and exits with status 1; this send is its last event, so no further
DATA is sent. -/
theorem read_invalid_message (cfg : Config) (env : Env) (fuel : Nat) (rest : List Nat)
    (bn : Nat) (tr : List Event) (sock : Addr) (m : List Nat)
    (hgot : (rrq_cycle cfg env ((bn + 1) % 65536) (rest.take 512) RECV_RETRIES
      (tr ++ [Event.fread (rest.take 512)]) sock).res = .got m)
    (hoct : ∀ x ∈ m, x < 256)
    (hop : wire_u16 m 0 ≠ 5 ∧ wire_u16 m 0 ≠ 4) :
    (∃ pre src ok, rrq_loop cfg env (fuel + 1) rest bn tr sock
        = ⟨pre ++ [Event.recvfrom (.dgram src m),
            Event.sendto src ([0, 5, 0, 0] ++ cs "invalid message during transfer" ++ [0]) ok],
          src, [], .invalid_message⟩)
      ∧ 4 ≤ m.length
      ∧ Outcome.invalid_message.exit_code = some 1 := by
  obtain ⟨h4, _, _, pre, hpre⟩ := rrq_cycle_got cfg env _ _ _ _ _ m hgot
  have hmo := msg_opcode_octets cfg.le m hoct
  have key : rrq_loop cfg env (fuel + 1) rest bn tr sock
      = ⟨(rrq_cycle cfg env ((bn + 1) % 65536) (rest.take 512) RECV_RETRIES
            (tr ++ [Event.fread (rest.take 512)]) sock).trace
          ++ [Event.sendto (rrq_cycle cfg env ((bn + 1) % 65536) (rest.take 512) RECV_RETRIES
                (tr ++ [Event.fread (rest.take 512)]) sock).sock
              ([0, 5, 0, 0] ++ cs "invalid message during transfer" ++ [0])
              (env.sendto (rrq_cycle cfg env ((bn + 1) % 65536) (rest.take 512) RECV_RETRIES
                (tr ++ [Event.fread (rest.take 512)]) sock).trace
                (rrq_cycle cfg env ((bn + 1) % 65536) (rest.take 512) RECV_RETRIES
                  (tr ++ [Event.fread (rest.take 512)]) sock).sock
                ([0, 5, 0, 0] ++ cs "invalid message during transfer" ++ [0]))],
          (rrq_cycle cfg env ((bn + 1) % 65536) (rest.take 512) RECV_RETRIES
            (tr ++ [Event.fread (rest.take 512)]) sock).sock, [], .invalid_message⟩ := by
    rw [rrq_loop]
    simp only [hgot, hmo.1, ERROR, ACK]
    rw [if_neg hop.1, if_pos hop.2, tftp_send_error_fst _ _ _ _ _ _ invalid_message_short,
      error_dgram_zero]
  refine ⟨⟨pre ++ [Event.sendto sock (data_dgram cfg.le ((bn + 1) % 65536) (rest.take 512)) true],
    (rrq_cycle cfg env ((bn + 1) % 65536) (rest.take 512) RECV_RETRIES
      (tr ++ [Event.fread (rest.take 512)]) sock).sock,
    env.sendto (rrq_cycle cfg env ((bn + 1) % 65536) (rest.take 512) RECV_RETRIES
        (tr ++ [Event.fread (rest.take 512)]) sock).trace
      (rrq_cycle cfg env ((bn + 1) % 65536) (rest.take 512) RECV_RETRIES
        (tr ++ [Event.fread (rest.take 512)]) sock).sock
      ([0, 5, 0, 0] ++ cs "invalid message during transfer" ++ [0]), ?_⟩, h4, rfl⟩
  rw [key]
  nth_rewrite 1 [hpre]
  simp

/-- Witness of C15 (amended): the first DATA block is answered with a DATA
datagram. -/
theorem read_invalid_message_witness :
    (rrq_cycle ⟨true, []⟩ (script_env [.dgram demo_client [0, 3, 0, 1]]) ((0 + 1) % 65536)
        ([72, 101, 108, 108, 111, 10].take 512) RECV_RETRIES
        ([] ++ [Event.fread ([72, 101, 108, 108, 111, 10].take 512)]) demo_client).res
        = .got [0, 3, 0, 1]
      ∧ ((∃ pre src ok, rrq_loop ⟨true, []⟩ (script_env [.dgram demo_client [0, 3, 0, 1]])
            (0 + 1) [72, 101, 108, 108, 111, 10] 0 [] demo_client
          = ⟨pre ++ [Event.recvfrom (.dgram src [0, 3, 0, 1]),
              Event.sendto src
                ([0, 5, 0, 0] ++ cs "invalid message during transfer" ++ [0]) ok],
            src, [], .invalid_message⟩)
        ∧ 4 ≤ [0, 3, 0, 1].length
        ∧ Outcome.invalid_message.exit_code = some 1) :=
  ⟨by decide,
    read_invalid_message ⟨true, []⟩ (script_env [.dgram demo_client [0, 3, 0, 1]]) 0
      [72, 101, 108, 108, 111, 10] 0 [] demo_client [0, 3, 0, 1]
      (by decide) (by decide) (by decide)⟩

/-! ## Acknowledgements with a wrong number -/

theorem data_order_append (a b : List Event) :
    ∀ w : ReadWatch, data_order w (a ++ b)
      = (data_order w a && data_order (a.foldl read_watch_step w) b) := by
  induction a with
  | nil => intro w; simp [data_order]
  | cons e a ih => intro w; simp [data_order, ih, Bool.and_assoc]

/-- The observer allows the DATA of the round and its retransmissions. -/
theorem data_order_timeouts_send (sock : Addr) (dg : List Nat) (h3 : wire_u16 dg 0 = 3)
    (ok : Bool) (rest : List Event) (k : Nat) :
    ∀ w : ReadWatch, data_send_allowed w (Event.sendto sock dg true) = true →
      data_order w (rrq_timeouts sock dg k ++ Event.sendto sock dg ok :: rest)
        = data_order ⟨some dg, false⟩ rest := by
  induction k with
  | zero =>
    intro w hw
    have hw2 : data_send_allowed w (Event.sendto sock dg ok) = true := hw
    simp [rrq_timeouts, data_order, hw2, read_watch_step, h3]
  | succ k ih =>
    intro w hw
    simp only [rrq_timeouts, List.cons_append, data_order, hw, Bool.true_and]
    simp only [read_watch_step, h3, if_true, data_send_allowed]
    exact ih _ (by simp [data_send_allowed, h3])

theorem data_order_timeouts (sock : Addr) (dg : List Nat) (h3 : wire_u16 dg 0 = 3) (k : Nat) :
    ∀ w : ReadWatch, data_send_allowed w (Event.sendto sock dg true) = true →
      data_order w (rrq_timeouts sock dg k) = true := by
  induction k with
  | zero => intro w _; simp [rrq_timeouts, data_order]
  | succ k ih =>
    intro w hw
    simp only [rrq_timeouts, data_order, hw, Bool.true_and]
    simp only [read_watch_step, h3, if_true, data_send_allowed]
    exact ih _ (by simp [data_send_allowed, h3])

theorem at_block_allows (w : ReadWatch) (bn : Nat) (h : w.at_block bn) (sock : Addr)
    (dg : List Nat) (h2 : wire_u16 dg 2 = (bn + 1) % 65536) :
    data_send_allowed w (Event.sendto sock dg true) = true := by
  simp only [data_send_allowed]
  split_ifs
  · rcases h with h | ⟨prev, rfl, hp⟩
    · rw [h]
    · simp [h2, hp]
  · rfl

theorem data_order_error_tail (le : Bool) (w : ReadWatch) (src dst : Addr) (m s : List Nat)
    (ok : Bool) :
    data_order w [Event.recvfrom (.dgram src m), Event.sendto dst (error_dgram le 0 s) ok]
      = true := by
  simp [data_order, data_send_allowed, wire_u16_error_dgram]

/-- The read loop sends a new DATA only after the acknowledgement of the last
one: from a loop head where the observer is at block `bn`, every event the
loop adds is allowed. -/
theorem rrq_loop_data_order (cfg : Config) (env : Env) (hoct : env.octets) (fuel : Nat) :
    ∀ (rest : List Nat) (bn : Nat) (tr : List Event) (sock : Addr) (w : ReadWatch),
      w.at_block bn →
      ∃ evs, (rrq_loop cfg env fuel rest bn tr sock).trace = tr ++ evs
        ∧ data_order w evs = true := by
  induction fuel with
  | zero => intro rest bn tr sock w _; exact ⟨[], by simp [rrq_loop], rfl⟩
  | succ fuel ih =>
    intro rest bn tr sock w hw
    have hb : (bn + 1) % 65536 < 65536 := Nat.mod_lt _ (by norm_num)
    obtain ⟨h3, hblk⟩ := wire_u16_data_dgram cfg.le ((bn + 1) % 65536) (List.take 512 rest) hb
    have hal := at_block_allows w bn hw sock _ hblk
    have hfread : ∀ es, data_order w (Event.fread (List.take 512 rest) :: es)
        = data_order w es := by
      intro es; simp [data_order, data_send_allowed, read_watch_step]
    obtain ⟨k, hk, hshape⟩ := rrq_cycle_shape cfg env ((bn + 1) % 65536) (List.take 512 rest)
      RECV_RETRIES (tr ++ [Event.fread (List.take 512 rest)]) sock
    rw [rrq_loop]
    rcases hshape with ⟨hkn, h⟩ | ⟨_, h⟩ | ⟨_, h⟩ | ⟨_, src, m, ok, hm, h⟩
      | ⟨_, src, m, hm4, _, horg, h⟩
    · rw [h]
      refine ⟨Event.fread (List.take 512 rest) :: rrq_timeouts sock
        (data_dgram cfg.le ((bn + 1) % 65536) (List.take 512 rest)) k, by simp, ?_⟩
      rw [hfread]
      exact data_order_timeouts sock _ h3 k w hal
    · rw [h]
      refine ⟨Event.fread (List.take 512 rest) :: (rrq_timeouts sock
        (data_dgram cfg.le ((bn + 1) % 65536) (List.take 512 rest)) k
        ++ Event.sendto sock (data_dgram cfg.le ((bn + 1) % 65536) (List.take 512 rest)) false
          :: []), by simp, ?_⟩
      rw [hfread, data_order_timeouts_send sock _ h3 false [] k w hal]
      rfl
    · rw [h]
      refine ⟨Event.fread (List.take 512 rest) :: (rrq_timeouts sock
        (data_dgram cfg.le ((bn + 1) % 65536) (List.take 512 rest)) k
        ++ Event.sendto sock (data_dgram cfg.le ((bn + 1) % 65536) (List.take 512 rest)) true
          :: [Event.recvfrom .failed]), by simp, ?_⟩
      rw [hfread, data_order_timeouts_send sock _ h3 true _ k w hal]
      rfl
    · rw [h]
      refine ⟨Event.fread (List.take 512 rest) :: (rrq_timeouts sock
        (data_dgram cfg.le ((bn + 1) % 65536) (List.take 512 rest)) k
        ++ Event.sendto sock (data_dgram cfg.le ((bn + 1) % 65536) (List.take 512 rest)) true
          :: [Event.recvfrom (.dgram src m),
            Event.sendto src (error_dgram cfg.le 0 (cs "invalid request size")) ok]),
        by simp, ?_⟩
      rw [hfread, data_order_timeouts_send sock _ h3 true _ k w hal]
      exact data_order_error_tail _ _ _ _ _ _ _
    · have hmo := msg_opcode_octets cfg.le m (octets_take env hoct src m horg)
      rw [h]
      simp only [hmo.1, hmo.2]
      have hdone : ∃ evs, tr ++ [Event.fread (List.take 512 rest)] ++ rrq_timeouts sock
            (data_dgram cfg.le ((bn + 1) % 65536) (List.take 512 rest)) k
            ++ [Event.sendto sock (data_dgram cfg.le ((bn + 1) % 65536) (List.take 512 rest))
                true, Event.recvfrom (.dgram src m)] = tr ++ evs
          ∧ data_order w evs = true := by
        refine ⟨Event.fread (List.take 512 rest) :: (rrq_timeouts sock
          (data_dgram cfg.le ((bn + 1) % 65536) (List.take 512 rest)) k
          ++ Event.sendto sock (data_dgram cfg.le ((bn + 1) % 65536) (List.take 512 rest)) true
            :: [Event.recvfrom (.dgram src m)]), by simp, ?_⟩
        rw [hfread, data_order_timeouts_send sock _ h3 true _ k w hal]
        simp [data_order, data_send_allowed]
      have herr : ∀ s : List Nat, s.length < 512 →
          ∃ evs, (tftp_send_error cfg env (tr ++ [Event.fread (List.take 512 rest)]
            ++ rrq_timeouts sock
              (data_dgram cfg.le ((bn + 1) % 65536) (List.take 512 rest)) k
            ++ [Event.sendto sock (data_dgram cfg.le ((bn + 1) % 65536) (List.take 512 rest))
                true, Event.recvfrom (.dgram src m)]) 0 s src).1 = tr ++ evs
          ∧ data_order w evs = true := by
        intro s hs
        rw [tftp_send_error_fst _ _ _ _ _ _ hs]
        generalize env.sendto _ src (error_dgram cfg.le 0 s) = ok
        refine ⟨Event.fread (List.take 512 rest) :: (rrq_timeouts sock
          (data_dgram cfg.le ((bn + 1) % 65536) (List.take 512 rest)) k
          ++ Event.sendto sock (data_dgram cfg.le ((bn + 1) % 65536) (List.take 512 rest)) true
            :: [Event.recvfrom (.dgram src m),
              Event.sendto src (error_dgram cfg.le 0 s) ok]), by simp, ?_⟩
        rw [hfread, data_order_timeouts_send sock _ h3 true _ k w hal]
        exact data_order_error_tail _ _ _ _ _ _ _
      by_cases he : wire_u16 m 0 = ERROR
      · rw [if_pos he]; exact hdone
      · rw [if_neg he]
        by_cases ha : wire_u16 m 0 = ACK
        · rw [if_neg (by simpa using ha)]
          by_cases hbn : wire_u16 m 2 = (bn + 1) % 65536
          · rw [if_neg (by simpa using hbn)]
            by_cases hclose : (List.take 512 rest).length < 512
            · rw [if_pos (by simpa using hclose)]; exact hdone
            · rw [if_neg (by simpa using hclose)]
              obtain ⟨evs, he1, he2⟩ := ih (List.drop 512 rest) ((bn + 1) % 65536)
                (tr ++ [Event.fread (List.take 512 rest)] ++ rrq_timeouts sock
                  (data_dgram cfg.le ((bn + 1) % 65536) (List.take 512 rest)) k
                  ++ [Event.sendto sock
                      (data_dgram cfg.le ((bn + 1) % 65536) (List.take 512 rest)) true,
                    Event.recvfrom (.dgram src m)]) src
                ⟨some (data_dgram cfg.le ((bn + 1) % 65536) (List.take 512 rest)), true⟩
                (Or.inr ⟨_, rfl, hblk⟩)
              refine ⟨Event.fread (List.take 512 rest) :: (rrq_timeouts sock
                (data_dgram cfg.le ((bn + 1) % 65536) (List.take 512 rest)) k
                ++ Event.sendto sock
                    (data_dgram cfg.le ((bn + 1) % 65536) (List.take 512 rest)) true
                  :: Event.recvfrom (.dgram src m) :: evs), by rw [he1]; simp, ?_⟩
              rw [hfread, data_order_timeouts_send sock _ h3 true _ k w hal]
              simp only [data_order, data_send_allowed, Bool.true_and, read_watch_step]
              rw [if_pos ⟨hm4, by simpa [ACK] using ha, by rw [hbn, hblk]⟩]
              exact he2
          · rw [if_pos (by simpa using hbn)]
            exact herr _ invalid_ack_number_short
        · rw [if_pos (by simpa using ha)]
          exact herr _ invalid_message_short

/-- Claim C16: in an environment that delivers octets, in every state of a
READ session awaiting the acknowledgement of block `block_n`, a received ACK
whose block number differs from `block_n` makes the session send
ERROR(0, "invalid ack number") to its sender as its last event and exit with
status 1; and in every READ session each DATA datagram sent is the first one,
the last one again, or follows an ACK that was received after the last DATA
was sent and carries exactly its block number, and is then numbered one more
(modulo 2^16). -/
theorem invalid_ack_number (cfg : Config) (env : Env) (hoct : env.octets) :
    (∀ (fuel : Nat) (rest : List Nat) (bn : Nat) (tr : List Event) (sock : Addr) (m : List Nat),
        (rrq_cycle cfg env ((bn + 1) % 65536) (rest.take 512) RECV_RETRIES
          (tr ++ [Event.fread (rest.take 512)]) sock).res = .got m →
        wire_u16 m 0 = 4 → wire_u16 m 2 ≠ (bn + 1) % 65536 →
        ∃ pre src ok, rrq_loop cfg env (fuel + 1) rest bn tr sock
          = ⟨pre ++ [Event.sendto sock (data_dgram cfg.le ((bn + 1) % 65536) (rest.take 512)) true,
              Event.recvfrom (.dgram src m),
              Event.sendto src ([0, 5, 0, 0] ++ cs "invalid ack number" ++ [0]) ok],
            src, [], .invalid_ack_number⟩)
      ∧ Outcome.invalid_ack_number.exit_code = some 1
      ∧ (∀ (stream : Stream) (tr0 : List Event) (client : Addr),
          data_order ⟨none, false⟩
            ((rrq_session cfg env stream tr0 client).trace.drop tr0.length) = true) := by
  refine ⟨?_, rfl, ?_⟩
  · intro fuel rest bn tr sock m hgot hop hblk
    obtain ⟨h4, _, horg, pre, hpre⟩ := rrq_cycle_got cfg env _ _ _ _ _ m hgot
    have hmo := msg_opcode_octets cfg.le m (octets_take env hoct _ m horg)
    generalize hcy : rrq_cycle cfg env ((bn + 1) % 65536) (rest.take 512) RECV_RETRIES
      (tr ++ [Event.fread (rest.take 512)]) sock = cy at hgot hpre
    refine ⟨pre, cy.sock, env.sendto cy.trace cy.sock
      ([0, 5, 0, 0] ++ cs "invalid ack number" ++ [0]), ?_⟩
    rw [rrq_loop]
    simp only [hcy, hgot, hmo.1, hmo.2, ERROR, ACK]
    rw [if_neg (by omega), if_neg (by simpa using hop), if_pos hblk,
      tftp_send_error_fst _ _ _ _ _ _ invalid_ack_number_short, error_dgram_zero]
    nth_rewrite 1 [hpre]
    simp
  · intro stream tr0 client
    obtain ⟨evs, h1, h2⟩ := rrq_loop_data_order cfg env hoct
      (stream.readable.length / 512 + 1) stream.readable 0 tr0 client ⟨none, false⟩
      (Or.inl rfl)
    unfold rrq_session
    rw [h1]
    simpa using h2

/-- Witness of C16: a session awaiting the acknowledgement of block 2 receives
a duplicate of ACK(1); the READ of a 6-octet file keeps the order; a trace
that sends DATA(2) right after DATA(1) does not. -/
theorem invalid_ack_number_witness :
    (script_env [.dgram demo_client [0, 4, 0, 1]]).octets
      ∧ (∃ pre src ok, rrq_loop ⟨true, []⟩ (script_env [.dgram demo_client [0, 4, 0, 1]])
            (0 + 1) [1, 2, 3] 1 [] demo_client
          = ⟨pre ++ [Event.sendto demo_client
                (data_dgram true ((1 + 1) % 65536) ([1, 2, 3].take 512)) true,
              Event.recvfrom (.dgram src [0, 4, 0, 1]),
              Event.sendto src ([0, 5, 0, 0] ++ cs "invalid ack number" ++ [0]) ok],
            src, [], .invalid_ack_number⟩)
      ∧ data_order ⟨none, false⟩
          ((rrq_session ⟨true, []⟩ (script_env [.dgram demo_client [0, 4, 0, 1]])
            ⟨[72, 101, 108, 108, 111, 10], none⟩ [] demo_client).trace.drop 0) = true
      ∧ data_order ⟨none, false⟩ [Event.sendto demo_client [0, 3, 0, 1, 7] true,
          Event.sendto demo_client [0, 3, 0, 2, 7] true] = false :=
  have hoct : (script_env [.dgram demo_client [0, 4, 0, 1]]).octets :=
    script_env_octets _ (by
      intro src bytes hm x hx
      simp only [List.mem_singleton, RecvResult.dgram.injEq] at hm
      rw [hm.2] at hx
      revert x
      decide)
  have h := invalid_ack_number ⟨true, []⟩ (script_env [.dgram demo_client [0, 4, 0, 1]]) hoct
  ⟨hoct, h.1 0 [1, 2, 3] 1 [] demo_client [0, 4, 0, 1] (by decide) (by decide) (by decide),
    h.2.2 ⟨[72, 101, 108, 108, 111, 10], none⟩ [] demo_client, by decide⟩

/-! ## Unexpected messages in a WRITE session -/

/-- Claim C17: in an environment that delivers octets, in every state of a
WRITE session whose last accepted block is `bn`, when the retry loop takes a
received datagram (of at least 4 octets): a DATA whose block number differs
from `(bn + 1) mod 2^16` is answered with ERROR(0, "invalid block number"),
and a datagram whose opcode is neither DATA nor ERROR with
ERROR(0, "invalid message during transfer"); in both cases the error is sent
to the sender of the datagram as the last event, right after the receive (no
write to the sink and no ACK follow it), the sink is unchanged, and the
session exits with status 1. -/
theorem write_rejects_atomically (cfg : Config) (env : Env) (hoct : env.octets) (fuel bn : Nat)
    (sink : List Nat) (tr : List Event) (sock : Addr) (m : List Nat)
    (hgot : (wrq_cycle cfg env bn RECV_RETRIES tr sock).res = .got m) :
    (wire_u16 m 0 = 3 → wire_u16 m 2 ≠ (bn + 1) % 65536 →
        ∃ pre src ok, wrq_loop cfg env (fuel + 1) bn sink tr sock
          = ⟨pre ++ [Event.recvfrom (.dgram src m),
              Event.sendto src ([0, 5, 0, 0] ++ cs "invalid block number" ++ [0]) ok],
            src, sink, .invalid_block_number⟩)
      ∧ (wire_u16 m 0 ≠ 3 → wire_u16 m 0 ≠ 5 →
        ∃ pre src ok, wrq_loop cfg env (fuel + 1) bn sink tr sock
          = ⟨pre ++ [Event.recvfrom (.dgram src m),
              Event.sendto src ([0, 5, 0, 0] ++ cs "invalid message during transfer" ++ [0]) ok],
            src, sink, .invalid_message⟩)
      ∧ 4 ≤ m.length
      ∧ Outcome.invalid_block_number.exit_code = some 1
      ∧ Outcome.invalid_message.exit_code = some 1 := by
  obtain ⟨h4, _, horg, pre, hpre⟩ := wrq_cycle_got cfg env _ _ _ _ m hgot
  have hmo := msg_opcode_octets cfg.le m (octets_take env hoct _ m horg)
  generalize hcy : wrq_cycle cfg env bn RECV_RETRIES tr sock = cy at hgot hpre
  refine ⟨?_, ?_, h4, rfl, rfl⟩
  · intro hop hblk
    refine ⟨pre, cy.sock, env.sendto cy.trace cy.sock
      ([0, 5, 0, 0] ++ cs "invalid block number" ++ [0]), ?_⟩
    rw [wrq_loop]
    simp only [hcy, hgot, hmo.1, hmo.2, ERROR, DATA]
    rw [if_neg (by omega), if_neg (by simpa using hop), if_pos hblk,
      tftp_send_error_fst _ _ _ _ _ _ invalid_block_number_short, error_dgram_zero]
    nth_rewrite 1 [hpre]
    simp
  · intro hop hne
    refine ⟨pre, cy.sock, env.sendto cy.trace cy.sock
      ([0, 5, 0, 0] ++ cs "invalid message during transfer" ++ [0]), ?_⟩
    rw [wrq_loop]
    simp only [hcy, hgot, hmo.1, ERROR, DATA]
    rw [if_neg hne, if_pos hop,
      tftp_send_error_fst _ _ _ _ _ _ invalid_message_short, error_dgram_zero]
    nth_rewrite 1 [hpre]
    simp

/-- Witness of C17: after ACK(0) the peer sends DATA(5); another peer sends an
ACK. -/
theorem write_rejects_atomically_witness :
    (∃ pre src ok, wrq_loop ⟨true, []⟩ (script_env [.dgram demo_client [0, 3, 0, 5, 1, 2]])
          (0 + 1) 0 [] [] demo_client
        = ⟨pre ++ [Event.recvfrom (.dgram src [0, 3, 0, 5, 1, 2]),
            Event.sendto src ([0, 5, 0, 0] ++ cs "invalid block number" ++ [0]) ok],
          src, [], .invalid_block_number⟩)
      ∧ (∃ pre src ok, wrq_loop ⟨true, []⟩ (script_env [.dgram demo_client [0, 4, 0, 1]])
          (0 + 1) 0 [9] [] demo_client
        = ⟨pre ++ [Event.recvfrom (.dgram src [0, 4, 0, 1]),
            Event.sendto src ([0, 5, 0, 0] ++ cs "invalid message during transfer" ++ [0]) ok],
          src, [9], .invalid_message⟩) :=
  ⟨(write_rejects_atomically ⟨true, []⟩ (script_env [.dgram demo_client [0, 3, 0, 5, 1, 2]])
      (script_env_octets _ (by
        intro src bytes hm x hx
        simp only [List.mem_singleton, RecvResult.dgram.injEq] at hm
        rw [hm.2] at hx
        revert x
        decide)) 0 0 [] [] demo_client [0, 3, 0, 5, 1, 2] (by decide)).1
      (by decide) (by decide),
    (write_rejects_atomically ⟨true, []⟩ (script_env [.dgram demo_client [0, 4, 0, 1]])
      (script_env_octets _ (by
        intro src bytes hm x hx
        simp only [List.mem_singleton, RecvResult.dgram.injEq] at hm
        rw [hm.2] at hx
        revert x
        decide)) 0 0 [9] [] demo_client [0, 4, 0, 1] (by decide)).2.1
      (by decide) (by decide)⟩

/-! ## Block numbers wrap modulo 2^16 -/

/-- The read loop against a peer in lock step, from any state and for a file
of any length: the block counter wraps modulo 2^16. -/
theorem rrq_loop_wraps (cfg : Config) (env : Env) (client : Addr)
    (hsend : ∀ tr dst dg, env.sendto tr dst dg = true)
    (hpeer : ∀ tr dst b d ok,
      env.recvfrom (tr ++ [Event.sendto dst ([0, 3, b / 256, b % 256] ++ d) ok])
        = .dgram dst [0, 4, b / 256, b % 256])
    (fuel : Nat) :
    ∀ (rest : List Nat) (bn : Nat) (tr : List Event),
      rest.length < 512 * fuel →
      (rrq_loop cfg env fuel rest bn tr client).outcome = .completed
      ∧ sent_dgrams (rrq_loop cfg env fuel rest bn tr client).trace
          = sent_dgrams tr ++ (List.range (rest.length / 512 + 1)).map
              (fun i => (client,
                [0, 3, ((bn + 1 + i) % 65536) / 256, ((bn + 1 + i) % 65536) % 256]
                  ++ file_block rest i)) := by
  induction fuel with
  | zero => intro rest bn tr h; omega
  | succ fuel ih =>
    intro rest bn tr hlen
    have hb : (bn + 1) % 65536 < 65536 := Nat.mod_lt _ (by norm_num)
    generalize hbd : (bn + 1) % 65536 = b at hb
    have hcy : rrq_cycle cfg env b (List.take 512 rest) RECV_RETRIES
        (tr ++ [Event.fread (List.take 512 rest)]) client
        = ⟨tr ++ [Event.fread (List.take 512 rest)]
            ++ [Event.sendto client (data_dgram cfg.le b (List.take 512 rest)) true,
                Event.recvfrom (.dgram client [0, 4, b / 256, b % 256])],
            client, .got [0, 4, b / 256, b % 256]⟩ := by
      have hr : (tftp_recv_message env (tr ++ [Event.fread (List.take 512 rest)]
          ++ [Event.sendto client (data_dgram cfg.le b (List.take 512 rest)) true])).2
          = .dgram client [0, 4, b / 256, b % 256] := by
        rw [tftp_recv_message_snd, data_dgram_wire _ _ _ hb, hpeer]
        simp [MSG_SIZE]
      show rrq_cycle cfg env b (List.take 512 rest) (4 + 1) _ client = _
      rw [rrq_cycle_succ, hsend, hr]
      simp
    have hop : msg_opcode cfg.le [0, 4, b / 256, b % 256] = 4 := by
      rw [msg_opcode_wire _ _ _ _ (by norm_num) (by norm_num)]
    have hbl : msg_block_number cfg.le [0, 4, b / 256, b % 256] = b := by
      rw [msg_block_number_wire _ _ _ _ _ _ (by omega) (by omega)]
      omega
    rw [rrq_loop]
    simp only [hbd, hcy, hop, hbl, ERROR, ACK]
    simp only [Nat.reduceEqDiff, if_false, ne_eq, not_true_eq_false, not_false_eq_true]
    by_cases hshort : rest.length < 512
    · have h0 : rest.length / 512 = 0 := by omega
      simp only [List.length_take]
      rw [if_pos (by simp; omega)]
      refine ⟨rfl, ?_⟩
      have hr1 : List.range 1 = [0] := rfl
      simp [h0, hr1, sent_dgrams_append, sent_dgrams, data_dgram_wire _ _ _ hb, file_block, hbd]
    · simp only [List.length_take]
      rw [if_neg (by simp; omega)]
      obtain ⟨h1, h3⟩ := ih (rest.drop 512) b
        (tr ++ [Event.fread (List.take 512 rest)]
            ++ [Event.sendto client (data_dgram cfg.le b (List.take 512 rest)) true,
                Event.recvfrom (.dgram client [0, 4, b / 256, b % 256])])
        (by simp; omega)
      refine ⟨h1, ?_⟩
      rw [h3]
      have hq : rest.length / 512 = (rest.drop 512).length / 512 + 1 := by
        simp; omega
      rw [hq, List.range_succ_eq_map (n := (rest.drop 512).length / 512 + 1)]
      simp only [sent_dgrams_append, sent_dgrams, List.map_cons, List.map_map,
        data_dgram_wire _ _ _ hb, List.append_nil, List.nil_append,
        List.append_assoc, List.cons_append, List.singleton_append]
      congr 2
      · simp [file_block, hbd]
      · apply List.map_congr_left
        intro a _
        have e1 : (b + 1 + a) % 65536 = (bn + 1 + (a + 1)) % 65536 := by omega
        have e2 : 512 + 512 * a = 512 * (a + 1) := by omega
        simp [file_block, e1, e2]

/-- The write loop against a client in lock step, from any state and for any
number of payloads: the block counter wraps modulo 2^16. -/
theorem wrq_loop_wraps (cfg : Config) (env : Env) (client : Addr)
    (hsend : ∀ tr dst dg, env.sendto tr dst dg = true)
    (hwrite : ∀ tr d, env.fwrite tr d = d.length) :
    ∀ (ps : List (List Nat)) (fuel bn : Nat) (sink : List Nat) (tr : List Event),
      short_terminated ps = true → ps.length ≤ fuel → bn < 65536 →
      (∀ tr1 j b ok, j < ps.length → recv_count tr1 = recv_count tr + j →
        env.recvfrom (tr1 ++ [Event.sendto client [0, 4, b / 256, b % 256] ok])
          = .dgram client ([0, 3, ((b + 1) % 65536) / 256, ((b + 1) % 65536) % 256]
              ++ ps.getD j [])) →
      (wrq_loop cfg env fuel bn sink
          (tr ++ [Event.sendto client [0, 4, bn / 256, bn % 256] true]) client).outcome
        = .completed
      ∧ (wrq_loop cfg env fuel bn sink
          (tr ++ [Event.sendto client [0, 4, bn / 256, bn % 256] true]) client).sink
        = sink ++ ps.flatten
      ∧ sent_dgrams (wrq_loop cfg env fuel bn sink
          (tr ++ [Event.sendto client [0, 4, bn / 256, bn % 256] true]) client).trace
        = sent_dgrams tr ++ (List.range (ps.length + 1)).map
            (fun i => (client, [0, 4, ((bn + i) % 65536) / 256, ((bn + i) % 65536) % 256])) := by
  intro ps
  induction ps with
  | nil => intro fuel bn sink tr h; simp [short_terminated] at h
  | cons p rest ih =>
    intro fuel bn sink tr hps hfuel hbn hpeer
    obtain ⟨fuel, rfl⟩ : ∃ f, fuel = f + 1 := ⟨fuel - 1, by simp at hfuel; omega⟩
    have hp512 : p.length ≤ 512 := by
      cases rest with
      | nil => simp [short_terminated] at hps; omega
      | cons q qs => simp [short_terminated] at hps; omega
    have hb : (bn + 1) % 65536 < 65536 := Nat.mod_lt _ (by norm_num)
    have hbn0 : bn % 65536 = bn := Nat.mod_eq_of_lt hbn
    generalize hbd : (bn + 1) % 65536 = b at hb
    have hr : (tftp_recv_message env
        (tr ++ [Event.sendto client [0, 4, bn / 256, bn % 256] true])).2
        = .dgram client ([0, 3, b / 256, b % 256] ++ p) := by
      rw [tftp_recv_message_snd, hpeer tr 0 bn true (by simp) (by simp), hbd]
      simp only [List.getD_cons_zero]
      rw [List.take_of_length_le (by simp [MSG_SIZE]; omega)]
    have hcy : wrq_cycle cfg env bn RECV_RETRIES
        (tr ++ [Event.sendto client [0, 4, bn / 256, bn % 256] true]) client
        = ⟨tr ++ [Event.sendto client [0, 4, bn / 256, bn % 256] true]
            ++ [Event.recvfrom (.dgram client ([0, 3, b / 256, b % 256] ++ p))],
            client, .got ([0, 3, b / 256, b % 256] ++ p)⟩ := by
      show wrq_cycle cfg env bn (4 + 1) _ client = _
      rw [wrq_cycle_succ, hr]
      simp
    have hop : msg_opcode cfg.le ([0, 3, b / 256, b % 256] ++ p) = 3 := by
      show msg_opcode cfg.le (0 :: 3 :: _) = 3
      rw [msg_opcode_wire _ _ _ _ (by norm_num) (by norm_num)]
    have hbl : msg_block_number cfg.le ([0, 3, b / 256, b % 256] ++ p) = b := by
      show msg_block_number cfg.le (0 :: 3 :: b / 256 :: b % 256 :: _) = b
      rw [msg_block_number_wire _ _ _ _ _ _ (by omega) (by omega)]
      omega
    have hpay : msg_payload ([0, 3, b / 256, b % 256] ++ p) = p := by
      simp [msg_payload]
    have hack : ack_dgram cfg.le b = [0, 4, b / 256, b % 256] := ack_dgram_wire _ _ hb
    rw [wrq_loop]
    simp only [hbd, hcy, hop, hbl, hpay, hwrite, ERROR, DATA, tftp_send_ack_neg,
      tftp_send_ack_fst, hsend, hack, MSG_SIZE]
    simp only [Nat.reduceEqDiff, if_false, ne_eq, not_true_eq_false, Nat.min_self,
      List.take_length, Bool.true_eq_false, Int.natCast_nonneg, not_lt.mpr]
    have hr2 : List.range 2 = [0, 1] := rfl
    cases rest with
    | nil =>
      have hlt : p.length < 512 := by simpa [short_terminated] using hps
      rw [if_pos (by simp; omega)]
      simp [sent_dgrams_append, sent_dgrams, hr2, hbn0, hbd]
    | cons q qs =>
      have h512 : p.length = 512 := by
        simp [short_terminated] at hps; exact hps.1
      have hrest : short_terminated (q :: qs) = true := by
        simp [short_terminated] at hps; simpa [short_terminated] using hps.2
      rw [if_neg (by simp; omega)]
      have hT : tr ++ [Event.sendto client [0, 4, bn / 256, bn % 256] true]
            ++ [Event.recvfrom (.dgram client ([0, 3, b / 256, b % 256] ++ p))]
            ++ [Event.fwrite p p.length]
            ++ [Event.sendto client [0, 4, b / 256, b % 256] true]
          = (tr ++ [Event.sendto client [0, 4, bn / 256, bn % 256] true,
              Event.recvfrom (.dgram client ([0, 3, b / 256, b % 256] ++ p)),
              Event.fwrite p p.length])
            ++ [Event.sendto client [0, 4, b / 256, b % 256] true] := by simp
      rw [hT]
      obtain ⟨h1, h2, h3⟩ := ih fuel b (sink ++ p)
        (tr ++ [Event.sendto client [0, 4, bn / 256, bn % 256] true,
              Event.recvfrom (.dgram client ([0, 3, b / 256, b % 256] ++ p)),
              Event.fwrite p p.length])
        hrest (by simp at hfuel ⊢; omega) hb
        (by
          intro tr1 j b2 ok hj hc
          have := hpeer tr1 (j + 1) b2 ok (by simp at hj ⊢; omega)
            (by simp [recv_count_append, recv_count] at hc ⊢; omega)
          rw [this]
          simp)
      refine ⟨h1, ?_, ?_⟩
      · rw [h2]; simp
      · rw [h3]
        have hl : (p :: q :: qs).length + 1 = ((q :: qs).length + 1) + 1 := by simp
        rw [hl, List.range_succ_eq_map (n := (q :: qs).length + 1)]
        simp only [sent_dgrams_append, sent_dgrams, List.map_cons, List.map_map,
          List.append_assoc, List.cons_append, List.singleton_append, List.nil_append,
          List.append_nil, Nat.add_zero, hbn0]
        congr 2
        apply List.map_congr_left
        intro a _
        have e1 : (b + a) % 65536 = (bn + (a + 1)) % 65536 := by omega
        simp [e1]

theorem relay_peer_acks (client : Addr) (ps : List (List Nat)) (tr : List Event) (dst : Addr)
    (b : Nat) (d : List Nat) (ok : Bool) :
    relay_peer client ps (tr ++ [Event.sendto dst ([0, 3, b / 256, b % 256] ++ d) ok])
      = .dgram dst [0, 4, b / 256, b % 256] := by
  simp [relay_peer]

theorem relay_peer_uploads (client : Addr) (ps : List (List Nat)) (tr : List Event) (j b : Nat)
    (ok : Bool) (hc : recv_count tr = recv_count [] + j) :
    relay_peer client ps (tr ++ [Event.sendto client [0, 4, b / 256, b % 256] ok])
      = .dgram client ([0, 3, ((b + 1) % 65536) / 256, ((b + 1) % 65536) % 256]
          ++ ps.getD j []) := by
  have hj : recv_count tr = j := by simpa [recv_count] using hc
  have hb : 256 * (b / 256) + b % 256 = b := Nat.div_add_mod b 256
  simp [relay_peer, recv_count_append, recv_count, hj, hb]

/-- Claim C18: with sends and writes that succeed and a peer in lock step,
for a file of any length the READ session completes and the block it sends
for the octets from offset 512 * i carries block number (i + 1) mod 65536 (and
the loop started from any counter `bn` numbers it (bn + 1 + i) mod 65536),
each being acknowledged with exactly that number; for any number of uploaded
payloads, the i-th of them carried by a DATA numbered i mod 65536, the WRITE
session completes, writes all of them and acknowledges the i-th with
i mod 65536 after ACK(0) (and the loop started from any counter `bn` below
2^16 acknowledges with (bn + i) mod 65536).  No bound on the number of blocks
is assumed: the block after 65535 is numbered 0 and the transfer goes on. -/
theorem block_numbers_wrap (cfg : Config) (env : Env) (client : Addr) (content : List Nat)
    (ps : List (List Nat)) (fuel bn : Nat) (sink : List Nat) (tr0 : List Event)
    (hsend : ∀ tr dst dg, env.sendto tr dst dg = true)
    (hwrite : ∀ tr d, env.fwrite tr d = d.length)
    (hacks : ∀ tr dst b d ok,
      env.recvfrom (tr ++ [Event.sendto dst ([0, 3, b / 256, b % 256] ++ d) ok])
        = .dgram dst [0, 4, b / 256, b % 256])
    (hps : short_terminated ps = true) (hfuel : ps.length ≤ fuel) (hbn : bn < 65536)
    (huploads : ∀ tr j b ok, j < ps.length → recv_count tr = recv_count tr0 + j →
      env.recvfrom (tr ++ [Event.sendto client [0, 4, b / 256, b % 256] ok])
        = .dgram client ([0, 3, ((b + 1) % 65536) / 256, ((b + 1) % 65536) % 256]
            ++ ps.getD j [])) :
    ((rrq_session cfg env ⟨content, none⟩ tr0 client).outcome = .completed
      ∧ sent_dgrams (rrq_session cfg env ⟨content, none⟩ tr0 client).trace
        = sent_dgrams tr0 ++ (List.range (content.length / 512 + 1)).map
            (fun i => (client, [0, 3, ((i + 1) % 65536) / 256, ((i + 1) % 65536) % 256]
              ++ file_block content i)))
    ∧ ((rrq_loop cfg env (content.length / 512 + 1) content bn tr0 client).outcome = .completed
      ∧ sent_dgrams (rrq_loop cfg env (content.length / 512 + 1) content bn tr0 client).trace
        = sent_dgrams tr0 ++ (List.range (content.length / 512 + 1)).map
            (fun i => (client,
              [0, 3, ((bn + 1 + i) % 65536) / 256, ((bn + 1 + i) % 65536) % 256]
                ++ file_block content i)))
    ∧ ((wrq_session cfg env fuel tr0 client).outcome = .completed
      ∧ (wrq_session cfg env fuel tr0 client).sink = ps.flatten
      ∧ sent_dgrams (wrq_session cfg env fuel tr0 client).trace
        = sent_dgrams tr0 ++ (List.range (ps.length + 1)).map
            (fun i => (client, [0, 4, (i % 65536) / 256, (i % 65536) % 256])))
    ∧ ((wrq_loop cfg env fuel bn sink
          (tr0 ++ [Event.sendto client [0, 4, bn / 256, bn % 256] true]) client).outcome
        = .completed
      ∧ (wrq_loop cfg env fuel bn sink
          (tr0 ++ [Event.sendto client [0, 4, bn / 256, bn % 256] true]) client).sink
        = sink ++ ps.flatten
      ∧ sent_dgrams (wrq_loop cfg env fuel bn sink
          (tr0 ++ [Event.sendto client [0, 4, bn / 256, bn % 256] true]) client).trace
        = sent_dgrams tr0 ++ (List.range (ps.length + 1)).map
            (fun i => (client,
              [0, 4, ((bn + i) % 65536) / 256, ((bn + i) % 65536) % 256]))) := by
  have hR := rrq_loop_wraps cfg env client hsend hacks (content.length / 512 + 1) content
  have hW := wrq_loop_wraps cfg env client hsend hwrite ps fuel
  refine ⟨?_, hR bn tr0 (by omega), ?_, hW bn sink tr0 hps hfuel hbn huploads⟩
  · obtain ⟨h1, h2⟩ := hR 0 tr0 (by omega)
    refine ⟨h1, ?_⟩
    show sent_dgrams (rrq_loop cfg env (content.length / 512 + 1) content 0 tr0 client).trace = _
    rw [h2]
    congr 1
    apply List.map_congr_left
    intro i _
    have e : 0 + 1 + i = i + 1 := by omega
    rw [e]
  · have hack : ack_dgram cfg.le 0 = [0, 4, 0, 0] := ack_dgram_wire _ _ (by norm_num)
    have hs : wrq_session cfg env fuel tr0 client
        = wrq_loop cfg env fuel 0 []
            (tr0 ++ [Event.sendto client [0, 4, 0 / 256, 0 % 256] true]) client := by
      unfold wrq_session
      simp only [tftp_send_ack_neg, tftp_send_ack_fst, hsend, hack]
      simp
    obtain ⟨h1, h2, h3⟩ := hW 0 [] tr0 hps hfuel (by norm_num) huploads
    rw [hs]
    refine ⟨h1, by simpa using h2, ?_⟩
    rw [h3]
    congr 1
    apply List.map_congr_left
    intro i _
    have e : 0 + i = i := by omega
    rw [e]

set_option maxRecDepth 100000 in
/-- Witness of C18: from block counter 65534, a file of 600 octets is sent as
DATA(65535) with 512 octets and DATA(0) with 88; an upload of a full block and
a block of one octet is acknowledged with ACK(65535) and ACK(0) after
ACK(65534); both sessions complete. -/
theorem block_numbers_wrap_witness :
    (sent_dgrams (rrq_loop ⟨true, []⟩ (relay_env demo_client [List.replicate 512 7, [1]])
          ((List.replicate 600 7).length / 512 + 1) (List.replicate 600 7) 65534 []
          demo_client).trace).map (fun p => (p.2.take 4, p.2.length - 4))
        = [([0, 3, 255, 255], 512), ([0, 3, 0, 0], 88)]
      ∧ sent_dgrams (wrq_loop ⟨true, []⟩ (relay_env demo_client [List.replicate 512 7, [1]])
          2 65534 [] ([] ++ [Event.sendto demo_client [0, 4, 65534 / 256, 65534 % 256] true])
          demo_client).trace
        = [(demo_client, [0, 4, 255, 254]), (demo_client, [0, 4, 255, 255]),
            (demo_client, [0, 4, 0, 0])]
      ∧ (rrq_session ⟨true, []⟩ (relay_env demo_client [List.replicate 512 7, [1]])
          ⟨List.replicate 600 7, none⟩ [] demo_client).outcome = .completed
      ∧ (wrq_session ⟨true, []⟩ (relay_env demo_client [List.replicate 512 7, [1]]) 2 []
          demo_client).sink = List.replicate 512 7 ++ [1] :=
  have h := block_numbers_wrap ⟨true, []⟩ (relay_env demo_client [List.replicate 512 7, [1]])
    demo_client (List.replicate 600 7) [List.replicate 512 7, [1]] 2 65534 [] []
    (fun _ _ _ => rfl) (fun _ _ => rfl) (relay_peer_acks demo_client _) (by decide) (by decide)
    (by decide) (fun tr j b ok _ hc => relay_peer_uploads demo_client _ tr j b ok hc)
  ⟨(congrArg (List.map (fun p => (p.2.take 4, p.2.length - 4))) h.2.1.2).trans (by decide),
    h.2.2.2.2.2.trans (by decide), h.1.1, h.2.2.1.2.1.trans (by decide)⟩

/-! ## Local stream failures -/

/-- The test `c < 0` after `fwrite` never fires: no WRITE session ends with a
failed write. -/
theorem fwrite_check_dead (cfg : Config) (env : Env) (fuel : Nat) :
    ∀ (bn : Nat) (sink : List Nat) (tr : List Event) (sock : Addr),
      (wrq_loop cfg env fuel bn sink tr sock).outcome ≠ .fwrite_failed := by
  induction fuel with
  | zero => intro bn sink tr sock; simp [wrq_loop]
  | succ fuel ih =>
    intro bn sink tr sock
    rw [wrq_loop]
    have he := wrq_cycle_exit cfg env bn RECV_RETRIES tr sock
    generalize wrq_cycle cfg env bn RECV_RETRIES tr sock = cy at he
    cases hres : cy.res with
    | got m =>
      simp only
      split_ifs with h1 h2 h3 h4
      · simp
      · simp
      · simp
      · exact absurd h4 (by simp)
      · simp
      · simp
      · exact ih _ _ _ _
    | exhausted => simp
    | exit o => rcases he o hres with h | h <;> simp [h]

/-- A write that stores nothing is acknowledged: against a full sink, the
upload of one block of 3 octets is acknowledged with ACK(1) and reported as
completed, with an empty file. -/
theorem short_write_acknowledged :
    wrq_session ⟨true, []⟩ (full_disk_env [.dgram demo_client [0, 3, 0, 1, 1, 2, 3]]) 1 []
        demo_client
      = ⟨[Event.sendto demo_client [0, 4, 0, 0] true,
          Event.recvfrom (.dgram demo_client [0, 3, 0, 1, 1, 2, 3]),
          Event.fwrite [1, 2, 3] 0,
          Event.sendto demo_client [0, 4, 0, 1] true],
        demo_client, [], .completed⟩ := by
  decide

/-- Claim C19 (counterexample): a READ of a 6-octet file whose reading fails
after 3 octets sends these 3 octets as DATA(1) and, once ACK(1) arrives,
reports "transfer completed" with exit status 0. -/
theorem read_failure_counterexample :
    rrq_session ⟨true, []⟩ (script_env [.dgram demo_client [0, 4, 0, 1]])
        ⟨[72, 101, 108, 108, 111, 10], some 3⟩ [] demo_client
      = ⟨[Event.fread [72, 101, 108],
          Event.sendto demo_client [0, 3, 0, 1, 72, 101, 108] true,
          Event.recvfrom (.dgram demo_client [0, 4, 0, 1])],
        demo_client, [], .completed⟩
    ∧ Outcome.completed.exit_code = some 0 := by
  decide

/-- Claim C19 (amended): in a READ session a failure of reading from the source
before the end of the file is not detected.  For a file whose reading fails at
offset `k`, in every environment the session is the session of the file that
ends at `k`; with sends that succeed and a peer in lock step it sends the `k`
octets read before the failure in `k / 512 + 1` blocks numbered from 1 (modulo
2^16), the last one short, and reports "transfer completed" with exit status
0. -/
theorem read_failure_as_end_of_file (cfg : Config) (env : Env) (content : List Nat) (k : Nat)
    (tr0 : List Event) (client : Addr)
    (hk : k < content.length)
    (hsend : ∀ tr dst dg, env.sendto tr dst dg = true)
    (hacks : ∀ tr dst b d ok,
      env.recvfrom (tr ++ [Event.sendto dst ([0, 3, b / 256, b % 256] ++ d) ok])
        = .dgram dst [0, 4, b / 256, b % 256]) :
    (∀ env2 : Env, rrq_session cfg env2 ⟨content, some k⟩ tr0 client
        = rrq_session cfg env2 ⟨content.take k, none⟩ tr0 client)
      ∧ (rrq_session cfg env ⟨content, some k⟩ tr0 client).outcome = .completed
      ∧ (rrq_session cfg env ⟨content, some k⟩ tr0 client).outcome.exit_code = some 0
      ∧ sent_dgrams (rrq_session cfg env ⟨content, some k⟩ tr0 client).trace
        = sent_dgrams tr0 ++ (List.range (k / 512 + 1)).map
            (fun i => (client, [0, 3, ((i + 1) % 65536) / 256, ((i + 1) % 65536) % 256]
              ++ file_block (content.take k) i))
      ∧ (file_block (content.take k) (k / 512)).length = k % 512 := by
  have hlen : (content.take k).length = k := by simp; omega
  have hs : ∀ env2 : Env, rrq_session cfg env2 ⟨content, some k⟩ tr0 client
      = rrq_loop cfg env2 (k / 512 + 1) (content.take k) 0 tr0 client := by
    intro env2
    simp only [rrq_session, Stream.readable]
    rw [hlen]
  obtain ⟨h1, h2⟩ := rrq_loop_wraps cfg env client hsend hacks (k / 512 + 1)
    (content.take k) 0 tr0 (by rw [hlen]; omega)
  refine ⟨?_, ?_, ?_, ?_, ?_⟩
  · intro env2
    rw [hs env2]
    simp only [rrq_session, Stream.readable]
    rw [hlen]
  · rw [hs, h1]
  · rw [hs, h1]; rfl
  · rw [hs, h2, hlen]
    congr 1
    apply List.map_congr_left
    intro i _
    have e : 0 + 1 + i = i + 1 := by omega
    rw [e]
  · simp only [file_block, List.length_take, List.length_drop]
    omega

/-- Witness of C19 (amended): the file of 6 octets whose reading fails after 3
octets, against the peer in lock step. -/
theorem read_failure_as_end_of_file_witness :
    3 < [72, 101, 108, 108, 111, 10].length
      ∧ (rrq_session ⟨true, []⟩ (demo_env []) ⟨[72, 101, 108, 108, 111, 10], some 3⟩ []
          demo_client).outcome = .completed
      ∧ sent_dgrams (rrq_session ⟨true, []⟩ (demo_env []) ⟨[72, 101, 108, 108, 111, 10], some 3⟩
          [] demo_client).trace
        = [(demo_client, [0, 3, 0, 1, 72, 101, 108])] :=
  have h := read_failure_as_end_of_file ⟨true, []⟩ (demo_env []) [72, 101, 108, 108, 111, 10] 3
    [] demo_client (by decide) (fun _ _ _ => rfl) lockstep_peer_answers
  ⟨by decide, h.2.1, h.2.2.2.1.trans (by decide)⟩

/-! ## The path check and the components of a file name -/

theorem components_ne_nil : ∀ fn : List Nat, components fn ≠ [] := by
  intro fn
  cases fn with
  | nil => simp [components]
  | cons c rest =>
    rw [components]
    split_ifs
    · simp
    · split <;> simp

/-- The first component of a name with several components is followed by a
`/` in the name. -/
theorem components_head : ∀ (fn h : List Nat) (t : List (List Nat)),
    components fn = h :: t → t ≠ [] → h ++ [47] <+: fn := by
  intro fn
  induction fn with
  | nil => intro h t hc ht; simp [components] at hc; exact absurd hc.2 ht
  | cons c rest ih =>
    intro h t hc ht
    rw [components] at hc
    by_cases h47 : c = 47
    · rw [if_pos h47] at hc
      simp only [List.cons.injEq] at hc
      rw [← hc.1, h47]
      exact ⟨rest, rfl⟩
    · rw [if_neg h47] at hc
      cases hr : components rest with
      | nil => exact absurd hr (components_ne_nil rest)
      | cons h2 t2 =>
        rw [hr] at hc
        simp only [List.cons.injEq] at hc
        obtain ⟨s, hs⟩ := ih h2 t2 hr (by rw [hc.2]; exact ht)
        rw [← hc.1]
        exact ⟨s, by rw [← hs]; simp⟩

theorem mem_dropLast_cons (x h : List Nat) (t : List (List Nat))
    (hx : x ∈ (h :: t).dropLast) : t ≠ [] ∧ (x = h ∨ x ∈ t.dropLast) := by
  cases t with
  | nil => simp at hx
  | cons a b =>
    rw [List.dropLast_cons₂] at hx
    exact ⟨by simp, by simpa using hx⟩

/-- A component `..` after the first one and before the last one shows as
`/../` in the name. -/
theorem components_tail : ∀ (fn h : List Nat) (t : List (List Nat)),
    components fn = h :: t → cs ".." ∈ t.dropLast → cs "/../" <:+: fn := by
  intro fn
  induction fn with
  | nil => intro h t hc hm; simp [components] at hc; rw [hc.2] at hm; simp at hm
  | cons c rest ih =>
    intro h t hc hm
    rw [components] at hc
    by_cases h47 : c = 47
    · rw [if_pos h47] at hc
      simp only [List.cons.injEq] at hc
      rw [← hc.2] at hm
      cases hr : components rest with
      | nil => exact absurd hr (components_ne_nil rest)
      | cons h2 t2 =>
        rw [hr] at hm
        obtain ⟨hne, hcase⟩ := mem_dropLast_cons _ _ _ hm
        rcases hcase with heq | hin
        · obtain ⟨s, hs⟩ := components_head rest h2 t2 hr hne
          rw [← heq] at hs
          refine ⟨[], s, ?_⟩
          rw [h47, ← hs]
          rfl
        · obtain ⟨a, b, hab⟩ := ih h2 t2 hr hin
          exact ⟨c :: a, b, by rw [← hab]; simp⟩
    · rw [if_neg h47] at hc
      cases hr : components rest with
      | nil => exact absurd hr (components_ne_nil rest)
      | cons h2 t2 =>
        rw [hr] at hc
        simp only [List.cons.injEq] at hc
        rw [← hc.2] at hm
        obtain ⟨a, b, hab⟩ := ih h2 t2 hr hm
        exact ⟨c :: a, b, by rw [← hab]; simp⟩

/-- A component `..` that is not the last one shows as a leading `../` or as
`/../` in the name. -/
theorem dotdot_inside (fn : List Nat) (hm : cs ".." ∈ (components fn).dropLast) :
    cs "../" <+: fn ∨ cs "/../" <:+: fn := by
  cases hr : components fn with
  | nil => exact absurd hr (components_ne_nil fn)
  | cons h t =>
    rw [hr] at hm
    obtain ⟨hne, hcase⟩ := mem_dropLast_cons _ _ _ hm
    rcases hcase with heq | hin
    · left
      have := components_head fn h t hr hne
      rw [← heq] at this
      exact this
    · right
      exact components_tail fn h t hr hin

theorem resolves_above_other (depth : Nat) (c : List Nat) (rest : List (List Nat))
    (hc : c ≠ cs "..") :
    resolves_above depth (c :: rest)
      = if c = [] ∨ c = cs "." then resolves_above depth rest
        else resolves_above (depth + 1) rest := by
  conv_lhs => unfold resolves_above
  rw [if_neg hc]

/-- A walk whose only possible `..` is its last component goes above the base
only when it ends in `..`. -/
theorem resolves_above_last : ∀ (comps : List (List Nat)) (depth : Nat),
    cs ".." ∉ comps.dropLast → resolves_above depth comps = true →
    comps.getLast? = some (cs "..") := by
  intro comps
  induction comps with
  | nil => intro depth _ h; simp [resolves_above] at h
  | cons c rest ih =>
    intro depth hno h
    cases rest with
    | nil =>
      by_cases hc : c = cs ".."
      · simp [hc]
      · rw [resolves_above_other _ _ _ hc] at h
        simp [resolves_above] at h
    | cons a b =>
      rw [List.dropLast_cons₂] at hno
      simp only [List.mem_cons, not_or] at hno
      have hc : c ≠ cs ".." := fun e => hno.1 e.symm
      rw [resolves_above_other _ _ _ hc] at h
      rw [List.getLast?_cons_cons]
      split_ifs at h
      · exact ih _ hno.2 h
      · exact ih _ hno.2 h

/-- Claim C20: for every file name that passes the path check of
`tftp_handle_request` (in particular every accepted name that does not begin
with `/`), every component equal to `..` (splitting the name at `/`) is the
last component: no component follows a `..`, so an accepted name cannot climb
out of a directory and descend again; and from any depth, an accepted name
whose lexical resolution goes above the base directory ends in a `..`
component. -/
theorem dotdot_only_last (base fn : List Nat) (hacc : path_rejected base fn = false) :
    cs ".." ∉ (components fn).dropLast
      ∧ (∀ pre post, components fn = pre ++ cs ".." :: post → post = [])
      ∧ (∀ depth, resolves_above depth (components fn) = true →
          (components fn).getLast? = some (cs "..")) := by
  have hno : cs ".." ∉ (components fn).dropLast := by
    intro hm
    have h1 : strncmp fn (cs "../") 3 = 0 ↔ cs "../" <+: fn :=
      strncmp_eq_zero_iff (cs "../") (by decide) fn
    have h2 := strstr_isSome_iff (cs "/../") fn
    unfold path_rejected at hacc
    simp only [Bool.or_eq_false_iff, beq_eq_false_iff_ne, ne_eq] at hacc
    rcases dotdot_inside fn hm with h | h
    · exact hacc.1.1 (h1.mpr h)
    · have := h2.mpr h
      rw [hacc.1.2] at this
      exact absurd this (by simp)
  refine ⟨hno, ?_, fun depth h => resolves_above_last _ depth hno h⟩
  intro pre post hc
  by_contra hp
  apply hno
  rw [hc, List.dropLast_append_of_ne_nil _ (by simp)]
  cases post with
  | nil => exact absurd rfl hp
  | cons a b => simp

/-- Witness of C20: with base directory `/srv/tftp` the name `./..` is
accepted, resolves above the base directory and ends in `..`; so does `..`;
the name `a/../b`, in which a component follows `..`, is refused. -/
theorem dotdot_only_last_witness :
    path_rejected (cs "/srv/tftp") (cs "./..") = false
      ∧ components (cs "./..") = [cs ".", cs ".."]
      ∧ resolves_above 0 (components (cs "./..")) = true
      ∧ (components (cs "./..")).getLast? = some (cs "..")
      ∧ path_rejected (cs "/srv/tftp") (cs "..") = false
      ∧ resolves_above 0 (components (cs "..")) = true
      ∧ components (cs "a/../b") = [cs "a", cs "..", cs "b"]
      ∧ path_rejected (cs "/srv/tftp") (cs "a/../b") = true :=
  ⟨by decide, by decide, by decide,
    (dotdot_only_last (cs "/srv/tftp") (cs "./..") (by decide)).2.2 0 (by decide),
    by decide, by decide, by decide, by decide⟩

end Tftp
